import Mathlib

/-! ConsoleCalculator: a shallow embedding of `calculator.cpp`.

The console calculator reads characters from `std::cin`, lexes them into
tokens (`token_stream::get`), evaluates them with a recursive-descent grammar
(`expression`, `term`, `primary`) and runs a session loop (`calculate`) over a
list of user variables.

Modelling conventions.

* A `double` is the rational number it denotes (`ℚ`).  Reading a `double`
  from `std::cin` converts as `strtod` does: to the nearest `double`, a tie to
  the even significand, and a value beyond `DBL_MAX` stores `DBL_MAX` and sets
  `failbit`.  The operations `+`, `-`, `*`, `/` on values are exact: their
  rounding, infinities and NaN are outside the model.  The C library function
  `pow` is a parameter `pow` of the evaluator.
* `std::cin` is the list of unread characters together with its `eofbit` and
  `failbit`; the stream operations the program uses follow the C++ standard
  library (C++11 and later), the extraction of a `double` follows the GNU
  implementation of `num_get` in the "C" locale.
* The global `token_stream ts`, the global `vecUserVars` and what was written
  to `std::cout` and `std::cerr` (one list, in the order of writing) are fields
  of one explicit state `Calc`.
* A `throw std::runtime_error(..)` is the result `Res.throw e s`, with the
  state at the point of the throw.  Three ways of leaving the model are kept
  apart as `Res.abort`: reading a `char` that was never assigned, a loop that
  appends to a string for ever, and running out of the recursion budget.
* Recursion and `while (true)` loops of the evaluator take a budget (`Nat`);
  the theorems hold for every budget that is large enough.
-/

namespace Calculator

/-! ## Constants and tables (lines 15-58) -/

/-- Number of accepted operators. -/
def NUM_OP : Nat := 10

/-- Number of system constants. -/
def NUM_SYSVAR : Nat := 4

/-- Number of protected command names. -/
def NUM_COMMAND : Nat := 5

/-- Number of option/target keywords. -/
def NUM_OPTIONS : Nat := 4

/-- Value carried by a delete token that deletes every variable. -/
def DELETE_ALL : ℚ := -1

/-- Flag of `display sysvars`. -/
def DISP_SYS_FLAG : Int := 1

/-- Flag of `display uvars`. -/
def DISP_USER_FLAG : Int := 2

/-- Flag of `display all`. -/
def DISP_ALL_FLAG : Int := 4

/-- Flag of `display operators`. -/
def DISP_OP_FLAG : Int := 8

/-- Token kind of a floating-point number. -/
def number : Char := '9'

/-- Token kind of the exit command. -/
def quit : Char := 'q'

/-- Token kind of the print command. -/
def print : Char := ';'

/-- Token kind of the help command. -/
def help : Char := 'h'

/-- Token kind of the display command. -/
def disp : Char := 'd'

/-- Token kind of the delete command. -/
def del : Char := 'k'

/-- Token kind of a variable declaration or assignment. -/
def setvar : Char := 'v'

/-- Default token kind, the NUL character. -/
def empt : Char := Char.ofNat 0

/-- Values of the system constants `e`, `g`, `phi`, `pi`, as the decimal
literals of the source. -/
def syscons : List ℚ :=
  [2718281828459045 / 1000000000000000, 980665 / 100000,
   16180339887 / 10000000000, 31415926535 / 10000000000]

/-- Reserved names: system constants first, then commands, then options. -/
def reservedVarNames : List (List Char) :=
  [['e'], ['g'], ['p', 'h', 'i'], ['p', 'i'],
   ['h', 'e', 'l', 'p'], ['q'], ['q', 'u', 'i', 't'],
   ['d', 'e', 'l', 'e', 't', 'e'], ['d', 'i', 's', 'p', 'l', 'a', 'y'],
   ['s', 'y', 's', 'v', 'a', 'r', 's'], ['u', 'v', 'a', 'r', 's'], ['a', 'l', 'l'],
   ['o', 'p', 'e', 'r', 'a', 't', 'o', 'r', 's']]

/-- Operator characters. -/
def operators : List Char := ['(', ')', ';', '=', '+', '-', '*', '/', '%', '^']

/-! ## Data model (lines 72-244) -/

/-- User defined variable: a name and its current value. -/
structure UserVar where
  name : List Char
  val : ℚ
deriving DecidableEq, Repr

/-- Token: a kind, a value (for numbers and flags) and a name (for variables). -/
structure token where
  kind_ : Char
  value_ : ℚ
  name_ : List Char
deriving DecidableEq, Repr

/-- Constructor `token(char ch)`. -/
def token.ofKind (ch : Char) : token := ⟨ch, 0, []⟩

/-- Constructor `token(double val)`. -/
def token.ofValue (val : ℚ) : token := ⟨number, val, []⟩

/-- Constructor `token(char ch, double val)`. -/
def token.ofKindValue (ch : Char) (val : ℚ) : token := ⟨ch, val, []⟩

/-- Constructor `token(char ch, double val, std::string nm)`. -/
def token.ofKindValueName (ch : Char) (val : ℚ) (nm : List Char) : token := ⟨ch, val, nm⟩

/-- The token stream: is there a token in the buffer, and the buffer. -/
structure token_stream where
  full : Bool
  buffer : token
deriving DecidableEq, Repr

/-- The input stream `std::cin`: unread characters and state bits. -/
structure istream where
  chars : List Char
  eofbit : Bool
  failbit : Bool
deriving DecidableEq, Repr

/-- Every `std::runtime_error` the program throws, by the place of the throw. -/
inductive Err where
  /-- "putback() into a full buffer" -/
  | putbackFull
  /-- "Bad argument for display. ..." -/
  | badDisplayArgument
  /-- "Cannot delete a variable that does not exist!" -/
  | cannotDelete
  /-- "Command not found." -/
  | commandNotFound
  /-- "Tried to use an undeclared variable!" -/
  | undeclaredVariable
  /-- "Bad token" -/
  | badToken
  /-- "')' expected" -/
  | rparenExpected
  /-- "Tried to create primary from command name" -/
  | primaryFromCommand
  /-- "Failed to create a negative primary from alpha chars" -/
  | negativePrimaryFailed
  /-- "primary expected" -/
  | primaryExpected
  /-- "Reached bottom of primary, something very wrong." -/
  | bottomOfPrimary
  /-- "divide by zero" -/
  | divideByZero
  /-- "modulo by zero" -/
  | moduloByZero
  /-- "Attempted to get non-existant system constant ..." -/
  | noSystemConstant
  /-- "Tried to access non-existant user var ..." -/
  | noUserVar
  /-- "Invalid display code for display command." -/
  | invalidDisplayCode
  /-- "Invalid target name for deletion" -/
  | invalidDeletionTarget
  /-- "Tried to create an existing variable..." -/
  | existingVariable
  /-- "Invalid setvar assign value, must be 0 or 1" -/
  | invalidSetvar
  /-- "No matching kind for token" -/
  | noMatchingKind
deriving DecidableEq, Repr

/-- What the program writes, one entry per message. -/
inductive Output where
  /-- The prompt of the session loop. -/
  | promptText
  /-- The text `= ` written before an expression is evaluated. -/
  | resultMark
  /-- The value of the expression, which ends the line begun by `= `. -/
  | result (v : ℚ)
  /-- The help text. -/
  | helpText
  /-- "Displaying system constants:" and the four constants. -/
  | displaySys
  /-- "No user variables to display." -/
  | noUserVars
  /-- "Displaying all n user variables:" and the variables. -/
  | displayUser (vars : List UserVar)
  /-- "Displaying all system constants, then all user variables..." -/
  | displayAll
  /-- "Displaying valid operators:" and the operators. -/
  | displayOps
  /-- "Cleared all user variables." -/
  | cleared
  /-- "Succesfully erased variable name" -/
  | erased (name : List Char)
  /-- "Created new user variable name with value v" -/
  | created (name : List Char) (v : ℚ)
  /-- "User variable name updated, was old, now name = new" -/
  | updated (name : List Char) (old new : ℚ)
  /-- "Hit default in primary with token ..." -/
  | hitDefault (t : token)
  /-- The message of a caught error, written to `std::cerr`. -/
  | cerr (e : Err)
deriving DecidableEq, Repr

/-- The whole program state: `std::cin`, the global token stream `ts`, the
global `vecUserVars`, and what has been written so far. -/
structure Calc where
  cin : istream
  ts : token_stream
  vecUserVars : List UserVar
  cout : List Output
deriving DecidableEq, Repr

/-- Ways in which a run leaves the model. -/
inductive Abort where
  /-- A `char` or `double` is read that no extraction ever assigned. -/
  | indeterminate
  /-- A `while (isalpha(ch))` loop appends for ever: `cin.get` fails and
  leaves the alphabetic `ch` in place (ends in `std::bad_alloc`). -/
  | bad_alloc
  /-- The recursion budget of the model ran out. -/
  | fuel
deriving DecidableEq, Repr

/-- Result of running a piece of the program. -/
inductive Res (α : Type) where
  | ok (a : α) (s : Calc)
  | throw (e : Err) (s : Calc)
  | abort (a : Abort)
deriving DecidableEq, Repr

/-- Sequencing: run `f` on a normal result, pass a throw or an abort on. -/
def Res.bind {α β : Type} (r : Res α) (f : α → Calc → Res β) : Res β :=
  match r with
  | .ok a s => f a s
  | .throw e s => .throw e s
  | .abort a => .abort a

/-! ## `std::cin` -/

/-- `isspace` in the "C" locale. -/
def isspace (c : Char) : Bool :=
  c = ' ' || c = '\t' || c = '\n' || c = Char.ofNat 11 || c = Char.ofNat 12 || c = '\r'

/-- `std::cin >> ch`: skip white space and read one character.  `none` when
nothing is read (then `ch` keeps its old value and `failbit` is set). -/
def istream.extract (s : istream) : Option Char × istream :=
  if s.eofbit || s.failbit then (none, { s with failbit := true })
  else
    match s.chars.dropWhile isspace with
    | [] => (none, { chars := [], eofbit := true, failbit := true })
    | c :: cs => (some c, { s with chars := cs })

/-- `std::cin.get(ch)`: read one character, white space included. -/
def istream.get (s : istream) : Option Char × istream :=
  if s.eofbit || s.failbit then (none, { s with failbit := true })
  else
    match s.chars with
    | [] => (none, { chars := [], eofbit := true, failbit := true })
    | c :: cs => (some c, { s with chars := cs })

/-- `std::cin.putback(ch)`: clears `eofbit`; does nothing more on a failed
stream, else makes `ch` the next character. -/
def istream.putback (s : istream) (ch : Char) : istream :=
  if s.failbit then { s with eofbit := false }
  else { chars := ch :: s.chars, eofbit := false, failbit := false }

/-- `std::cin >> std::ws`: skip white space; reaching the end sets `eofbit`
only. -/
def istream.ws (s : istream) : istream :=
  if s.eofbit || s.failbit then { s with failbit := true }
  else
    match s.chars.dropWhile isspace with
    | [] => { chars := [], eofbit := true, failbit := false }
    | c :: cs => { s with chars := c :: cs }

/-- Value of a decimal digit character. -/
def digitVal (c : Char) : Nat := c.toNat - 48

/-- Value of a string of decimal digits. -/
def digitsVal (ds : List Char) : Nat := ds.foldl (fun a c => 10 * a + digitVal c) 0

/-- Optional sign in front of a number or an exponent: is it negative, and
the characters after it. -/
def scanSign : List Char → Bool × List Char
  | '+' :: t => (false, t)
  | '-' :: t => (true, t)
  | cs => (false, cs)

/-- Optional fraction: the digits after a decimal point, and what follows. -/
def scanFraction : List Char → List Char × List Char
  | '.' :: t => (t.takeWhile Char.isDigit, t.dropWhile Char.isDigit)
  | cs => ([], cs)

/-- The floating-point field `num_get` reads in the "C" locale: an optional
sign, digits, an optional point and digits, and, once a digit was seen, an
optional `e` or `E` with optional sign and digits.  Gives the value (`none`
when the field has no digit in its mantissa, or an exponent mark without
digits: the conversion fails) and the unread characters. -/
def scanFloat (cs : List Char) : Option ℚ × List Char :=
  let sg := scanSign cs
  let ip := sg.2.takeWhile Char.isDigit
  let fr := scanFraction (sg.2.dropWhile Char.isDigit)
  let m : ℚ := (digitsVal (ip ++ fr.1) : ℚ) / (10 : ℚ) ^ fr.1.length
  let mant : ℚ := if sg.1 then -m else m
  let found : Bool := !(ip.isEmpty && fr.1.isEmpty)
  match fr.2 with
  | c :: t =>
    if (c = 'e' || c = 'E') && found then
      let es := scanSign t
      let ed := es.2.takeWhile Char.isDigit
      let r := es.2.dropWhile Char.isDigit
      if ed.isEmpty then (none, r)
      else if es.1 then (some (mant / (10 : ℚ) ^ digitsVal ed), r)
      else (some (mant * (10 : ℚ) ^ digitsVal ed), r)
    else (if found then some mant else none, c :: t)
  | [] => (if found then some mant else none, [])

/-! ## The type `double` (IEEE 754 binary64) -/

/-- Two to the power `e`. -/
def pow2 (e : ℤ) : ℚ := if 0 ≤ e then (2 : ℚ) ^ e.toNat else 1 / (2 : ℚ) ^ (-e).toNat

/-- `DBL_MAX`, the largest finite `double`: `(2^53 - 1) * 2^971`. -/
def DBL_MAX : ℚ := (2 ^ 53 - 1) * 2 ^ 971

/-- Binary logarithm, rounded down, with a budget of halvings. -/
def log2Fuel : Nat → Nat → Nat
  | 0, _ => 0
  | k + 1, n => if 2 ≤ n then log2Fuel k (n / 2) + 1 else 0

/-- Binary logarithm of a positive natural number, rounded down. -/
def ilog2 (n : Nat) : Nat := log2Fuel n n

/-- The exponent `e` with `2 ^ e ≤ q < 2 ^ (e + 1)`, for a positive `q`. -/
def binExp (q : ℚ) : ℤ :=
  let e0 : ℤ := (ilog2 q.num.toNat : ℤ) - (ilog2 q.den : ℤ)
  if pow2 e0 ≤ q then e0 else e0 - 1

/-- Nearest integer of a non-negative number, a tie going to the even one. -/
def roundHalfEven (m : ℚ) : ℤ :=
  let f : ℤ := m.floor
  let r : ℚ := m - f
  if r < 1 / 2 then f else if 1 / 2 < r then f + 1 else if f % 2 = 0 then f else f + 1

/-- The conversion of `strtod` in the default rounding mode: the `double`
nearest to `q`, a tie going to the even significand.  The significand has 53
bits, so the unit in the last place of a number of binary exponent `e` is
`2 ^ (e - 52)`, and not less than `2 ^ (-1074)`, the smallest subnormal
number; a number too small rounds to zero.  `none` when the rounded number is
beyond `DBL_MAX`: `strtod` then returns an infinity. -/
def toDouble (q : ℚ) : Option ℚ :=
  if q = 0 then some 0
  else
    let a : ℚ := if q < 0 then -q else q
    let p : ℤ := max (binExp a - 52) (-1074)
    let r : ℚ := (roundHalfEven (a / pow2 p) : ℚ) * pow2 p
    if DBL_MAX < r then none else some (if q < 0 then -r else r)

/-- `std::cin >> val` for a `double`.  `none` when `val` is not assigned (the
sentry fails); a failed conversion stores `0` and sets `failbit`; a field whose
value is beyond the range of `double` stores `DBL_MAX` with the sign of the
field and sets `failbit`; reaching the end of the input while reading sets
`eofbit`. -/
def istream.extractDouble (s : istream) : Option ℚ × istream :=
  if s.eofbit || s.failbit then (none, { s with failbit := true })
  else
    match s.chars.dropWhile isspace with
    | [] => (none, { chars := [], eofbit := true, failbit := true })
    | c :: cs =>
      match scanFloat (c :: cs) with
      | (some v, r) =>
        match toDouble v with
        | some d => (some d, { chars := r, eofbit := r.isEmpty, failbit := false })
        | none =>
          (some (if v < 0 then -DBL_MAX else DBL_MAX),
            { chars := r, eofbit := r.isEmpty, failbit := true })
      | (none, r) => (some 0, { chars := r, eofbit := r.isEmpty, failbit := true })

/-- The loop `while (isalpha(ch)) { name.push_back(ch); std::cin.get(ch); }`
over the unread characters of a good stream: the name, the last `ch` and the
characters left.  `none` when the input ends while `ch` is alphabetic: `get`
fails, `ch` stays, and the loop never exits. -/
def alphaLoop : List Char → Char → List Char → Option (List Char × Char × List Char)
  | name, ch, [] => if ch.isAlpha then none else some (name, ch, [])
  | name, ch, c :: r =>
    if ch.isAlpha then alphaLoop (name ++ [ch]) c r else some (name, ch, c :: r)

/-- The same loop on the stream. -/
def istream.alphaRun (s : istream) (name : List Char) (ch : Char) :
    Option (List Char × Char × istream) :=
  if ch.isAlpha then
    if s.eofbit || s.failbit then none
    else (alphaLoop name ch s.chars).map fun x => (x.1, x.2.1, { s with chars := x.2.2 })
  else some (name, ch, s)

/-- The loop `while (std::cin.get(ch)) { if (ch == c) break; }` over the
unread characters: what is left after the first `c`, `none` without one. -/
def dropThrough (c : Char) : List Char → Option (List Char)
  | [] => none
  | x :: r => if x = c then some r else dropThrough c r

/-- The same loop on the stream. -/
def istream.ignoreUntil (s : istream) (c : Char) : istream :=
  if s.eofbit || s.failbit then { s with failbit := true }
  else
    match dropThrough c s.chars with
    | some r => { s with chars := r }
    | none => { chars := [], eofbit := true, failbit := true }

/-! ## Helper functions (lines 641-774) -/

/-- All lower-case equivalent of `str`. -/
def lowcase (str : List Char) : List Char :=
  str.map fun ch => if ch.isAlpha then ch.toLower else ch

/-- Is `ch` an operator character. -/
def is_op (ch : Char) : Bool :=
  (List.range NUM_OP).any fun i => decide (ch = operators.getD i empt)

/-- Is `varName` a system constant. -/
def is_sysvar (varName : List Char) : Bool :=
  (List.range NUM_SYSVAR).any fun i => decide (varName = reservedVarNames.getD i [])

/-- Value of the matching system constant; `none` is the throw of
"Attempted to get non-existant system constant". -/
def get_sysvar (varName : List Char) : Option ℚ :=
  ((List.range NUM_SYSVAR).find? fun i => decide (varName = reservedVarNames.getD i [])).map
    fun i => syscons.getD i 0

/-- Is `varName` a protected command. -/
def is_command (varName : List Char) : Bool :=
  (List.range NUM_COMMAND).any fun i =>
    decide (varName = reservedVarNames.getD (NUM_SYSVAR + i) [])

/-- Is `varName` a valid option/target. -/
def is_option (varName : List Char) : Bool :=
  (List.range NUM_OPTIONS).any fun i =>
    decide (varName = reservedVarNames.getD (NUM_SYSVAR + NUM_COMMAND + i) [])

/-- Flag value of an option, `pow(2,i)` for the option at position `i` (the
exact power: `1`, `2`, `4`, `8`); `0` without a match. -/
def get_option (varName : List Char) : ℚ :=
  match (List.range NUM_OPTIONS).find? fun i =>
      decide (varName = reservedVarNames.getD (NUM_SYSVAR + NUM_COMMAND + i) []) with
  | some i => (2 : ℚ) ^ i
  | none => 0

/-- Does a user variable `varName` exist. -/
def is_usrvar (vecUserVars : List UserVar) (varName : List Char) : Bool :=
  vecUserVars.any fun u => decide (u.name = varName)

/-- Value of the first user variable named `varName`; `none` is the throw of
"Tried to access non-existant user var". -/
def get_usrvar (vecUserVars : List UserVar) (varName : List Char) : Option ℚ :=
  (vecUserVars.find? fun u => decide (u.name = varName)).map fun u => u.val

/-- Is `ch` a break character: `;`, newline, or a `char` equal to `EOF`
(`-1`, the byte 255 of a signed `char`). -/
def is_break (ch : Char) : Bool :=
  ch = ';' || ch = '\n' || ch.toNat = 255

/-! ## The token stream (lines 246-400) -/

/-- Put a token back into the token stream. -/
def token_stream.putback (t : token) (s : Calc) : Res Unit :=
  if s.ts.full then .throw .putbackFull s
  else .ok () { s with ts := { full := true, buffer := t } }

/-- Lines 309-315 and 326-332: `std::cin >> ch` (on failure `ch` keeps the
character that ended the command word), the loop that collects the target
name, and `std::cin.putback(ch)`.  `none` as in `alphaLoop`. -/
def readTarget (ch : Char) (cin : istream) : Option (List Char × istream) :=
  let r := cin.extract
  (r.2.alphaRun [] (r.1.getD ch)).map fun x => (x.1, x.2.2.putback x.2.1)

/-- Lines 296-375 of `token_stream::get`: the token for the identifier
`vrname`.  `ch` is the character that ended the identifier and `s.cin` the
stream after `std::cin.putback(ch)`. -/
def token_stream.get_word (vrname : List Char) (ch : Char) (s : Calc) : Res token :=
  if is_command (lowcase vrname) then
    let cmnd := lowcase vrname
    if cmnd = ['q'] ∨ cmnd = ['q', 'u', 'i', 't'] then .ok (token.ofKind quit) s
    else if cmnd = ['h', 'e', 'l', 'p'] then .ok (token.ofKind help) s
    else if cmnd = ['d', 'i', 's', 'p', 'l', 'a', 'y'] then
      match readTarget ch s.cin with
      | none => .abort .bad_alloc
      | some (optname, cin4) =>
        let tgt := lowcase optname
        if is_option tgt then
          .ok (token.ofKindValue disp (get_option tgt)) { s with cin := cin4 }
        else .throw .badDisplayArgument { s with cin := cin4 }
    else if cmnd = ['d', 'e', 'l', 'e', 't', 'e'] then
      match readTarget ch s.cin with
      | none => .abort .bad_alloc
      | some (optname, cin4) =>
        let tgt := lowcase optname
        if tgt = ['a', 'l', 'l'] then
          .ok (token.ofKindValue del (-1)) { s with cin := cin4 }
        else if is_usrvar s.vecUserVars optname then
          .ok (token.ofKindValueName del 0 optname) { s with cin := cin4 }
        else .throw .cannotDelete { s with cin := cin4 }
    else .throw .commandNotFound s
  else if is_sysvar (lowcase vrname) then
    match get_sysvar (lowcase vrname) with
    | some d => .ok (token.ofValue d) s
    | none => .throw .noSystemConstant s
  else if is_usrvar s.vecUserVars vrname then
    let r := s.cin.extract
    if r.1.getD ch = '=' then
      .ok (token.ofKindValueName setvar 1 vrname) { s with cin := r.2 }
    else
      match get_usrvar s.vecUserVars vrname with
      | some d => .ok (token.ofValue d) { s with cin := r.2.putback (r.1.getD ch) }
      | none => .throw .noUserVar { s with cin := r.2.putback (r.1.getD ch) }
  else
    let r := s.cin.extract
    let ch2 := r.1.getD (Char.ofNat 0)
    if ch2 = Char.ofNat 0 ∨ ch2 = ';' then
      .ok (token.ofKindValueName setvar 0 vrname) { s with cin := r.2 }
    else if ch2 = '=' then
      .ok (token.ofKindValueName setvar 1 vrname) { s with cin := r.2 }
    else .throw .undeclaredVariable { s with cin := r.2.putback ch2 }

/-- Read a token from the token stream. -/
def token_stream.get (s : Calc) : Res token :=
  if s.ts.full then .ok s.ts.buffer { s with ts := { s.ts with full := false } }
  else
    match s.cin.extract with
    | (none, _) => .abort .indeterminate
    | (some ch, cin1) =>
      if is_op ch then .ok (token.ofKind ch) { s with cin := cin1 }
      else if is_break ch then .ok (token.ofKind print) { s with cin := cin1 }
      else if ch.isDigit || ch = '.' then
        match (cin1.putback ch).extractDouble with
        | (none, _) => .abort .indeterminate
        | (some val, cin2) => .ok (token.ofValue val) { s with cin := cin2 }
      else if ch.isAlpha then
        match cin1.alphaRun [] ch with
        | none => .abort .bad_alloc
        | some (vrname, ch1, cin2) =>
          token_stream.get_word vrname ch1 { s with cin := cin2.putback ch1 }
      else .throw .badToken { s with cin := cin1 }

/-- Discard tokens up to and including a `c`. -/
def token_stream.ignore (c : Char) (s : Calc) : Calc :=
  if s.ts.full && decide (c = s.ts.buffer.kind_) then
    { s with ts := { s.ts with full := false } }
  else
    { s with ts := { s.ts with full := false }, cin := s.cin.ignoreUntil c }

/-- Error recovery: skip to the next print. -/
def clean_up_mess (s : Calc) : Calc := token_stream.ignore print s

/-! ## The modulo loops of `term` (lines 564-597) -/

/-- `while (left<=d) left-=d;` (both negative). -/
def modLoopNegNeg : Nat → ℚ → ℚ → Option ℚ
  | 0, _, _ => none
  | k + 1, left, d => if left ≤ d then modLoopNegNeg k (left - d) d else some left

/-- `while (left+d<=0) left+=d;` (left negative, right positive). -/
def modLoopNegPos : Nat → ℚ → ℚ → Option ℚ
  | 0, _, _ => none
  | k + 1, left, d => if left + d ≤ 0 then modLoopNegPos k (left + d) d else some left

/-- `while (left>0) left+=d;` (left positive, right negative). -/
def modLoopPosNeg : Nat → ℚ → ℚ → Option ℚ
  | 0, _, _ => none
  | k + 1, left, d => if left > 0 then modLoopPosNeg k (left + d) d else some left

/-- `while (left>=d) left-=d;` (both positive). -/
def modLoopPosPos : Nat → ℚ → ℚ → Option ℚ
  | 0, _, _ => none
  | k + 1, left, d => if left ≥ d then modLoopPosPos k (left - d) d else some left

/-- The manual modulo of `term` for a non-zero `left` and a non-zero `d`, with
a budget of `k` loop tests; `none` when the budget runs out. -/
def modulo (k : Nat) (left d : ℚ) : Option ℚ :=
  if left < 0 then
    if d < 0 then modLoopNegNeg k left d else modLoopNegPos k left d
  else
    if d < 0 then modLoopPosNeg k left d else modLoopPosPos k left d

/-! ## The expression evaluator (lines 404-634) -/

mutual
/-- Number, `(` expression `)`, `-` for negative numbers, a variable token;
the power `^` is also managed here.  `pow` is the C library function. -/
def primary (pow : ℚ → ℚ → ℚ) : Nat → Calc → Res ℚ
  | 0, _ => .abort .fuel
  | n + 1, s =>
    (token_stream.get s).bind fun t s1 =>
      if t.kind_ = '(' then
        (expression pow n s1).bind fun d s2 =>
          (token_stream.get s2).bind fun t2 s3 =>
            if t2.kind_ ≠ ')' then .throw .rparenExpected s3 else .ok d s3
      else if t.kind_ = '-' then
        match s1.cin.extract with
        | (none, _) => .abort .indeterminate
        | (some ch, cin1) =>
          if ch = '(' then
            (expression pow n { s1 with cin := cin1 }).bind fun d s2 =>
              (token_stream.get s2).bind fun t2 s3 =>
                if t2.kind_ ≠ ')' then .throw .rparenExpected s3 else .ok (d * -1) s3
          else if ch.isDigit || ch = '.' then
            match (cin1.putback ch).extractDouble with
            | (none, _) => .abort .indeterminate
            | (some dn, cin2) =>
              let r := cin2.extract
              if r.1.getD ch = '^' then
                (primary pow n { s1 with cin := r.2 }).bind fun rpower s2 =>
                  .ok (pow (dn * -1) rpower) s2
              else .ok (dn * -1) { s1 with cin := r.2.putback (r.1.getD ch) }
          else if ch.isAlpha then
            match cin1.alphaRun [ch] ch with
            | none => .abort .bad_alloc
            | some (varname, ch1, cin2) =>
              let s2 : Calc := { s1 with cin := cin2.putback ch1 }
              if is_command varname then .throw .primaryFromCommand s2
              else if is_sysvar varname then
                match get_sysvar varname with
                | none => .throw .noSystemConstant s2
                | some v =>
                  (token_stream.get s2).bind fun n1 s3 =>
                    if n1.kind_ = '^' then
                      (primary pow n s3).bind fun rpower s4 => .ok (pow (v * -1) rpower) s4
                    else (token_stream.putback n1 s3).bind fun _ s4 => .ok (v * -1) s4
              else if is_usrvar s2.vecUserVars varname then
                match get_usrvar s2.vecUserVars varname with
                | none => .throw .noUserVar s2
                | some v =>
                  (token_stream.get s2).bind fun n1 s3 =>
                    if n1.kind_ = '^' then
                      (primary pow n s3).bind fun rpower s4 => .ok (pow (v * -1) rpower) s4
                    else (token_stream.putback n1 s3).bind fun _ s4 => .ok (v * -1) s4
              else .throw .negativePrimaryFailed s2
          else .throw .bottomOfPrimary { s1 with cin := cin1 }
      else if t.kind_ = number then
        (token_stream.get s1).bind fun n1 s2 =>
          if n1.kind_ = '^' then
            (primary pow n { s2 with cin := s2.cin.ws }).bind fun rpower s3 =>
              .ok (pow t.value_ rpower) s3
          else (token_stream.putback n1 s2).bind fun _ s3 => .ok t.value_ s3
      else if t.kind_ = setvar then .ok t.value_ s1
      else .throw .primaryExpected { s1 with cout := s1.cout ++ [.hitDefault t] }
/-- The loop of `term` with the value `left` computed so far. -/
def termLoop (pow : ℚ → ℚ → ℚ) : Nat → ℚ → Calc → Res ℚ
  | 0, _, _ => .abort .fuel
  | n + 1, left, s =>
    (token_stream.get s).bind fun t s1 =>
      if t.kind_ = '*' then
        (primary pow n s1).bind fun d s2 => termLoop pow n (left * d) s2
      else if t.kind_ = '/' then
        (primary pow n s1).bind fun d s2 =>
          if d = 0 then .throw .divideByZero s2 else termLoop pow n (left / d) s2
      else if t.kind_ = '%' then
        (primary pow n s1).bind fun d s2 =>
          if d = 0 then .throw .moduloByZero s2
          else if left = 0 then termLoop pow n left s2
          else
            match modulo n left d with
            | none => .abort .fuel
            | some r => termLoop pow n r s2
      else if t.kind_ = '^' then
        (primary pow n s1).bind fun d s2 => .ok (pow left d) s2
      else (token_stream.putback t s1).bind fun _ s2 => .ok left s2
/-- Exactly like `expression`, but for `*`, `/`, `%` and `^`. -/
def term (pow : ℚ → ℚ → ℚ) : Nat → Calc → Res ℚ
  | 0, _ => .abort .fuel
  | n + 1, s => (primary pow n s).bind fun left s1 => termLoop pow n left s1
/-- The loop of `expression` with the value `left` computed so far. -/
def exprLoop (pow : ℚ → ℚ → ℚ) : Nat → ℚ → Calc → Res ℚ
  | 0, _, _ => .abort .fuel
  | n + 1, left, s =>
    (token_stream.get s).bind fun t s1 =>
      if t.kind_ = '+' then
        (term pow n s1).bind fun d s2 => exprLoop pow n (left + d) s2
      else if t.kind_ = '-' then
        (term pow n s1).bind fun d s2 => exprLoop pow n (left - d) s2
      else (token_stream.putback t s1).bind fun _ s2 => .ok left s2
/-- Read and evaluate a sum or difference of terms. -/
def expression (pow : ℚ → ℚ → ℚ) : Nat → Calc → Res ℚ
  | 0, _ => .abort .fuel
  | n + 1, s => (term pow n s).bind fun left s1 => exprLoop pow n left s1
end

/-! ## The session loop (lines 778-972) -/

/-- Write one message. -/
def Calc.put (s : Calc) (o : Output) : Calc := { s with cout := s.cout ++ [o] }

/-- The loop `while (t.kind() == print) t = ts.get();`. -/
def skipPrints : Nat → token → Calc → Res token
  | 0, _, _ => .abort .fuel
  | n + 1, t, s =>
    if t.kind_ = print then (token_stream.get s).bind fun t1 s1 => skipPrints n t1 s1
    else .ok t s

/-- Conversion of a `double` to `int`: truncation towards zero. -/
def toInt (v : ℚ) : Int := v.num.tdiv v.den

/-- Position of the first variable named `name`: the loop that sets `select`. -/
def selectVar (vecUserVars : List UserVar) (name : List Char) : Option Nat :=
  let i := vecUserVars.findIdx fun u => decide (u.name = name)
  if i < vecUserVars.length then some i else none

/-- The `switch (t.kind())` of `calculate` (lines 790-949) for the first token
`t` of a statement; the result is `true` when the function returns (`quit`)
and `false` when the loop goes on. -/
def calculate_switch (pow : ℚ → ℚ → ℚ) (n : Nat) (t : token) (s1 : Calc) : Res Bool :=
  if t.kind_ = quit then .ok true s1
  else if t.kind_ = help then .ok false (s1.put .helpText)
  else if t.kind_ = disp then
    let flag : Int := 0 + toInt t.value_
    if flag = DISP_SYS_FLAG then .ok false (s1.put .displaySys)
    else if flag = DISP_USER_FLAG then
      if s1.vecUserVars.length = 0 then .ok false (s1.put .noUserVars)
      else .ok false (s1.put (.displayUser s1.vecUserVars))
    else if flag = DISP_ALL_FLAG then
      if s1.vecUserVars.length = 0 then
        .ok false (((s1.put .displayAll).put .displaySys).put .noUserVars)
      else
        .ok false (((s1.put .displayAll).put .displaySys).put (.displayUser s1.vecUserVars))
    else if flag = DISP_OP_FLAG then .ok false (s1.put .displayOps)
    else .throw .invalidDisplayCode s1
  else if t.kind_ = del then
    if t.value_ = DELETE_ALL then
      .ok false ({ s1 with vecUserVars := [] }.put .cleared)
    else
      match selectVar s1.vecUserVars t.name_ with
      | none => .throw .invalidDeletionTarget s1
      | some i =>
        .ok false ({ s1 with vecUserVars := s1.vecUserVars.eraseIdx i }.put
          (.erased ((s1.vecUserVars.getD i ⟨[], 0⟩).name)))
  else if t.kind_ = setvar then
    let assign : Int := toInt t.value_
    let vname := t.name_
    if assign = 0 then
      if is_usrvar s1.vecUserVars vname then .throw .existingVariable s1
      else
        .ok false ({ s1 with vecUserVars := s1.vecUserVars ++ [UserVar.mk vname 0] }.put
          (.created vname 0))
    else if assign = 1 then
      match selectVar s1.vecUserVars t.name_ with
      | none =>
        (expression pow n s1).bind fun dval s2 =>
          .ok false ({ s2 with vecUserVars := s2.vecUserVars ++ [UserVar.mk vname dval] }.put
            (.created vname dval))
      | some i =>
        let oldval := (s1.vecUserVars.getD i ⟨[], 0⟩).val
        (expression pow n s1).bind fun newval s2 =>
          .ok false ({ s2 with vecUserVars :=
              s2.vecUserVars.modify (fun u => { u with val := newval }) i }.put
            (.updated vname oldval newval))
    else .throw .invalidSetvar s1
  else if t.kind_ = '(' ∨ t.kind_ = '-' ∨ t.kind_ = number then
    (token_stream.putback t s1).bind fun _ s2 =>
      (expression pow n (s2.put .resultMark)).bind fun v s3 =>
        .ok false (s3.put (.result v))
  else .throw .noMatchingKind s1

/-- The `try` block of one iteration of `calculate`: the prompt, the first
token, the loop that discards prints, and the switch. -/
def calculate_try (pow : ℚ → ℚ → ℚ) (n : Nat) (s : Calc) : Res Bool :=
  (token_stream.get (s.put .promptText)).bind fun t0 s0 =>
    (skipPrints n t0 s0).bind fun t s1 => calculate_switch pow n t s1

/-- One iteration of the loop of `calculate`: the `try` block and the handler
`catch (std::runtime_error const& e)`, which writes the message and calls
`clean_up_mess`. -/
def calculate_iter (pow : ℚ → ℚ → ℚ) (n : Nat) (s : Calc) : Res Bool :=
  match calculate_try pow n s with
  | .throw e s1 => .ok false (clean_up_mess (s1.put (.cerr e)))
  | r => r

/-- The session loop `while (std::cin) { try { .. } catch .. }`; it returns on
`quit` or when the stream has failed. -/
def calculate (pow : ℚ → ℚ → ℚ) : Nat → Calc → Res Unit
  | 0, _ => .abort .fuel
  | n + 1, s =>
    if s.cin.failbit then .ok () s
    else
      (calculate_iter pow n s).bind fun stop s1 =>
        if stop then .ok () s1 else calculate pow n s1

/-- Exit status of `main`: `0` when `calculate` returns, `2` when an exception
other than `std::runtime_error` leaves it; `none` outside the model. -/
def main (pow : ℚ → ℚ → ℚ) (n : Nat) (s : Calc) : Option Nat :=
  match calculate pow n s with
  | .ok _ _ => some 0
  | .throw _ _ => some 2
  | .abort .bad_alloc => some 2
  | .abort _ => none

/-! ## Initial states and test inputs -/

/-- The state before the first read: `cs` on the input, an empty buffer
holding the default token, the variables `vars`, nothing written. -/
def Calc.start (cs : List Char) (vars : List UserVar) : Calc :=
  ⟨⟨cs, false, false⟩, ⟨false, token.ofKind empt⟩, vars, []⟩

/-- A power function that is exact at natural-number exponents, for running
the model on concrete inputs. -/
def natPow (x y : ℚ) : ℚ := x ^ y.num.toNat

/-! ## Input classes used by the theorems -/

/-- An unsigned number literal as written in a statement: digits, an optional
point with digits, an optional exponent (its mark, its sign text, its digits). -/
structure NumLit where
  ip : List Char
  fp : Option (List Char)
  ex : Option (Char × List Char × List Char)

/-- Digits after the point. -/
def NumLit.fdigits (a : NumLit) : List Char := a.fp.getD []

/-- The characters of the literal. -/
def NumLit.chars (a : NumLit) : List Char :=
  a.ip ++ ((match a.fp with
    | some f => '.' :: f
    | none => []) ++
  (match a.ex with
    | some (m, sg, ed) => m :: (sg ++ ed)
    | none => []))

/-- Well-formed literal: only digits in the digit positions, at least one
digit in the mantissa, and an exponent, when present, marked `e` or `E`, with
sign text empty, `+` or `-`, and at least one digit. -/
def NumLit.wf (a : NumLit) : Bool :=
  a.ip.all Char.isDigit && a.fdigits.all Char.isDigit &&
  !(a.ip.isEmpty && a.fdigits.isEmpty) &&
  (match a.ex with
    | some (m, sg, ed) =>
      (m = 'e' || m = 'E') && (sg = [] || sg = ['+'] || sg = ['-']) &&
        ed.all Char.isDigit && !ed.isEmpty
    | none => true)

/-- The number a literal denotes. -/
def NumLit.value (a : NumLit) : ℚ :=
  let m : ℚ := (digitsVal (a.ip ++ a.fdigits) : ℚ) / (10 : ℚ) ^ a.fdigits.length
  match a.ex with
  | some (_, sg, ed) =>
    if sg = ['-'] then m / (10 : ℚ) ^ digitsVal ed else m * (10 : ℚ) ^ digitsVal ed
  | none => m

/-- The value of the literal is in the range of `double`: its conversion does
not overflow. -/
def NumLit.finite (a : NumLit) : Bool := (toDouble a.value).isSome

/-- The `double` a literal is read as: the `double` nearest to its value
(`DBL_MAX` for a literal beyond the range). -/
def NumLit.dvalue (a : NumLit) : ℚ := (toDouble a.value).getD DBL_MAX

/-- A literal the program reads as a number: well formed and in the range of
`double`. -/
def NumLit.valid (a : NumLit) : Bool := a.wf && a.finite

/-- The literal made of the digits `ds` only. -/
def NumLit.ofDigits (ds : List Char) : NumLit := ⟨ds, none, none⟩

/-- A character that cannot continue a number literal. -/
def stops (c : Char) : Bool := !c.isDigit && c != '.' && c != 'e' && c != 'E'

/-- White space between tokens. -/
def blank (w : List Char) : Bool := w.all isspace

/-- A name: a non-empty string of alphabetic characters. -/
def isName (x : List Char) : Bool := !x.isEmpty && x.all Char.isAlpha

/-- The state with `cs` unread on a good stream, an empty buffer (last holding
`buf`), the variables `vars` and the output `out`. -/
def Calc.reading (cs : List Char) (buf : token) (vars : List UserVar) (out : List Output) :
    Calc :=
  ⟨⟨cs, false, false⟩, ⟨false, buf⟩, vars, out⟩

/-- The state with `cs` unread on a good stream and the token `t` in the buffer. -/
def Calc.holding (cs : List Char) (t : token) (vars : List UserVar) (out : List Output) :
    Calc :=
  ⟨⟨cs, false, false⟩, ⟨true, t⟩, vars, out⟩

/-- The literal `2`. -/
def lit2 : NumLit := NumLit.ofDigits ['2']

/-- The literal `3`. -/
def lit3 : NumLit := NumLit.ofDigits ['3']

/-- The literal `5`. -/
def lit5 : NumLit := NumLit.ofDigits ['5']

/-- The names of the system constants and of the commands. -/
def protectedNames : List (List Char) := reservedVarNames.take (NUM_SYSVAR + NUM_COMMAND)

/-! ## Properties of runs used by the theorems -/

/-- A property of the outcome of a run: `Pok` of the value and the state of a
normal result, `Pth` of the error and the state of a throw; nothing is asked
of a run that leaves the model. -/
def Res.All {α : Type} (Pok : α → Calc → Prop) (Pth : Err → Calc → Prop) : Res α → Prop
  | .ok a s => Pok a s
  | .throw e s => Pth e s
  | .abort _ => True

/-- A name the variable store may hold: alphabetic, not empty, and in lower
case neither a command nor a system constant. -/
def goodName (x : List Char) : Bool :=
  isName x && !is_command (lowcase x) && !is_sysvar (lowcase x)

/-- A token that, when it declares or assigns a variable, carries a name with
the property `G`. -/
def TokOK (G : List Char → Prop) (t : token) : Prop := t.kind_ = setvar → G t.name_

/-- The part of the state the evaluator leaves alone: the variables are `V`
and the token stored in the buffer is well formed. -/
def Stable (G : List Char → Prop) (V : List UserVar) (s : Calc) : Prop :=
  s.vecUserVars = V ∧ TokOK G s.ts.buffer

/-- The run keeps the variables `V` and a well-formed buffer, and does not end
in the error of `putback` into a full buffer. -/
def Res.Keeps {α : Type} (G : List Char → Prop) (V : List UserVar) (r : Res α) : Prop :=
  r.All (fun _ s1 => Stable G V s1) (fun e s1 => e ≠ .putbackFull ∧ Stable G V s1)

/-- The variable store holds good names only, and no name twice. -/
def StoreOK (vars : List UserVar) : Prop :=
  (∀ u ∈ vars, goodName u.name = true) ∧ (vars.map UserVar.name).Nodup

/-- The invariant of the session loop: a store of distinct good names, and a
buffer whose token carries a good name when it declares or assigns. -/
def Inv (s : Calc) : Prop :=
  StoreOK s.vecUserVars ∧ TokOK (fun x => goodName x = true) s.ts.buffer

/-- The states the session loop reaches on the input `cs`, starting with an
empty store: the initial state, and the state after an iteration that was
entered on a stream that has not failed. -/
inductive Reach (pow : ℚ → ℚ → ℚ) (cs : List Char) : Calc → Prop
  | start : Reach pow cs (Calc.start cs [])
  | step (n : Nat) (s : Calc) (stop : Bool) (s1 : Calc) :
      Reach pow cs s → s.cin.failbit = false →
      calculate_iter pow n s = .ok stop s1 → Reach pow cs s1

/-- The handler `catch (std::runtime_error const& e)` of the loop of
`calculate` (lines 951-955), applied to the outcome of the `try` block: every
error of the model is a `std::runtime_error`; the message is written and
`clean_up_mess` is called. -/
def calculate_catch (r : Res Bool) : Res Bool :=
  match r with
  | .throw e s1 => .ok false (clean_up_mess (s1.put (.cerr e)))
  | r => r

/-- One pass of the loop of `expression` (lines 620-629): with the value
`left` in the state `s`, the loop reads the token `+` or `-`, evaluates the
term after it, and goes on with the sum or the difference in the state after
the term. -/
inductive ExprPass (pow : ℚ → ℚ → ℚ) : ℚ × Calc → ℚ × Calc → Prop
  | plus (n : Nat) (left d : ℚ) (s s1 s2 : Calc) (t : token) :
      token_stream.get s = .ok t s1 → t.kind_ = '+' → term pow n s1 = .ok d s2 →
      ExprPass pow (left, s) (left + d, s2)
  | minus (n : Nat) (left d : ℚ) (s s1 s2 : Calc) (t : token) :
      token_stream.get s = .ok t s1 → t.kind_ = '-' → term pow n s1 = .ok d s2 →
      ExprPass pow (left, s) (left - d, s2)

/-- Two states that differ only in what no run can observe: the token left
in an empty buffer, and the output written before the iteration (`P` in the
first state, `P1` in the second). -/
def Calc.Same (P P1 : List Output) (s s1 : Calc) : Prop :=
  s.cin = s1.cin ∧ s.vecUserVars = s1.vecUserVars ∧ s.ts.full = s1.ts.full ∧
    (s.ts.full = true → s.ts.buffer = s1.ts.buffer) ∧
    ∃ o, s.cout = P ++ o ∧ s1.cout = P1 ++ o

/-- Two outcomes that are the same but for what `Calc.Same` leaves out: the
same value in states that are the same, the same error in such states, or the
same way of leaving the model. -/
def Res.Same {α : Type} (P P1 : List Output) : Res α → Res α → Prop
  | .ok a s, .ok a1 s1 => a = a1 ∧ Calc.Same P P1 s s1
  | .throw e s, .throw e1 s1 => e = e1 ∧ Calc.Same P P1 s s1
  | .abort a, .abort a1 => a = a1
  | _, _ => False

/-! ## Theorems -/

/-! ### The conversion to `double` -/

theorem pow2_eq_zpow (e : ℤ) : pow2 e = (2 : ℚ) ^ e := by
  unfold pow2
  split_ifs with h
  · conv_rhs => rw [← Int.toNat_of_nonneg h]
    rw [zpow_natCast]
  · have h1 : 0 ≤ -e := by omega
    have h2 : e = -((-e).toNat : ℤ) := by rw [Int.toNat_of_nonneg h1]; ring
    conv_rhs => rw [h2]
    rw [zpow_neg, zpow_natCast, one_div]

theorem pow2_pos (e : ℤ) : 0 < pow2 e := by
  rw [pow2_eq_zpow]
  positivity

theorem log2Fuel_spec : ∀ (k n : ℕ), n ≤ k → 1 ≤ n →
    2 ^ log2Fuel k n ≤ n ∧ n < 2 ^ (log2Fuel k n + 1) := by
  intro k
  induction k with
  | zero => intro n h1 h2; omega
  | succ k ih =>
    intro n h1 h2
    by_cases h : 2 ≤ n
    · have ih1 := ih (n / 2) (by omega) (by omega)
      simp only [log2Fuel, h, if_true]
      rw [pow_succ, pow_succ, pow_succ]
      rw [pow_succ] at ih1
      constructor <;> omega
    · have hn : n = 1 := by omega
      subst hn
      simp [log2Fuel]

theorem ilog2_spec (n : ℕ) (h : 1 ≤ n) : 2 ^ ilog2 n ≤ n ∧ n < 2 ^ (ilog2 n + 1) :=
  log2Fuel_spec n n (le_refl n) h

/-- The binary exponent of a positive rational: the power of two at or below
it. -/
theorem binExp_spec (q : ℚ) (h : 0 < q) : pow2 (binExp q) ≤ q ∧ q < pow2 (binExp q + 1) := by
  have hnum : 0 < q.num := Rat.num_pos.mpr h
  have hden : 0 < q.den := q.den_pos
  obtain ⟨n1, n2⟩ := ilog2_spec q.num.toNat (by omega)
  obtain ⟨d1, d2⟩ := ilog2_spec q.den hden
  have hq : q = (q.num.toNat : ℚ) / (q.den : ℚ) := by
    have h1 : ((q.num.toNat : ℤ) : ℚ) = (q.num : ℚ) := by
      rw [Int.toNat_of_nonneg hnum.le]
    have h2 : ((q.num.toNat : ℕ) : ℚ) = ((q.num.toNat : ℤ) : ℚ) := by norm_cast
    rw [h2, h1]
    exact (Rat.num_div_den q).symm
  have hdq : (0 : ℚ) < (q.den : ℚ) := by exact_mod_cast hden
  have n1q : (2 : ℚ) ^ ilog2 q.num.toNat ≤ (q.num.toNat : ℚ) := by exact_mod_cast n1
  have n2q : (q.num.toNat : ℚ) < (2 : ℚ) ^ (ilog2 q.num.toNat + 1) := by exact_mod_cast n2
  have d1q : (2 : ℚ) ^ ilog2 q.den ≤ (q.den : ℚ) := by exact_mod_cast d1
  have d2q : (q.den : ℚ) < (2 : ℚ) ^ (ilog2 q.den + 1) := by exact_mod_cast d2
  -- bounds on q
  have up : q < (2 : ℚ) ^ ((ilog2 q.num.toNat : ℤ) - (ilog2 q.den : ℤ) + 1) := by
    refine lt_of_eq_of_lt hq ?_
    rw [div_lt_iff₀ hdq]
    calc (q.num.toNat : ℚ) < (2 : ℚ) ^ (ilog2 q.num.toNat + 1) := n2q
      _ = (2 : ℚ) ^ ((ilog2 q.num.toNat : ℤ) - (ilog2 q.den : ℤ) + 1) * (2 : ℚ) ^ ilog2 q.den := by
          rw [← zpow_natCast, ← zpow_natCast, ← zpow_add₀ (by norm_num : (2 : ℚ) ≠ 0)]
          congr 1
          push_cast
          ring
      _ ≤ (2 : ℚ) ^ ((ilog2 q.num.toNat : ℤ) - (ilog2 q.den : ℤ) + 1) * (q.den : ℚ) := by
          apply mul_le_mul_of_nonneg_left d1q
          positivity
  have lo : (2 : ℚ) ^ ((ilog2 q.num.toNat : ℤ) - (ilog2 q.den : ℤ) - 1) ≤ q := by
    refine le_of_le_of_eq ?_ hq.symm
    rw [le_div_iff₀ hdq]
    calc (2 : ℚ) ^ ((ilog2 q.num.toNat : ℤ) - (ilog2 q.den : ℤ) - 1) * (q.den : ℚ)
        ≤ (2 : ℚ) ^ ((ilog2 q.num.toNat : ℤ) - (ilog2 q.den : ℤ) - 1) *
            (2 : ℚ) ^ (ilog2 q.den + 1) := by
          apply mul_le_mul_of_nonneg_left d2q.le
          positivity
      _ = (2 : ℚ) ^ ilog2 q.num.toNat := by
          rw [← zpow_natCast, ← zpow_natCast, ← zpow_add₀ (by norm_num : (2 : ℚ) ≠ 0)]
          congr 1
          push_cast
          ring
      _ ≤ (q.num.toNat : ℚ) := n1q
  unfold binExp
  dsimp only
  split_ifs with hc
  · rw [pow2_eq_zpow] at hc ⊢
    rw [pow2_eq_zpow]
    exact ⟨hc, up⟩
  · rw [pow2_eq_zpow] at hc
    rw [pow2_eq_zpow, pow2_eq_zpow]
    refine ⟨lo, ?_⟩
    have : (ilog2 q.num.toNat : ℤ) - (ilog2 q.den : ℤ) - 1 + 1 =
        (ilog2 q.num.toNat : ℤ) - (ilog2 q.den : ℤ) := by ring
    rw [this]
    exact lt_of_not_le hc

theorem roundHalfEven_spec (m : ℚ) :
    |(roundHalfEven m : ℚ) - m| ≤ 1 / 2 ∧ ⌊m⌋ ≤ roundHalfEven m ∧ roundHalfEven m ≤ ⌊m⌋ + 1 := by
  have h1 : (⌊m⌋ : ℚ) ≤ m := Int.floor_le m
  have h2 : m < (⌊m⌋ : ℚ) + 1 := Int.lt_floor_add_one m
  have hf : m.floor = ⌊m⌋ := rfl
  unfold roundHalfEven
  dsimp only
  rw [hf]
  split_ifs with c1 c2 c3
  · refine ⟨?_, le_refl _, by omega⟩
    rw [abs_le]
    constructor <;> linarith
  · refine ⟨?_, by omega, le_refl _⟩
    push_cast
    rw [abs_le]
    constructor <;> linarith
  · refine ⟨?_, le_refl _, by omega⟩
    rw [abs_le]
    constructor <;> linarith
  · refine ⟨?_, by omega, le_refl _⟩
    push_cast
    rw [abs_le]
    constructor <;> linarith
/-- Every rational of size at most `DBL_MAX` has a `double`. -/
theorem toDouble_isSome (q : ℚ) (h : |q| ≤ DBL_MAX) : (toDouble q).isSome = true := by
  by_cases hq : q = 0
  · simp [toDouble, hq]
  have ha : 0 < |q| := abs_pos.mpr hq
  obtain ⟨e1, e2⟩ := binExp_spec |q| ha
  have habs : (if q < 0 then -q else q) = |q| := by
    split_ifs with c
    · exact (abs_of_neg c).symm
    · exact (abs_of_nonneg (not_lt.mp c)).symm
  unfold toDouble
  simp only [hq, if_false, habs]
  generalize hp : max (binExp |q| - 52) (-1074) = p
  have hpp : 0 < pow2 p := pow2_pos p
  obtain ⟨r1, -, -⟩ := roundHalfEven_spec (|q| / pow2 p)
  generalize hR : roundHalfEven (|q| / pow2 p) = R at r1
  -- the exponent is at most 1023
  have hmax : DBL_MAX < (2 : ℚ) ^ (1024 : ℤ) := by
    have h1 : (2 : ℚ) ^ (1024 : ℤ) = (2 : ℚ) ^ 53 * (2 : ℚ) ^ 971 := by
      rw [← pow_add, ← zpow_natCast]
      rfl
    have h2 : (0 : ℚ) < (2 : ℚ) ^ 971 := by positivity
    unfold DBL_MAX
    rw [h1]
    exact mul_lt_mul_of_pos_right (by norm_num) h2
  have he : binExp |q| ≤ 1023 := by
    by_contra hc
    have h1 : (2 : ℚ) ^ (1024 : ℤ) ≤ pow2 (binExp |q|) := by
      rw [pow2_eq_zpow]
      apply zpow_le_zpow_right₀ (by norm_num)
      omega
    linarith
  have hp971 : p ≤ 971 := by
    rw [← hp]
    exact max_le (by omega) (by norm_num)
  -- `DBL_MAX` is a multiple of the spacing
  have hk : ((971 - p).toNat : ℤ) + p = 971 := by omega
  have h2 : (2 : ℚ) ^ (971 - p).toNat * pow2 p = (2 : ℚ) ^ 971 := by
    rw [pow2_eq_zpow, ← zpow_natCast, ← zpow_add₀ (by norm_num : (2 : ℚ) ≠ 0), hk]
    exact zpow_natCast 2 971
  have hcast : (((2 ^ 53 - 1) * 2 ^ (971 - p).toNat : ℤ) : ℚ) =
      ((2 : ℚ) ^ 53 - 1) * (2 : ℚ) ^ (971 - p).toNat := by
    push_cast
    ring
  have hN : DBL_MAX = (((2 ^ 53 - 1) * 2 ^ (971 - p).toNat : ℤ) : ℚ) * pow2 p := by
    rw [hcast, mul_assoc, h2]
    rfl
  have hm : |q| / pow2 p ≤ (((2 ^ 53 - 1) * 2 ^ (971 - p).toNat : ℤ) : ℚ) := by
    rw [div_le_iff₀ hpp, ← hN]
    exact h
  have hRN : R ≤ (2 ^ 53 - 1) * 2 ^ (971 - p).toNat := by
    have h1 : (R : ℚ) ≤ |q| / pow2 p + 1 / 2 := by
      have := (abs_le.mp r1).2
      linarith
    have h2 : (R : ℚ) < (((2 ^ 53 - 1) * 2 ^ (971 - p).toNat + 1 : ℤ) : ℚ) := by
      push_cast
      push_cast at hm
      linarith
    have h3 : R < (2 ^ 53 - 1) * 2 ^ (971 - p).toNat + 1 := by exact_mod_cast h2
    omega
  have hle : (R : ℚ) * pow2 p ≤ DBL_MAX := by
    rw [hN]
    apply mul_le_mul_of_nonneg_right _ hpp.le
    exact_mod_cast hRN
  simp [not_lt.mpr hle]

/-- A well-formed literal whose value is at most `DBL_MAX` is read without
an error. -/
theorem NumLit.valid_of_le (a : NumLit) (hw : a.wf = true) (h : |a.value| ≤ DBL_MAX) :
    a.valid = true := by
  simp [NumLit.valid, NumLit.finite, hw, toDouble_isSome a.value h]

theorem natPow_exact (x : ℚ) (k : ℕ) : natPow x k = x ^ k := by
  simp [natPow]

theorem takeWhile_digits (ds : List Char) (x : Char) (r : List Char)
    (hd : ds.all Char.isDigit = true) (hx : x.isDigit = false) :
    (ds ++ x :: r).takeWhile Char.isDigit = ds := by
  rw [List.takeWhile_append_of_pos (by simpa using hd)]
  simp [List.takeWhile, hx]

theorem dropWhile_digits (ds : List Char) (x : Char) (r : List Char)
    (hd : ds.all Char.isDigit = true) (hx : x.isDigit = false) :
    (ds ++ x :: r).dropWhile Char.isDigit = x :: r := by
  rw [List.dropWhile_append_of_pos (by simpa using hd)]
  simp [List.dropWhile, hx]

theorem dropWhile_blank (w : List Char) (x : Char) (r : List Char)
    (hw : blank w = true) (hx : isspace x = false) :
    (w ++ x :: r).dropWhile isspace = x :: r := by
  rw [List.dropWhile_append_of_pos (by simpa [blank] using hw)]
  simp [List.dropWhile, hx]

theorem scanSign_digit (c : Char) (cs : List Char) (h : c.isDigit = true ∨ c = '.') :
    scanSign (c :: cs) = (false, c :: cs) := by
  have h1 : c ≠ '+' := by rintro rfl; revert h; decide
  have h2 : c ≠ '-' := by rintro rfl; revert h; decide
  unfold scanSign
  split
  · simp_all
  · simp_all
  · rfl

theorem scanFraction_stop (x : Char) (r : List Char) (h : x ≠ '.') :
    scanFraction (x :: r) = ([], x :: r) := by
  unfold scanFraction
  split
  · simp_all
  · rfl

theorem scanFraction_dot (f : List Char) (y : Char) (r : List Char)
    (hf : f.all Char.isDigit = true) (hy : y.isDigit = false) :
    scanFraction ('.' :: (f ++ y :: r)) = (f, y :: r) := by
  simp [scanFraction, takeWhile_digits f y r hf hy, dropWhile_digits f y r hf hy]

theorem scanFloat_mantissa (ip fd : List Char) (t : Char) (T fr2 : List Char)
    (hip : ip.all Char.isDigit = true) (ht : t.isDigit = false)
    (hne : ip ≠ [] ∨ t = '.')
    (hfr : scanFraction (t :: T) = (fd, fr2)) :
    scanFloat (ip ++ t :: T) =
      (let m : ℚ := (digitsVal (ip ++ fd) : ℚ) / (10 : ℚ) ^ fd.length
       let found : Bool := !(ip.isEmpty && fd.isEmpty)
       match fr2 with
       | c :: t =>
         if (c = 'e' || c = 'E') && found then
           let es := scanSign t
           let ed := es.2.takeWhile Char.isDigit
           let r := es.2.dropWhile Char.isDigit
           if ed.isEmpty then (none, r)
           else if es.1 then (some (m / (10 : ℚ) ^ digitsVal ed), r)
           else (some (m * (10 : ℚ) ^ digitsVal ed), r)
         else (if found then some m else none, c :: t)
       | [] => (if found then some m else none, [])) := by
  have hs : scanSign (ip ++ t :: T) = (false, ip ++ t :: T) := by
    rcases ip with _ | ⟨d, ip'⟩
    · simp at hne
      simpa using scanSign_digit t T (Or.inr hne)
    · simp at hip
      simpa using scanSign_digit d (ip' ++ t :: T) (Or.inl hip.1)
  unfold scanFloat
  simp only [hs, takeWhile_digits ip t T hip ht, dropWhile_digits ip t T hip ht, hfr]
  cases fr2 <;> simp

theorem scanSign_exponent (sg ed : List Char) (x : Char) (r : List Char)
    (hsg : sg = [] ∨ sg = ['+'] ∨ sg = ['-']) (hed : ed.all Char.isDigit = true)
    (hne : ed ≠ []) :
    scanSign (sg ++ (ed ++ x :: r)) = (decide (sg = ['-']), ed ++ x :: r) := by
  rcases hsg with rfl | rfl | rfl
  · obtain ⟨d, ed', rfl⟩ := List.exists_cons_of_ne_nil hne
    simp at hed
    simpa using scanSign_digit d (ed' ++ x :: r) (Or.inl hed.1)
  · simp [scanSign]
  · simp [scanSign]

theorem scanFloat_lit (a : NumLit) (x : Char) (r : List Char)
    (ha : a.wf = true) (hx : stops x = true) :
    scanFloat (a.chars ++ x :: r) = (some a.value, x :: r) := by
  obtain ⟨ip, fp, ex⟩ := a
  simp only [NumLit.wf, NumLit.fdigits, Bool.and_eq_true] at ha
  simp only [stops, Bool.and_eq_true, Bool.not_eq_true', bne_iff_ne, ne_eq] at hx
  obtain ⟨⟨⟨hip, hfp⟩, hne⟩, hex⟩ := ha
  obtain ⟨⟨⟨hx1, hx2⟩, hx3⟩, hx4⟩ := hx
  rcases fp with _ | f <;> rcases ex with _ | ⟨m, sg, ed⟩
  · simp only [NumLit.chars, List.append_nil, List.nil_append]
    rw [scanFloat_mantissa ip [] x r (x :: r) hip hx1 (Or.inl (by simpa using hne))
      (scanFraction_stop x r hx2)]
    simp_all [NumLit.value, NumLit.fdigits]
  · simp only [Bool.and_eq_true, Bool.or_eq_true, decide_eq_true_eq, Bool.not_eq_true',
      List.isEmpty_eq_false] at hex
    obtain ⟨⟨⟨hm, hsg0⟩, hed⟩, hed0⟩ := hex
    have hsg := or_assoc.mp hsg0
    have hmd : m.isDigit = false := by rcases hm with rfl | rfl <;> decide
    have hmp : m ≠ '.' := by rcases hm with rfl | rfl <;> decide
    have hed1 : ed ≠ [] := by simpa using hed0
    simp only [NumLit.chars, List.append_nil, List.nil_append, List.cons_append,
      List.append_assoc]
    rw [scanFloat_mantissa ip [] m _ _ hip hmd (Or.inl (by simpa using hne))
      (scanFraction_stop m _ hmp)]
    simp only [scanSign_exponent sg ed x r hsg hed hed1, takeWhile_digits ed x r hed hx1,
      dropWhile_digits ed x r hed hx1]
    simp_all [NumLit.value, NumLit.fdigits]
    split <;> rfl
  · have hf : f.all Char.isDigit = true := by simpa using hfp
    simp only [NumLit.chars, List.append_nil, List.nil_append, List.cons_append,
      List.append_assoc]
    rw [scanFloat_mantissa ip f '.' _ _ hip (by decide) (Or.inr rfl)
      (scanFraction_dot f x r hf hx1)]
    simp_all [NumLit.value, NumLit.fdigits]
  · simp only [Bool.and_eq_true, Bool.or_eq_true, decide_eq_true_eq, Bool.not_eq_true',
      List.isEmpty_eq_false] at hex
    obtain ⟨⟨⟨hm, hsg0⟩, hed⟩, hed0⟩ := hex
    have hsg := or_assoc.mp hsg0
    have hmd : m.isDigit = false := by rcases hm with rfl | rfl <;> decide
    have hed1 : ed ≠ [] := by simpa using hed0
    have hf : f.all Char.isDigit = true := by simpa using hfp
    simp only [NumLit.chars, List.append_nil, List.nil_append, List.cons_append,
      List.append_assoc]
    rw [scanFloat_mantissa ip f '.' _ _ hip (by decide) (Or.inr rfl)
      (scanFraction_dot f m _ hf hmd)]
    simp only [scanSign_exponent sg ed x r hsg hed hed1, takeWhile_digits ed x r hed hx1,
      dropWhile_digits ed x r hed hx1]
    simp_all [NumLit.value, NumLit.fdigits]
    split <;> rfl

theorem is_op_iff (c : Char) : is_op c = true ↔ c ∈ operators := by
  simp [is_op, NUM_OP, operators, List.range_succ, empt]

theorem isspace_iff (c : Char) :
    isspace c = true ↔ c ∈ [' ', '\t', '\n', Char.ofNat 11, Char.ofNat 12, '\r'] := by
  simp [isspace]
  tauto

theorem toNat_of_isAlpha (c : Char) (h : c.isAlpha = true) : 65 ≤ c.toNat ∧ c.toNat ≤ 122 := by
  simp [Char.isAlpha, Char.isUpper, Char.isLower, Char.toNat, UInt32.le_def, BitVec.le_def,
    UInt32.toNat] at h ⊢
  omega

theorem toNat_of_isDigit (c : Char) (h : c.isDigit = true) : 48 ≤ c.toNat ∧ c.toNat ≤ 57 := by
  simp [Char.isDigit, Char.toNat, UInt32.le_def, BitVec.le_def, UInt32.toNat] at h ⊢
  omega

theorem isAlpha_iff (c : Char) :
    c.isAlpha = true ↔ (65 ≤ c.toNat ∧ c.toNat ≤ 90) ∨ (97 ≤ c.toNat ∧ c.toNat ≤ 122) := by
  simp [Char.isAlpha, Char.isUpper, Char.isLower, Char.toNat, UInt32.le_def, BitVec.le_def,
    UInt32.toNat]

theorem isDigit_iff (c : Char) : c.isDigit = true ↔ 48 ≤ c.toNat ∧ c.toNat ≤ 57 := by
  simp [Char.isDigit, Char.toNat, UInt32.le_def, BitVec.le_def, UInt32.toNat]

/-- A character with a property is none of the characters of a list in which
no character has it. -/
theorem not_mem_of_pred (p : Char → Bool) (c : Char) (L : List Char) (hc : p c = true)
    (hL : L.all (fun x => !p x) = true) : c ∉ L := by
  intro hmem
  have := (List.all_eq_true.mp hL) c hmem
  simp [hc] at this

theorem digit_not_op (c : Char) (h : c.isDigit = true ∨ c = '.') : is_op c = false := by
  rw [Bool.eq_false_iff, Ne, is_op_iff]
  rcases h with h | rfl
  · exact not_mem_of_pred Char.isDigit c _ h (by decide)
  · decide

theorem digit_not_space (c : Char) (h : c.isDigit = true ∨ c = '.') : isspace c = false := by
  rw [Bool.eq_false_iff, Ne, isspace_iff]
  rcases h with h | rfl
  · exact not_mem_of_pred Char.isDigit c _ h (by decide)
  · decide

theorem digit_not_break (c : Char) (h : c.isDigit = true ∨ c = '.') : is_break c = false := by
  rcases h with h | rfl
  · have := toNat_of_isDigit c h
    have h1 : c ≠ ';' := by rintro rfl; revert h; decide
    have h2 : c ≠ '\n' := by rintro rfl; revert h; decide
    simp [is_break, h1, h2]; omega
  · decide

theorem alpha_not_op (c : Char) (h : c.isAlpha = true) : is_op c = false := by
  rw [Bool.eq_false_iff, Ne, is_op_iff]
  exact not_mem_of_pred Char.isAlpha c _ h (by decide)

theorem alpha_not_space (c : Char) (h : c.isAlpha = true) : isspace c = false := by
  rw [Bool.eq_false_iff, Ne, isspace_iff]
  exact not_mem_of_pred Char.isAlpha c _ h (by decide)

theorem alpha_not_break (c : Char) (h : c.isAlpha = true) : is_break c = false := by
  have := toNat_of_isAlpha c h
  have h1 : c ≠ ';' := by rintro rfl; revert h; decide
  have h2 : c ≠ '\n' := by rintro rfl; revert h; decide
  simp [is_break, h1, h2]; omega

theorem alpha_not_digit (c : Char) (h : c.isAlpha = true) : (c.isDigit || c = '.') = false := by
  have := toNat_of_isAlpha c h
  have h2 : c ≠ '.' := by rintro rfl; revert h; decide
  have h3 : c.isDigit = false := by
    rw [Bool.eq_false_iff, Ne, isDigit_iff]; omega
  simp [h2, h3]

theorem op_not_space (c : Char) (h : is_op c = true) : isspace c = false := by
  rw [is_op_iff] at h
  simp [operators] at h
  rcases h with rfl | rfl | rfl | rfl | rfl | rfl | rfl | rfl | rfl | rfl <;> decide

theorem op_stops (c : Char) (h : is_op c = true) : stops c = true := by
  rw [is_op_iff] at h
  simp [operators] at h
  rcases h with rfl | rfl | rfl | rfl | rfl | rfl | rfl | rfl | rfl | rfl <;> decide

theorem space_stops (c : Char) (h : isspace c = true) : stops c = true := by
  rw [isspace_iff] at h
  simp at h
  rcases h with rfl | rfl | rfl | rfl | rfl | rfl <;> decide

theorem extract_blank (w : List Char) (x : Char) (r : List Char)
    (hw : blank w = true) (hx : isspace x = false) :
    istream.extract ⟨w ++ x :: r, false, false⟩ = (some x, ⟨r, false, false⟩) := by
  simp [istream.extract, dropWhile_blank w x r hw hx]

theorem get_holding (cs : List Char) (t : token) (vars : List UserVar) (out : List Output) :
    token_stream.get (Calc.holding cs t vars out) = .ok t (Calc.reading cs t vars out) := by
  simp [token_stream.get, Calc.holding, Calc.reading]

theorem putback_reading (cs : List Char) (t buf : token) (vars : List UserVar)
    (out : List Output) :
    token_stream.putback t (Calc.reading cs buf vars out) =
      .ok () (Calc.holding cs t vars out) := by
  simp [token_stream.putback, Calc.holding, Calc.reading]

theorem get_op (w : List Char) (x : Char) (r : List Char) (buf : token)
    (vars : List UserVar) (out : List Output) (hw : blank w = true) (hx : is_op x = true) :
    token_stream.get (Calc.reading (w ++ x :: r) buf vars out) =
      .ok (token.ofKind x) (Calc.reading r buf vars out) := by
  simp [token_stream.get, Calc.reading, extract_blank w x r hw (op_not_space x hx), hx]

theorem NumLit.chars_cons (a : NumLit) (ha : a.wf = true) :
    ∃ d tl, a.chars = d :: tl ∧ (d.isDigit = true ∨ d = '.') := by
  obtain ⟨ip, fp, ex⟩ := a
  simp only [NumLit.wf, NumLit.fdigits, Bool.and_eq_true] at ha
  obtain ⟨⟨⟨hip, hfp⟩, hne⟩, hex⟩ := ha
  rcases ip with _ | ⟨d, ip'⟩
  · rcases fp with _ | f
    · simp at hne
    · exact ⟨'.', _, rfl, Or.inr rfl⟩
  · simp at hip
    exact ⟨d, _, rfl, Or.inl hip.1⟩

theorem NumLit.valid_wf (a : NumLit) (h : a.valid = true) : a.wf = true := by
  simp only [NumLit.valid, Bool.and_eq_true] at h
  exact h.1

theorem NumLit.valid_toDouble (a : NumLit) (h : a.valid = true) :
    toDouble a.value = some a.dvalue := by
  simp only [NumLit.valid, NumLit.finite, Bool.and_eq_true, Option.isSome_iff_exists] at h
  obtain ⟨_, d, hd⟩ := h
  simp [NumLit.dvalue, hd]

/-- The conversion at sample values: 1/10 goes to the nearest `double`,
which is larger; `DBL_MAX` and the smallest subnormal number are kept; half of
the smallest subnormal number, a tie, goes to zero, the even neighbour;
`2 ^ 53 + 1`, a tie, goes to `2 ^ 53`; a value just below `2 ^ 1024` has no
`double`. -/
theorem toDouble_samples :
    toDouble (1 / 10) = some (3602879701896397 / 36028797018963968) ∧
      toDouble DBL_MAX = some DBL_MAX ∧
      toDouble (1 / 2 ^ 1074) = some (1 / 2 ^ 1074) ∧
      toDouble (1 / 2 ^ 1075) = some 0 ∧
      toDouble (2 ^ 53 + 1) = some (2 ^ 53) ∧
      toDouble (-5 / 2) = some (-5 / 2) ∧
      toDouble (2 ^ 1024 - 2 ^ 970) = none := by
  refine ⟨?_, ?_, ?_, ?_, ?_, ?_, ?_⟩ <;> decide!

theorem lit2_valid : lit2.valid = true := by decide!

theorem lit3_valid : lit3.valid = true := by decide!

theorem lit5_valid : lit5.valid = true := by decide!

/-- A literal in the range of `double`, followed by a character that cannot
continue it: the extraction gives the `double` nearest to its value and leaves
the stream good. -/
theorem extractDouble_lit (a : NumLit) (x : Char) (r : List Char)
    (ha : a.valid = true) (hx : stops x = true) :
    istream.extractDouble ⟨a.chars ++ x :: r, false, false⟩ =
      (some a.dvalue, ⟨x :: r, false, false⟩) := by
  obtain ⟨d, tl, hd, hdig⟩ := a.chars_cons (a.valid_wf ha)
  have hsp := digit_not_space d hdig
  have h1 : (a.chars ++ x :: r).dropWhile isspace = a.chars ++ x :: r := by
    rw [hd]; simp [List.dropWhile, hsp]
  have h2 := scanFloat_lit a x r (a.valid_wf ha) hx
  unfold istream.extractDouble
  simp only [Bool.or_self, Bool.false_eq_true, if_false, h1]
  rw [hd] at h2 ⊢
  simp only [List.cons_append] at h2 ⊢
  rw [h2]
  simp [a.valid_toDouble ha]

theorem get_lit (w : List Char) (a : NumLit) (x : Char) (r : List Char) (buf : token)
    (vars : List UserVar) (out : List Output)
    (hw : blank w = true) (ha : a.valid = true) (hx : stops x = true) :
    token_stream.get (Calc.reading (w ++ (a.chars ++ x :: r)) buf vars out) =
      .ok (token.ofValue a.dvalue) (Calc.reading (x :: r) buf vars out) := by
  obtain ⟨d, tl, hd, hdig⟩ := a.chars_cons (a.valid_wf ha)
  have h2 := extractDouble_lit a x r ha hx
  rw [hd] at h2 ⊢
  simp only [List.cons_append] at h2 ⊢
  have hdd : (d.isDigit || decide (d = '.')) = true := by
    rcases hdig with h | h <;> simp [h]
  simp [token_stream.get, Calc.reading, extract_blank w d _ hw (digit_not_space d hdig),
    digit_not_op d hdig, digit_not_break d hdig, hdd, istream.putback, h2]

/-! ### The evaluator on literals -/

theorem blank_cons_stops (w : List Char) (x : Char) (r : List Char)
    (hw : blank w = true) (hx : is_op x = true) :
    ∃ y r1, w ++ x :: r = y :: r1 ∧ stops y = true := by
  rcases w with _ | ⟨c, w1⟩
  · exact ⟨x, r, rfl, op_stops x hx⟩
  · simp [blank] at hw
    exact ⟨c, w1 ++ x :: r, rfl, space_stops c hw.1⟩

theorem ws_blank (w : List Char) (x : Char) (r : List Char)
    (hw : blank w = true) (hx : isspace x = false) :
    istream.ws ⟨w ++ x :: r, false, false⟩ = ⟨x :: r, false, false⟩ := by
  simp [istream.ws, dropWhile_blank w x r hw hx]

theorem termLoop_stop (pow : ℚ → ℚ → ℚ) (n : Nat) (left : ℚ) (cs : List Char) (t : token)
    (vars : List UserVar) (out : List Output)
    (h1 : t.kind_ ≠ '*') (h2 : t.kind_ ≠ '/') (h3 : t.kind_ ≠ '%') (h4 : t.kind_ ≠ '^') :
    termLoop pow (n + 1) left (Calc.holding cs t vars out) =
      .ok left (Calc.holding cs t vars out) := by
  simp [termLoop, get_holding, Res.bind, h1, h2, h3, h4, putback_reading]

theorem exprLoop_stop (pow : ℚ → ℚ → ℚ) (n : Nat) (left : ℚ) (cs : List Char) (t : token)
    (vars : List UserVar) (out : List Output)
    (h1 : t.kind_ ≠ '+') (h2 : t.kind_ ≠ '-') :
    exprLoop pow (n + 1) left (Calc.holding cs t vars out) =
      .ok left (Calc.holding cs t vars out) := by
  simp [exprLoop, get_holding, Res.bind, h1, h2, putback_reading]

/-- A literal followed by an operator other than `^`: `primary` gives the
literal's value and leaves the operator in the buffer. -/
theorem primary_lit_stop (pow : ℚ → ℚ → ℚ) (n : Nat) (w w1 : List Char) (a : NumLit)
    (x : Char) (r : List Char) (buf : token) (vars : List UserVar) (out : List Output)
    (hw : blank w = true) (hw1 : blank w1 = true) (ha : a.valid = true)
    (hx : is_op x = true) (hx1 : x ≠ '^') :
    primary pow (n + 1) (Calc.reading (w ++ (a.chars ++ (w1 ++ x :: r))) buf vars out) =
      .ok a.dvalue (Calc.holding r (token.ofKind x) vars out) := by
  obtain ⟨y, r1, hy, hys⟩ := blank_cons_stops w1 x r hw1 hx
  have hg := get_lit w a y r1 buf vars out hw ha hys
  rw [← hy] at hg
  simp [primary, hg, Res.bind, token.ofValue, number, get_op w1 x r buf vars out hw1 hx,
    token.ofKind, hx1, putback_reading]

/-- A literal followed by `^`: `primary` skips white space, evaluates the
primary that follows and raises the literal's value to it. -/
theorem primary_lit_pow (pow : ℚ → ℚ → ℚ) (n : Nat) (w w1 w2 : List Char) (a : NumLit)
    (L : List Char) (buf : token) (vars : List UserVar) (out : List Output)
    (hw : blank w = true) (hw1 : blank w1 = true) (hw2 : blank w2 = true) (ha : a.valid = true)
    (hL : ∃ y r, L = y :: r ∧ isspace y = false) :
    primary pow (n + 1)
        (Calc.reading (w ++ (a.chars ++ (w1 ++ '^' :: (w2 ++ L)))) buf vars out) =
      (primary pow n (Calc.reading L buf vars out)).bind
        fun rpower s => .ok (pow a.dvalue rpower) s := by
  obtain ⟨y, r, rfl, hy⟩ := hL
  obtain ⟨z, r1, hz, hzs⟩ := blank_cons_stops w1 '^' (w2 ++ y :: r) hw1 (by decide)
  have hg := get_lit w a z r1 buf vars out hw ha hzs
  rw [← hz] at hg
  have hws := ws_blank w2 y r hw2 hy
  simp [primary, hg, Res.bind, token.ofValue, number,
    get_op w1 '^' (w2 ++ y :: r) buf vars out hw1 (by decide), token.ofKind]
  simp [Calc.reading, hws]

theorem NumLit.starts (a : NumLit) (r : List Char) (ha : a.valid = true) :
    ∃ y r1, a.chars ++ r = y :: r1 ∧ isspace y = false := by
  obtain ⟨d, tl, hd, hdig⟩ := a.chars_cons (a.valid_wf ha)
  exact ⟨d, tl ++ r, by rw [hd]; rfl, digit_not_space d hdig⟩

/-- A `-` followed by a literal and `^`: `primary` negates the literal and
raises the negated value to the primary that follows. -/
theorem primary_neg_lit_pow (pow : ℚ → ℚ → ℚ) (n : Nat) (w w1 w2 : List Char) (a : NumLit)
    (L : List Char) (buf : token) (vars : List UserVar) (out : List Output)
    (hw : blank w = true) (hw1 : blank w1 = true) (hw2 : blank w2 = true)
    (ha : a.valid = true) :
    primary pow (n + 1)
        (Calc.reading (w ++ '-' :: (w1 ++ (a.chars ++ (w2 ++ '^' :: L)))) buf vars out) =
      (primary pow n (Calc.reading L buf vars out)).bind
        fun rpower s => .ok (pow (-a.dvalue) rpower) s := by
  obtain ⟨z, r1, hz, hzs⟩ := blank_cons_stops w2 '^' L hw2 (by decide)
  have hd := extractDouble_lit a z r1 ha hzs
  rw [← hz] at hd
  obtain ⟨d, tl, hc, hdig⟩ := a.chars_cons (a.valid_wf ha)
  have hdd : (d.isDigit || decide (d = '.')) = true := by
    rcases hdig with h | h <;> simp [h]
  have hne : d ≠ '(' := by
    rintro rfl; revert hdig; decide
  have he := extract_blank w1 d (tl ++ (w2 ++ '^' :: L)) hw1 (digit_not_space d hdig)
  have he2 := extract_blank w2 '^' L hw2 (by decide)
  rw [hc] at hd
  simp only [List.cons_append] at hd
  rw [primary, get_op w '-' _ buf vars out hw (by decide)]
  simp [Res.bind, token.ofKind, Calc.reading, hc, he, hne, hdd, istream.putback, hd, he2]

/-- A `-` followed by a literal and a character that is not `^`: `primary`
gives the negated value and puts the character back on the input. -/
theorem primary_neg_lit_stop (pow : ℚ → ℚ → ℚ) (n : Nat) (w w1 w2 : List Char) (a : NumLit)
    (x : Char) (r : List Char) (buf : token) (vars : List UserVar) (out : List Output)
    (hw : blank w = true) (hw1 : blank w1 = true) (hw2 : blank w2 = true)
    (ha : a.valid = true) (hx : is_op x = true) (hx1 : x ≠ '^') :
    primary pow (n + 1)
        (Calc.reading (w ++ '-' :: (w1 ++ (a.chars ++ (w2 ++ x :: r)))) buf vars out) =
      .ok (-a.dvalue) (Calc.reading (x :: r) buf vars out) := by
  obtain ⟨z, r1, hz, hzs⟩ := blank_cons_stops w2 x r hw2 hx
  have hd := extractDouble_lit a z r1 ha hzs
  rw [← hz] at hd
  obtain ⟨d, tl, hc, hdig⟩ := a.chars_cons (a.valid_wf ha)
  have hdd : (d.isDigit || decide (d = '.')) = true := by
    rcases hdig with h | h <;> simp [h]
  have hne : d ≠ '(' := by
    rintro rfl; revert hdig; decide
  have he := extract_blank w1 d (tl ++ (w2 ++ x :: r)) hw1 (digit_not_space d hdig)
  have he2 := extract_blank w2 x r hw2 (op_not_space x hx)
  rw [hc] at hd
  simp only [List.cons_append] at hd
  rw [primary, get_op w '-' _ buf vars out hw (by decide)]
  simp [Res.bind, token.ofKind, Calc.reading, hc, he, hne, hdd, istream.putback, hd, he2, hx1]

/-! ### The manual modulo -/

/-- C3 (the code at the failing input): with a negative dividend and a
positive divisor the loop `while (left+d<=0) left+=d;` stops at a value in
`(-d, 0]`: the statement `-7 % 2;` prints `-1`, not the floor-division modulo
`1`, while `7 % -2;` prints `-1` as the floor convention asks. -/
theorem C3_modulo_negative_dividend :
    calculate_iter natPow 10 (Calc.start "-7 % 2;".toList []) =
        .ok false ⟨⟨[], false, false⟩, ⟨true, token.ofKind ';'⟩, [],
          [.promptText, .resultMark, .result (-1)]⟩ ∧
      calculate_iter natPow 10 (Calc.start "7 % -2;".toList []) =
        .ok false ⟨⟨[], false, false⟩, ⟨true, token.ofKind ';'⟩, [],
          [.promptText, .resultMark, .result (-1)]⟩ ∧
      (-7 : ℚ) - 2 * ⌊(-7 : ℚ) / 2⌋ = 1 := by
  refine ⟨by decide!, by decide!, ?_⟩
  have h : ⌊(-7 : ℚ) / 2⌋ = -4 := by
    rw [Int.floor_eq_iff]; norm_num
  rw [h]; norm_num

/-- C4: in the loop of `term`, when the next token is `%` and the primary
after it evaluates to `d`: for `d = 0` the loop throws "modulo by zero",
whatever the left value (zero included); for `d ≠ 0` and a left value of zero
the loop goes on with the value zero. -/
theorem C4_modulo_zero_operands (pow : ℚ → ℚ → ℚ) (n : Nat) (left d : ℚ) (s s1 s2 : Calc)
    (t : token) (hget : token_stream.get s = .ok t s1) (ht : t.kind_ = '%')
    (hd : primary pow n s1 = .ok d s2) :
    (d = 0 → termLoop pow (n + 1) left s = .throw .moduloByZero s2) ∧
      (d ≠ 0 → left = 0 → termLoop pow (n + 1) left s = termLoop pow n 0 s2) := by
  constructor
  · intro h0
    simp [termLoop, hget, Res.bind, ht, hd, h0]
  · intro h0 hl
    simp [termLoop, hget, Res.bind, ht, hd, h0, hl]

/-- C4 at concrete inputs: after the left operand of `3 % 0;` and of `0 % 0;`
the loop throws "modulo by zero"; after the left operand `0` of `0 % 5;` it
goes on with zero, and the statement evaluates to zero. -/
theorem C4_modulo_zero_operands_witness :
    termLoop natPow 2 3 (Calc.holding ['0', ';'] (token.ofKind '%') [] []) =
        .throw .moduloByZero (Calc.holding [] (token.ofKind ';') [] []) ∧
      termLoop natPow 2 0 (Calc.holding ['0', ';'] (token.ofKind '%') [] []) =
        .throw .moduloByZero (Calc.holding [] (token.ofKind ';') [] []) ∧
      termLoop natPow 2 0 (Calc.holding ['5', ';'] (token.ofKind '%') [] []) =
        termLoop natPow 1 0 (Calc.holding [] (token.ofKind ';') [] []) ∧
      expression natPow 5 (Calc.start "0 % 5;".toList []) =
        .ok 0 (Calc.holding [] (token.ofKind ';') [] []) :=
  ⟨(C4_modulo_zero_operands natPow 1 3 0 _ _ _ _ (get_holding _ _ _ _) rfl
      (by decide!)).1 rfl,
    (C4_modulo_zero_operands natPow 1 0 0 _ _ _ _ (get_holding _ _ _ _) rfl
      (by decide!)).1 rfl,
    (C4_modulo_zero_operands natPow 1 0 5 _ _ _ _ (get_holding _ _ _ _) rfl
      (by decide!)).2 (by norm_num) rfl,
    by decide!⟩

/-! ### The session loop on expression statements -/

theorem skipPrints_pass (n : Nat) (t : token) (s : Calc) (h : t.kind_ ≠ print) :
    skipPrints (n + 1) t s = .ok t s := by
  simp [skipPrints, h]

/-- A number token in the buffer followed on the input by an operator other
than `^`: `primary` gives the token's value and leaves the operator in the
buffer. -/
theorem primary_number_holding (pow : ℚ → ℚ → ℚ) (n : Nat) (w : List Char) (v : ℚ)
    (x : Char) (r : List Char) (vars : List UserVar) (out : List Output)
    (hw : blank w = true) (hx : is_op x = true) (hx1 : x ≠ '^') :
    primary pow (n + 1) (Calc.holding (w ++ x :: r) (token.ofValue v) vars out) =
      .ok v (Calc.holding r (token.ofKind x) vars out) := by
  simp [primary, get_holding, Res.bind, token.ofValue, number,
    get_op w x r _ vars out hw hx, token.ofKind, hx1, putback_reading]

/-- The start of an expression statement: the loop reads the literal, puts
its token back and calls `expression`. -/
theorem calculate_try_lit (pow : ℚ → ℚ → ℚ) (n : Nat) (w : List Char) (a : NumLit)
    (y : Char) (r : List Char) (buf : token) (vars : List UserVar) (out : List Output)
    (hw : blank w = true) (ha : a.valid = true) (hy : stops y = true) :
    calculate_try pow (n + 1) (Calc.reading (w ++ (a.chars ++ y :: r)) buf vars out) =
      (expression pow (n + 1)
          (Calc.holding (y :: r) (token.ofValue a.dvalue) vars
            (out ++ [.promptText, .resultMark]))).bind
        fun v s => .ok false (s.put (.result v)) := by
  have hg := get_lit w a y r buf vars (out ++ [.promptText]) hw ha hy
  have hp : (Calc.reading (w ++ (a.chars ++ y :: r)) buf vars out).put .promptText =
      Calc.reading (w ++ (a.chars ++ y :: r)) buf vars (out ++ [.promptText]) := rfl
  rw [calculate_try, hp, hg]
  simp only [Res.bind]
  rw [skipPrints_pass n _ _ (by simp [token.ofValue, number, print])]
  simp [calculate_switch, token.ofValue, number, quit, help, disp, del, setvar,
    putback_reading, Res.bind, Calc.put, Calc.holding]

/-- C7 (the code at the failing input): after `x = 1;`, the statement
`delete uvars all;` takes `uvars` for the target, fails with "Cannot delete a
variable that does not exist!" and drops the rest of the statement; the store
keeps `x`, and `display uvars;` lists it.  Only `delete all;` clears the
store. -/
theorem C7_delete_uvars_all_fails :
    calculate natPow 20
        (Calc.start "x = 1;delete uvars all;display uvars;q ".toList []) =
      .ok () ⟨⟨[' '], false, false⟩, ⟨false, token.ofKind ';'⟩, [⟨['x'], 1⟩],
        [.promptText, .created ['x'] 1, .promptText, .cerr .cannotDelete, .promptText,
          .displayUser [⟨['x'], 1⟩], .promptText]⟩ ∧
    calculate natPow 20
        (Calc.start "x = 1;delete all;display uvars;q ".toList []) =
      .ok () ⟨⟨[' '], false, false⟩, ⟨false, token.ofKind ';'⟩, [],
        [.promptText, .created ['x'] 1, .promptText, .cleared, .promptText, .noUserVars,
          .promptText]⟩ := by
  constructor <;> decide!

/-- C10 (the code at the failing inputs): after `-` the name is collected
with its first letter twice, so `-pi` looks up `ppi` and `-x` looks up `xx`.
`primary` on `-pi;` throws "Failed to create a negative primary from alpha
chars", and so it does on `-x;` with `x = 2` in the store; with `xx = 3` also
in the store `-x;` gives `-3`.  A negated literal `-2;` gives `-2`.  The
session loop reports the error for the statement `-pi;`. -/
theorem C10_negated_name_fails :
    primary natPow 3 (Calc.start "-pi;".toList []) =
        .throw .negativePrimaryFailed (Calc.start [';'] []) ∧
      primary natPow 3 (Calc.start "-x;".toList [⟨['x'], 2⟩]) =
        .throw .negativePrimaryFailed (Calc.start [';'] [⟨['x'], 2⟩]) ∧
      primary natPow 3 (Calc.start "-x;".toList [⟨['x'], 2⟩, ⟨['x', 'x'], 3⟩]) =
        .ok (-3) (Calc.holding [] (token.ofKind ';') [⟨['x'], 2⟩, ⟨['x', 'x'], 3⟩] []) ∧
      primary natPow 3 (Calc.start "-2;".toList []) = .ok (-2) (Calc.start [';'] []) ∧
      calculate_iter natPow 5 (Calc.start "-pi;".toList []) =
        .ok false ⟨⟨[], false, false⟩, ⟨false, token.ofKind '-'⟩, [],
          [.promptText, .resultMark, .cerr .negativePrimaryFailed]⟩ := by
  refine ⟨?_, ?_, ?_, ?_, ?_⟩ <;> decide!

/-! ### The lexer on names -/

theorem alphaLoop_stop (acc : List Char) (y : Char) (r : List Char) (hy : y.isAlpha = false) :
    alphaLoop acc y r = some (acc, y, r) := by
  cases r <;> simp [alphaLoop, hy]

theorem alphaLoop_name (cs : List Char) :
    ∀ (acc : List Char) (c y : Char) (r : List Char), c.isAlpha = true →
      cs.all Char.isAlpha = true → y.isAlpha = false →
      alphaLoop acc c (cs ++ y :: r) = some (acc ++ c :: cs, y, r) := by
  induction cs with
  | nil =>
    intro acc c y r hc _ hy
    simp [alphaLoop, hc, alphaLoop_stop _ y r hy]
  | cons d ds ih =>
    intro acc c y r hc hcs hy
    simp only [List.all_cons, Bool.and_eq_true] at hcs
    simp [alphaLoop, hc, ih (acc ++ [c]) d y r hcs.1 hcs.2 hy]

theorem alphaLoop_exhausted (cs : List Char) :
    ∀ (acc : List Char) (c : Char), c.isAlpha = true → cs.all Char.isAlpha = true →
      alphaLoop acc c cs = none := by
  induction cs with
  | nil =>
    intro acc c hc _
    simp [alphaLoop, hc]
  | cons d ds ih =>
    intro acc c hc hcs
    simp only [List.all_cons, Bool.and_eq_true] at hcs
    simp [alphaLoop, hc, ih (acc ++ [c]) d hcs.1 hcs.2]

theorem isName_cons (x : List Char) (hx : isName x = true) :
    ∃ c cs, x = c :: cs ∧ c.isAlpha = true ∧ cs.all Char.isAlpha = true := by
  rcases x with _ | ⟨c, cs⟩
  · simp [isName] at hx
  · simp only [isName, List.isEmpty_cons, Bool.not_false, Bool.true_and, List.all_cons,
      Bool.and_eq_true] at hx
    exact ⟨c, cs, rfl, hx.1, hx.2⟩

/-- A name followed by a character that is not alphabetic: `get` collects the
name, puts the character back and goes on to classify the name. -/
theorem get_name (w x : List Char) (y : Char) (r : List Char) (buf : token)
    (vars : List UserVar) (out : List Output)
    (hw : blank w = true) (hx : isName x = true) (hy : y.isAlpha = false) :
    token_stream.get (Calc.reading (w ++ (x ++ y :: r)) buf vars out) =
      token_stream.get_word x y (Calc.reading (y :: r) buf vars out) := by
  obtain ⟨c, cs, rfl, hc, hcs⟩ := isName_cons x hx
  have he := extract_blank w c (cs ++ y :: r) hw (alpha_not_space c hc)
  have hd := alpha_not_digit c hc
  simp only [Bool.or_eq_false_iff, decide_eq_false_iff_not] at hd
  simp [token_stream.get, Calc.reading, he, alpha_not_op c hc, alpha_not_break c hc, hd.1,
    hd.2, hc, istream.alphaRun, alphaLoop_name cs [] c y r hc hcs hy, istream.putback]

/-- A name at the very end of the input: the loop that collects it never
exits. -/
theorem get_name_exhausted (w x : List Char) (buf : token)
    (vars : List UserVar) (out : List Output)
    (hw : blank w = true) (hx : isName x = true) :
    token_stream.get (Calc.reading (w ++ x) buf vars out) = .abort .bad_alloc := by
  obtain ⟨c, cs, rfl, hc, hcs⟩ := isName_cons x hx
  have he := extract_blank w c cs hw (alpha_not_space c hc)
  have hd := alpha_not_digit c hc
  simp only [Bool.or_eq_false_iff, decide_eq_false_iff_not] at hd
  simp [token_stream.get, Calc.reading, he, alpha_not_op c hc, alpha_not_break c hc, hd.1,
    hd.2, hc, istream.alphaRun, alphaLoop_exhausted cs [] c hc hcs]

/-! ### Reserved names and user variables -/

theorem protected_of_reserved (L : List Char)
    (h : is_command L = true ∨ is_sysvar L = true) : L ∈ protectedNames := by
  simp [is_command, is_sysvar, NUM_COMMAND, NUM_SYSVAR, reservedVarNames, List.range_succ]
    at h
  simp [protectedNames, NUM_COMMAND, NUM_SYSVAR, reservedVarNames]
  tauto

theorem protected_lower : ∀ L ∈ protectedNames, isName L = true ∧ lowcase L = L := by
  decide

theorem isName_of_lowcase (x : List Char) (h : isName (lowcase x) = true) :
    isName x = true := by
  simp only [isName, lowcase, Bool.and_eq_true, Bool.not_eq_true', List.isEmpty_eq_false,
    List.all_eq_true, List.mem_map, forall_exists_index, and_imp,
    forall_apply_eq_imp_iff₂] at h ⊢
  refine ⟨by simpa using h.1, fun c hc => ?_⟩
  have := h.2 c hc
  by_cases hca : c.isAlpha = true
  · exact hca
  · simp [hca] at this

theorem get_word_lowcase (nm : List Char) (y : Char) (s : Calc)
    (hres : is_command (lowcase nm) = true ∨ is_sysvar (lowcase nm) = true) :
    token_stream.get_word nm y s = token_stream.get_word (lowcase nm) y s := by
  have hl : lowcase (lowcase nm) = lowcase nm :=
    (protected_lower _ (protected_of_reserved _ hres)).2
  by_cases hc : is_command (lowcase nm) = true
  · simp [token_stream.get_word, hl, hc]
  · have hs : is_sysvar (lowcase nm) = true := by tauto
    simp [token_stream.get_word, hl, hc, hs]

/-- C9: for a word `nm` whose lower-case spelling is a command or a system
constant, `get` gives the same result (token and state) on `nm` as on its
lower-case spelling, whatever the case of its letters; user variables are
looked up by exact equality of names. -/
theorem C9_reserved_names_any_case (w nm rest : List Char) (buf : token)
    (vars : List UserVar) (out : List Output) (hw : blank w = true)
    (hres : is_command (lowcase nm) = true ∨ is_sysvar (lowcase nm) = true)
    (hrest : rest = [] ∨ ∃ y r, rest = y :: r ∧ y.isAlpha = false) :
    token_stream.get (Calc.reading (w ++ (nm ++ rest)) buf vars out) =
        token_stream.get (Calc.reading (w ++ (lowcase nm ++ rest)) buf vars out) ∧
      ∀ x : List Char, is_usrvar vars x = true ↔ ∃ u ∈ vars, u.name = x := by
  have hlow := (protected_lower _ (protected_of_reserved _ hres)).1
  have hnm := isName_of_lowcase nm hlow
  refine ⟨?_, fun x => by simp [is_usrvar]⟩
  rcases hrest with rfl | ⟨y, r, rfl, hy⟩
  · rw [List.append_nil, List.append_nil, get_name_exhausted w nm buf vars out hw hnm,
      get_name_exhausted w (lowcase nm) buf vars out hw hlow]
  · rw [get_name w nm y r buf vars out hw hnm hy,
      get_name w (lowcase nm) y r buf vars out hw hlow hy]
    exact get_word_lowcase nm y _ hres

/-- C9 at concrete inputs: `PI` and `Pi` give the number token of `pi`, as
`pi` does; with `x = 1` in the store, `x` gives the number token 1 while `X`
is an unknown name and gives the token that declares `X`. -/
theorem C9_reserved_names_any_case_witness :
    token_stream.get (Calc.start "PI;".toList []) =
        token_stream.get (Calc.start "pi;".toList []) ∧
      token_stream.get (Calc.start "Pi;".toList []) =
        .ok (token.ofValue (31415926535 / 10000000000)) (Calc.start [';'] []) ∧
      token_stream.get (Calc.start "pi;".toList []) =
        .ok (token.ofValue (31415926535 / 10000000000)) (Calc.start [';'] []) ∧
      token_stream.get (Calc.start "x;".toList [⟨['x'], 1⟩]) =
        .ok (token.ofValue 1) (Calc.start [';'] [⟨['x'], 1⟩]) ∧
      token_stream.get (Calc.start "X;".toList [⟨['x'], 1⟩]) =
        .ok (token.ofKindValueName setvar 0 ['X']) (Calc.start [] [⟨['x'], 1⟩]) :=
  ⟨(C9_reserved_names_any_case [] ['P', 'I'] [';'] (token.ofKind empt) [] [] rfl
      (Or.inr (by decide)) (Or.inr ⟨';', [], rfl, by decide⟩)).1,
    by decide!, by decide!, by decide!, by decide!⟩

theorem space_not_alpha (c : Char) (h : isspace c = true) : c.isAlpha = false := by
  rw [isspace_iff] at h
  simp at h
  rcases h with rfl | rfl | rfl | rfl | rfl | rfl <;> decide

theorem blank_cons_nonalpha (w : List Char) (c : Char) (r : List Char)
    (hw : blank w = true) (hc : c.isAlpha = false) :
    ∃ y r1, w ++ c :: r = y :: r1 ∧ y.isAlpha = false := by
  rcases w with _ | ⟨d, w1⟩
  · exact ⟨c, r, rfl, hc⟩
  · simp [blank] at hw
    exact ⟨d, w1 ++ c :: r, rfl, space_not_alpha d hw.1⟩

theorem is_usrvar_of_get (vars : List UserVar) (x : List Char) (v : ℚ)
    (h : get_usrvar vars x = some v) : is_usrvar vars x = true := by
  simp only [get_usrvar, Option.map_eq_some'] at h
  obtain ⟨u, hu, _⟩ := h
  have h1 := List.mem_of_find?_eq_some hu
  have h2 := List.find?_some hu
  simp only [is_usrvar, List.any_eq_true]
  exact ⟨u, h1, h2⟩

theorem is_usrvar_append_self (vars : List UserVar) (x : List Char) (v : ℚ) :
    is_usrvar (vars ++ [⟨x, v⟩]) x = true := by
  simp [is_usrvar]

theorem get_usrvar_append_new (vars : List UserVar) (x : List Char) (v : ℚ)
    (h : is_usrvar vars x = false) : get_usrvar (vars ++ [⟨x, v⟩]) x = some v := by
  have h1 : vars.find? (fun u => decide (u.name = x)) = none := by
    rw [List.find?_eq_none]
    intro u hu
    simp only [is_usrvar, List.any_eq_false] at h
    exact h u hu
  simp [get_usrvar, List.find?_append, h1]

theorem findIdx_of_absent (vars : List UserVar) (x : List Char)
    (h : is_usrvar vars x = false) :
    vars.findIdx (fun u => decide (u.name = x)) = vars.length := by
  rw [List.findIdx_eq_length]
  intro u hu
  simp only [is_usrvar, List.any_eq_false] at h
  exact Bool.eq_false_iff.mpr (h u hu)

theorem selectVar_absent (vars : List UserVar) (x : List Char)
    (h : is_usrvar vars x = false) : selectVar vars x = none := by
  simp [selectVar, findIdx_of_absent vars x h]

theorem selectVar_append_new (vars : List UserVar) (x : List Char) (v : ℚ)
    (h : is_usrvar vars x = false) :
    selectVar (vars ++ [⟨x, v⟩]) x = some vars.length := by
  have h1 : (vars ++ [UserVar.mk x v]).findIdx (fun u => decide (u.name = x)) =
      vars.length := by
    rw [List.findIdx_append, findIdx_of_absent vars x h]
    simp [List.findIdx_cons]
  simp [selectVar, h1]

/-- The name of an existing variable followed by `;`: a number token with
the variable's value; the `;` stays on the input. -/
theorem get_var_read (w w1 x r : List Char) (buf : token) (vars : List UserVar)
    (out : List Output) (v : ℚ) (hw : blank w = true) (hw1 : blank w1 = true)
    (hx : isName x = true) (hc : is_command (lowcase x) = false)
    (hs : is_sysvar (lowcase x) = false) (hv : get_usrvar vars x = some v) :
    token_stream.get (Calc.reading (w ++ (x ++ (w1 ++ ';' :: r))) buf vars out) =
      .ok (token.ofValue v) (Calc.reading (';' :: r) buf vars out) := by
  obtain ⟨y, r1, hy, hya⟩ := blank_cons_nonalpha w1 ';' r hw1 (by decide)
  have hg := get_name w x y r1 buf vars out hw hx hya
  rw [← hy] at hg
  have he := extract_blank w1 ';' r hw1 (by decide)
  rw [hg]
  simp [token_stream.get_word, hc, hs, is_usrvar_of_get vars x v hv, Calc.reading, he, hv,
    istream.putback]

/-- An unknown name followed by `;`: the token that declares the name; the
`;` is read. -/
theorem get_declare (w w1 x r : List Char) (buf : token) (vars : List UserVar)
    (out : List Output) (hw : blank w = true) (hw1 : blank w1 = true)
    (hx : isName x = true) (hc : is_command (lowcase x) = false)
    (hs : is_sysvar (lowcase x) = false) (hu : is_usrvar vars x = false) :
    token_stream.get (Calc.reading (w ++ (x ++ (w1 ++ ';' :: r))) buf vars out) =
      .ok (token.ofKindValueName setvar 0 x) (Calc.reading r buf vars out) := by
  obtain ⟨y, r1, hy, hya⟩ := blank_cons_nonalpha w1 ';' r hw1 (by decide)
  have hg := get_name w x y r1 buf vars out hw hx hya
  rw [← hy] at hg
  have he := extract_blank w1 ';' r hw1 (by decide)
  rw [hg]
  simp [token_stream.get_word, hc, hs, hu, Calc.reading, he]

/-- A name of a variable, existing or not, followed by `=`: the token that
assigns to the name; the `=` is read. -/
theorem get_assign (w w1 x r : List Char) (buf : token) (vars : List UserVar)
    (out : List Output) (hw : blank w = true) (hw1 : blank w1 = true)
    (hx : isName x = true) (hc : is_command (lowcase x) = false)
    (hs : is_sysvar (lowcase x) = false) :
    token_stream.get (Calc.reading (w ++ (x ++ (w1 ++ '=' :: r))) buf vars out) =
      .ok (token.ofKindValueName setvar 1 x) (Calc.reading r buf vars out) := by
  obtain ⟨y, r1, hy, hya⟩ := blank_cons_nonalpha w1 '=' r hw1 (by decide)
  have hg := get_name w x y r1 buf vars out hw hx hya
  rw [← hy] at hg
  have he := extract_blank w1 '=' r hw1 (by decide)
  rw [hg]
  by_cases hu : is_usrvar vars x = true
  · simp [token_stream.get_word, hc, hs, hu, Calc.reading, he]
  · simp [token_stream.get_word, hc, hs, hu, Calc.reading, he]

/-- The front of an iteration from an empty buffer: when the first token is
no print, the switch runs on it. -/
theorem calculate_try_reading (pow : ℚ → ℚ → ℚ) (n : Nat) (cs : List Char) (buf t : token)
    (vars : List UserVar) (out : List Output) (s1 : Calc)
    (hg : token_stream.get (Calc.reading cs buf vars (out ++ [.promptText])) = .ok t s1)
    (ht : t.kind_ ≠ print) :
    calculate_try pow (n + 1) (Calc.reading cs buf vars out) =
      calculate_switch pow (n + 1) t s1 := by
  have hp : (Calc.reading cs buf vars out).put .promptText =
      Calc.reading cs buf vars (out ++ [.promptText]) := rfl
  rw [calculate_try, hp, hg]
  simp only [Res.bind]
  rw [skipPrints_pass n _ _ ht]

/-- The front of an iteration with the `;` of the last statement in the
buffer: the `;` is discarded, and when the next token is no print, the switch
runs on it. -/
theorem calculate_try_holding (pow : ℚ → ℚ → ℚ) (n : Nat) (cs : List Char) (t : token)
    (vars : List UserVar) (out : List Output) (s1 : Calc)
    (hg : token_stream.get (Calc.reading cs (token.ofKind ';') vars (out ++ [.promptText])) =
      .ok t s1)
    (ht : t.kind_ ≠ print) :
    calculate_try pow (n + 2) (Calc.holding cs (token.ofKind ';') vars out) =
      calculate_switch pow (n + 2) t s1 := by
  have hp : (Calc.holding cs (token.ofKind ';') vars out).put .promptText =
      Calc.holding cs (token.ofKind ';') vars (out ++ [.promptText]) := rfl
  rw [calculate_try, hp, get_holding]
  simp only [Res.bind]
  have hk : (token.ofKind ';').kind_ = print := rfl
  rw [skipPrints]
  simp only [hk, if_true, hg, Res.bind]
  rw [skipPrints_pass n _ _ ht]

/-- A number token in the buffer followed by `;`: `expression` gives its
value and leaves the `;` in the buffer. -/
theorem expression_number_stop (pow : ℚ → ℚ → ℚ) (n : Nat) (w r : List Char) (v : ℚ)
    (vars : List UserVar) (out : List Output) (hw : blank w = true) :
    expression pow (n + 3) (Calc.holding (w ++ ';' :: r) (token.ofValue v) vars out) =
      .ok v (Calc.holding r (token.ofKind ';') vars out) := by
  have p := primary_number_holding pow n w v ';' r vars out hw (by decide) (by decide)
  simp only [expression, term, p, Res.bind]
  rw [termLoop_stop pow _ _ _ _ _ _ (by decide) (by decide) (by decide) (by decide)]
  simp only []
  rw [exprLoop_stop pow _ _ _ _ _ _ (by decide) (by decide)]

/-- A literal followed by `;`: `expression` gives its value and leaves the
`;` in the buffer. -/
theorem expression_lit_stop (pow : ℚ → ℚ → ℚ) (n : Nat) (w w1 r : List Char) (a : NumLit)
    (buf : token) (vars : List UserVar) (out : List Output) (hw : blank w = true)
    (hw1 : blank w1 = true) (ha : a.valid = true) :
    expression pow (n + 3) (Calc.reading (w ++ (a.chars ++ (w1 ++ ';' :: r))) buf vars out) =
      .ok a.dvalue (Calc.holding r (token.ofKind ';') vars out) := by
  have p := primary_lit_stop pow n w w1 a ';' r buf vars out hw hw1 ha (by decide)
    (by decide)
  simp only [expression, term, p, Res.bind]
  rw [termLoop_stop pow _ _ _ _ _ _ (by decide) (by decide) (by decide) (by decide)]
  simp only []
  rw [exprLoop_stop pow _ _ _ _ _ _ (by decide) (by decide)]

theorem ofValue_not_print (v : ℚ) : (token.ofValue v).kind_ ≠ print := by
  simp [token.ofValue, number, print]

theorem setvar_not_print (v : ℚ) (x : List Char) :
    (token.ofKindValueName setvar v x).kind_ ≠ print := by
  simp [token.ofKindValueName, setvar, print]

theorem calculate_switch_number (pow : ℚ → ℚ → ℚ) (n : Nat) (v : ℚ) (cs : List Char)
    (buf : token) (vars : List UserVar) (out : List Output) :
    calculate_switch pow n (token.ofValue v) (Calc.reading cs buf vars out) =
      (expression pow n (Calc.holding cs (token.ofValue v) vars (out ++ [.resultMark]))).bind
        fun r s => .ok false (s.put (.result r)) := by
  simp [calculate_switch, token.ofValue, number, quit, help, disp, del, setvar,
    putback_reading, Res.bind, Calc.put, Calc.holding]

theorem calculate_switch_minus (pow : ℚ → ℚ → ℚ) (n : Nat) (cs : List Char)
    (buf : token) (vars : List UserVar) (out : List Output) :
    calculate_switch pow n (token.ofKind '-') (Calc.reading cs buf vars out) =
      (expression pow n (Calc.holding cs (token.ofKind '-') vars (out ++ [.resultMark]))).bind
        fun r s => .ok false (s.put (.result r)) := by
  simp [calculate_switch, token.ofKind, number, quit, help, disp, del, setvar,
    putback_reading, Res.bind, Calc.put, Calc.holding]

theorem modify_append_last (vars : List UserVar) (u : UserVar) (f : UserVar → UserVar) :
    (vars ++ [u]).modify f vars.length = vars ++ [f u] := by
  induction vars with
  | nil => rfl
  | cons a as ih => simp [List.modify_succ_cons, ih]

theorem getD_append_last (vars : List UserVar) (u d : UserVar) :
    (vars ++ [u]).getD vars.length d = u := by
  simp [List.getD_eq_getElem?_getD]

/-- The statement `x;` for a name not yet in the store: the variable is added
with value zero. -/
theorem calculate_iter_declare (pow : ℚ → ℚ → ℚ) (n : Nat) (w w1 x r : List Char)
    (buf : token) (vars : List UserVar) (out : List Output)
    (hw : blank w = true) (hw1 : blank w1 = true)
    (hx : isName x = true) (hc : is_command (lowcase x) = false)
    (hs : is_sysvar (lowcase x) = false) (hu : is_usrvar vars x = false) :
    calculate_iter pow (n + 1) (Calc.reading (w ++ (x ++ (w1 ++ ';' :: r))) buf vars out) =
      .ok false (Calc.reading r buf (vars ++ [⟨x, 0⟩])
        (out ++ [.promptText, .created x 0])) := by
  have hg := get_declare w w1 x r buf vars (out ++ [.promptText]) hw hw1 hx hc hs hu
  rw [calculate_iter, calculate_try_reading pow n _ buf _ vars out _ hg (setvar_not_print _ _)]
  simp [calculate_switch, token.ofKindValueName, setvar, quit, help, disp, del, toInt,
    Calc.reading, hu, Calc.put]

/-- The statement `x = a;` for the variable `x` last added to the store: its
value is replaced by the value of the literal `a`. -/
theorem calculate_iter_assign_last (pow : ℚ → ℚ → ℚ) (n : Nat)
    (w w1 w2 w3 x r : List Char) (a : NumLit) (old : ℚ)
    (buf : token) (vars : List UserVar) (out : List Output)
    (hw : blank w = true) (hw1 : blank w1 = true) (hw2 : blank w2 = true)
    (hw3 : blank w3 = true) (ha : a.valid = true)
    (hx : isName x = true) (hc : is_command (lowcase x) = false)
    (hs : is_sysvar (lowcase x) = false) (hu : is_usrvar vars x = false) :
    calculate_iter pow (n + 3)
        (Calc.reading (w ++ (x ++ (w1 ++ '=' :: (w2 ++ (a.chars ++ (w3 ++ ';' :: r))))))
          buf (vars ++ [⟨x, old⟩]) out) =
      .ok false (Calc.holding r (token.ofKind ';') (vars ++ [⟨x, a.dvalue⟩])
        (out ++ [.promptText, .updated x old a.dvalue])) := by
  have hg := get_assign w w1 x (w2 ++ (a.chars ++ (w3 ++ ';' :: r))) buf
    (vars ++ [⟨x, old⟩]) (out ++ [.promptText]) hw hw1 hx hc hs
  have he := expression_lit_stop pow n w2 w3 r a buf (vars ++ [⟨x, old⟩])
    (out ++ [.promptText]) hw2 hw3 ha
  rw [calculate_iter, calculate_try_reading pow (n + 2) _ buf _ _ out _ hg (setvar_not_print _ _)]
  have hsel := selectVar_append_new vars x old hu
  simp only [Calc.reading] at he hsel ⊢
  simp [calculate_switch, token.ofKindValueName, setvar, quit, help, disp, del, toInt,
    hsel, he, Res.bind, Calc.holding, Calc.put, modify_append_last, getD_append_last]

/-- The statement `x;` for a variable of the store, read with the `;` of the
last statement still in the buffer: its value is printed. -/
theorem calculate_iter_read_holding (pow : ℚ → ℚ → ℚ) (n : Nat) (w w1 x r : List Char)
    (vars : List UserVar) (out : List Output) (v : ℚ)
    (hw : blank w = true) (hw1 : blank w1 = true)
    (hx : isName x = true) (hc : is_command (lowcase x) = false)
    (hs : is_sysvar (lowcase x) = false) (hv : get_usrvar vars x = some v) :
    calculate_iter pow (n + 3)
        (Calc.holding (w ++ (x ++ (w1 ++ ';' :: r))) (token.ofKind ';') vars out) =
      .ok false (Calc.holding r (token.ofKind ';') vars
        (out ++ [.promptText, .resultMark, .result v])) := by
  have hg := get_var_read w w1 x r (token.ofKind ';') vars (out ++ [.promptText]) v hw hw1
    hx hc hs hv
  have he := expression_number_stop pow n [] r v vars (out ++ [.promptText] ++ [.resultMark])
    rfl
  rw [calculate_iter, calculate_try_holding pow (n + 1) _ _ vars out _ hg (ofValue_not_print _),
    calculate_switch_number]
  simp only [List.nil_append] at he
  rw [he]
  simp [Res.bind, Calc.put, Calc.holding]

/-- C8: for a variable `x` of the store with value `v` (its name alphabetic
and neither a command nor a system constant), the statement `x;` raises no
error: `get` returns the number token of `v` and leaves the `;` unread, the
iteration prints `v`, and the store is unchanged. -/
theorem C8_existing_variable_statement (pow : ℚ → ℚ → ℚ) (n : Nat) (w w1 x rest : List Char)
    (buf : token) (vars : List UserVar) (out : List Output) (v : ℚ)
    (hw : blank w = true) (hw1 : blank w1 = true)
    (hx : isName x = true) (hc : is_command (lowcase x) = false)
    (hs : is_sysvar (lowcase x) = false) (hv : get_usrvar vars x = some v) :
    token_stream.get (Calc.reading (w ++ (x ++ (w1 ++ ';' :: rest))) buf vars out) =
        .ok (token.ofValue v) (Calc.reading (';' :: rest) buf vars out) ∧
      calculate_iter pow (n + 3)
          (Calc.reading (w ++ (x ++ (w1 ++ ';' :: rest))) buf vars out) =
        .ok false (Calc.holding rest (token.ofKind ';') vars
          (out ++ [.promptText, .resultMark, .result v])) := by
  refine ⟨get_var_read w w1 x rest buf vars out v hw hw1 hx hc hs hv, ?_⟩
  have hg := get_var_read w w1 x rest buf vars (out ++ [.promptText]) v hw hw1 hx hc hs hv
  have he := expression_number_stop pow n [] rest v vars
    (out ++ [.promptText] ++ [.resultMark]) rfl
  rw [calculate_iter, calculate_try_reading pow (n + 2) _ buf _ vars out _ hg (ofValue_not_print _),
    calculate_switch_number]
  simp only [List.nil_append] at he
  rw [he]
  simp [Res.bind, Calc.put, Calc.holding]

/-- C8 at a concrete input: with `x = 5` in the store, `x;` lexes to the
number token 5 and the iteration prints 5, the store unchanged. -/
theorem C8_existing_variable_statement_witness :
    token_stream.get (Calc.reading ['x', ';'] (token.ofKind empt) [⟨['x'], 5⟩] []) =
        .ok (token.ofValue 5) (Calc.reading [';'] (token.ofKind empt) [⟨['x'], 5⟩] []) ∧
      calculate_iter natPow 3 (Calc.reading ['x', ';'] (token.ofKind empt) [⟨['x'], 5⟩] []) =
        .ok false (Calc.holding [] (token.ofKind ';') [⟨['x'], 5⟩]
          [.promptText, .resultMark, .result 5]) :=
  C8_existing_variable_statement natPow 0 [] [] ['x'] [] (token.ofKind empt) [⟨['x'], 5⟩] []
    5 rfl rfl (by decide) (by decide) (by decide) (by decide!)

/-- C6, counterexample: the literal `1e400` is beyond the largest `double`.
After `x;` has stored `x` with value 0, the iteration on `x = 1e400;` reads
the literal, which sets `failbit`, and returns nothing, the character read for
the next token being indeterminate: the value of `x` is not changed. -/
theorem C6_counterexample_overflow :
    calculate_iter natPow 8 (Calc.start "x; x = 1e400; x;".toList []) =
        .ok false (Calc.reading " x = 1e400; x;".toList (token.ofKind empt) [⟨['x'], 0⟩]
          [.promptText, .created ['x'] 0]) ∧
      calculate_iter natPow 8 (Calc.reading " x = 1e400; x;".toList (token.ofKind empt)
          [⟨['x'], 0⟩] [.promptText, .created ['x'] 0]) = .abort .indeterminate := by
  constructor <;> decide!

/-- C6, as amended: for a name `x` (alphabetic, neither a command nor a
system constant) that is not in the store and a number literal `v` that does
not exceed the largest `double`, three iterations of the session loop on
`x; x = v; x;` (white space allowed between the tokens): the first adds `x`
with value 0, the second replaces the value of `x` by the value `v` is read
as, the third prints that value. -/
theorem C6_declare_assign_read (pow : ℚ → ℚ → ℚ) (n : Nat) (x : List Char) (v : NumLit)
    (w0 w1 w2 w3 w4 w5 w6 w7 rest : List Char) (buf : token) (vars : List UserVar)
    (out : List Output)
    (hx : isName x = true) (hc : is_command (lowcase x) = false)
    (hs : is_sysvar (lowcase x) = false) (hu : is_usrvar vars x = false)
    (hv : v.valid = true)
    (h0 : blank w0 = true) (h1 : blank w1 = true) (h2 : blank w2 = true)
    (h3 : blank w3 = true) (h4 : blank w4 = true) (h5 : blank w5 = true)
    (h6 : blank w6 = true) (h7 : blank w7 = true) :
    calculate_iter pow (n + 3)
        (Calc.reading
          (w0 ++ (x ++ (w1 ++ ';' ::
            (w2 ++ (x ++ (w3 ++ '=' :: (w4 ++ (v.chars ++ (w5 ++ ';' ::
              (w6 ++ (x ++ (w7 ++ ';' :: rest)))))))))))) buf vars out) =
      .ok false
        (Calc.reading
          (w2 ++ (x ++ (w3 ++ '=' :: (w4 ++ (v.chars ++ (w5 ++ ';' ::
            (w6 ++ (x ++ (w7 ++ ';' :: rest))))))))) buf (vars ++ [⟨x, 0⟩])
          (out ++ [.promptText, .created x 0])) ∧
    calculate_iter pow (n + 3)
        (Calc.reading
          (w2 ++ (x ++ (w3 ++ '=' :: (w4 ++ (v.chars ++ (w5 ++ ';' ::
            (w6 ++ (x ++ (w7 ++ ';' :: rest))))))))) buf (vars ++ [⟨x, 0⟩])
          (out ++ [.promptText, .created x 0])) =
      .ok false
        (Calc.holding (w6 ++ (x ++ (w7 ++ ';' :: rest))) (token.ofKind ';')
          (vars ++ [⟨x, v.dvalue⟩])
          (out ++ [.promptText, .created x 0] ++ [.promptText, .updated x 0 v.dvalue])) ∧
    calculate_iter pow (n + 3)
        (Calc.holding (w6 ++ (x ++ (w7 ++ ';' :: rest))) (token.ofKind ';')
          (vars ++ [⟨x, v.dvalue⟩])
          (out ++ [.promptText, .created x 0] ++ [.promptText, .updated x 0 v.dvalue])) =
      .ok false
        (Calc.holding rest (token.ofKind ';') (vars ++ [⟨x, v.dvalue⟩])
          (out ++ [.promptText, .created x 0] ++ [.promptText, .updated x 0 v.dvalue] ++
            [.promptText, .resultMark, .result v.dvalue])) :=
  ⟨calculate_iter_declare pow (n + 2) w0 w1 x _ buf vars out h0 h1 hx hc hs hu,
    calculate_iter_assign_last pow n w2 w3 w4 w5 x _ v 0 buf vars _ h2 h3 h4 h5 hv hx hc hs hu,
    calculate_iter_read_holding pow n w6 w7 x rest _ _ v.dvalue h6 h7 hx hc hs
      (get_usrvar_append_new vars x v.dvalue hu)⟩

/-- C6 (amended) at a concrete input: on `x; x = 5; x;` from the empty store the three
iterations create `x = 0`, update it to 5 and print 5. -/
theorem C6_declare_assign_read_witness :
    calculate_iter natPow 3 (Calc.reading "x; x = 5; x;".toList (token.ofKind empt) [] []) =
        .ok false (Calc.reading " x = 5; x;".toList (token.ofKind empt) [⟨['x'], 0⟩]
          [.promptText, .created ['x'] 0]) ∧
      calculate_iter natPow 3 (Calc.reading " x = 5; x;".toList (token.ofKind empt)
          [⟨['x'], 0⟩] [.promptText, .created ['x'] 0]) =
        .ok false (Calc.holding " x;".toList (token.ofKind ';') [⟨['x'], lit5.dvalue⟩]
          [.promptText, .created ['x'] 0, .promptText, .updated ['x'] 0 lit5.dvalue]) ∧
      calculate_iter natPow 3 (Calc.holding " x;".toList (token.ofKind ';')
          [⟨['x'], lit5.dvalue⟩]
          [.promptText, .created ['x'] 0, .promptText, .updated ['x'] 0 lit5.dvalue]) =
        .ok false (Calc.holding [] (token.ofKind ';') [⟨['x'], lit5.dvalue⟩]
          [.promptText, .created ['x'] 0, .promptText, .updated ['x'] 0 lit5.dvalue,
            .promptText, .resultMark, .result lit5.dvalue]) ∧
      lit5.dvalue = 5 :=
  ⟨(C6_declare_assign_read natPow 0 ['x'] lit5 [] [] [' '] [' '] [' '] [] [' '] [] []
      (token.ofKind empt) [] [] (by decide) (by decide) (by decide) (by decide) lit5_valid
      rfl rfl rfl rfl rfl rfl rfl rfl).1,
    (C6_declare_assign_read natPow 0 ['x'] lit5 [] [] [' '] [' '] [' '] [] [' '] [] []
      (token.ofKind empt) [] [] (by decide) (by decide) (by decide) (by decide) lit5_valid
      rfl rfl rfl rfl rfl rfl rfl rfl).2.1,
    (C6_declare_assign_read natPow 0 ['x'] lit5 [] [] [' '] [' '] [' '] [] [' '] [] []
      (token.ofKind empt) [] [] (by decide) (by decide) (by decide) (by decide) lit5_valid
      rfl rfl rfl rfl rfl rfl rfl rfl).2.2,
    by decide!⟩

/-! ### The negated power as a statement -/

/-- The token `-` in the buffer, followed on the input by a literal and `^`:
`primary` negates the literal and raises the negated value to the primary
that follows. -/
theorem primary_neg_lit_pow_holding (pow : ℚ → ℚ → ℚ) (n : Nat) (w1 w2 : List Char)
    (a : NumLit) (L : List Char) (vars : List UserVar) (out : List Output)
    (hw1 : blank w1 = true) (hw2 : blank w2 = true) (ha : a.valid = true) :
    primary pow (n + 1)
        (Calc.holding (w1 ++ (a.chars ++ (w2 ++ '^' :: L))) (token.ofKind '-') vars out) =
      (primary pow n (Calc.reading L (token.ofKind '-') vars out)).bind
        fun rpower s => .ok (pow (-a.dvalue) rpower) s := by
  obtain ⟨z, r1, hz, hzs⟩ := blank_cons_stops w2 '^' L hw2 (by decide)
  have hd := extractDouble_lit a z r1 ha hzs
  rw [← hz] at hd
  obtain ⟨d, tl, hc, hdig⟩ := a.chars_cons (a.valid_wf ha)
  have hdd : (d.isDigit || decide (d = '.')) = true := by
    rcases hdig with h | h <;> simp [h]
  have hne : d ≠ '(' := by
    rintro rfl; revert hdig; decide
  have he := extract_blank w1 d (tl ++ (w2 ++ '^' :: L)) hw1 (digit_not_space d hdig)
  have he2 := extract_blank w2 '^' L hw2 (by decide)
  rw [hc] at hd
  simp only [List.cons_append] at hd
  rw [primary, get_holding]
  simp [Res.bind, token.ofKind, Calc.reading, hc, he, hne, hdd, istream.putback, hd, he2]

/-- C2, counterexample: the literal `1e400` is beyond the largest `double`.
In `-1e400^2;` reading it stores `DBL_MAX` and sets `failbit`, so the `^`
after it is not read: `primary` returns the negated `DBL_MAX` without a
power, and the iteration returns no value, the character read for the next
token being indeterminate. -/
theorem C2_counterexample_overflow :
    primary natPow 8 (Calc.start "-1e400^2;".toList []) =
        .ok (-DBL_MAX) ⟨⟨"^2;".toList, false, true⟩, ⟨false, token.ofKind empt⟩, [], []⟩ ∧
      calculate_iter natPow 8 (Calc.start "-1e400^2;".toList []) = .abort .indeterminate := by
  constructor <;> decide!

/-- C2, as amended: for all unsigned number literals `a`, `b` that do not
exceed the largest `double` (white space allowed between the tokens), and
with the values they are read as, `expression` on `-a^b;` returns
`pow (-a) b`: the minus is applied to the literal before the power; the
session loop prints that value for the statement; in particular, when `pow`
is exact at natural exponents, `-3^2;` evaluates to 9. -/
theorem C2_unary_minus_before_power (pow : ℚ → ℚ → ℚ) (n : Nat) (a b : NumLit)
    (w0 w1 w2 w3 w4 rest : List Char) (buf : token) (vars : List UserVar)
    (out : List Output)
    (ha : a.valid = true) (hb : b.valid = true)
    (h0 : blank w0 = true) (h1 : blank w1 = true) (h2 : blank w2 = true)
    (h3 : blank w3 = true) (h4 : blank w4 = true) :
    expression pow (n + 4)
        (Calc.reading
          (w0 ++ '-' :: (w1 ++ (a.chars ++ (w2 ++ '^' :: (w3 ++ (b.chars ++
            (w4 ++ ';' :: rest))))))) buf vars out) =
      .ok (pow (-a.dvalue) b.dvalue) (Calc.holding rest (token.ofKind ';') vars out) ∧
    calculate_iter pow (n + 4)
        (Calc.reading
          (w0 ++ '-' :: (w1 ++ (a.chars ++ (w2 ++ '^' :: (w3 ++ (b.chars ++
            (w4 ++ ';' :: rest))))))) buf vars out) =
      .ok false (Calc.holding rest (token.ofKind ';') vars
        (out ++ [.promptText, .resultMark, .result (pow (-a.dvalue) b.dvalue)])) ∧
    ((∀ (x : ℚ) (k : ℕ), pow x k = x ^ k) →
      expression pow (n + 4) (Calc.reading ('-' :: '3' :: '^' :: '2' :: ';' :: rest)
          buf vars out) =
        .ok 9 (Calc.holding rest (token.ofKind ';') vars out)) := by
  have key : ∀ (a b : NumLit) (w0 w1 w2 w3 w4 : List Char),
      a.valid = true → b.valid = true → blank w0 = true → blank w1 = true →
      blank w2 = true → blank w3 = true → blank w4 = true →
      expression pow (n + 4)
        (Calc.reading
          (w0 ++ '-' :: (w1 ++ (a.chars ++ (w2 ++ '^' :: (w3 ++ (b.chars ++
            (w4 ++ ';' :: rest))))))) buf vars out) =
      .ok (pow (-a.dvalue) b.dvalue) (Calc.holding rest (token.ofKind ';') vars out) := by
    intro a b w0 w1 w2 w3 w4 ha hb h0 h1 h2 h3 h4
    have p2 := primary_lit_stop pow n w3 w4 b ';' rest buf vars out h3 h4 hb
      (by decide) (by decide)
    have p1 := primary_neg_lit_pow pow (n + 1) w0 w1 w2 a
      (w3 ++ (b.chars ++ (w4 ++ ';' :: rest))) buf vars out h0 h1 h2 ha
    rw [p2] at p1
    simp only [Res.bind] at p1
    simp only [expression, term, p1, Res.bind]
    rw [termLoop_stop pow _ _ _ _ _ _ (by decide) (by decide) (by decide) (by decide)]
    simp only []
    rw [exprLoop_stop pow _ _ _ _ _ _ (by decide) (by decide)]
  refine ⟨key a b w0 w1 w2 w3 w4 ha hb h0 h1 h2 h3 h4, ?_, fun hpow => ?_⟩
  · have hg := get_op w0 '-' (w1 ++ (a.chars ++ (w2 ++ '^' :: (w3 ++ (b.chars ++
      (w4 ++ ';' :: rest)))))) buf vars (out ++ [.promptText]) h0 (by decide)
    have p2 := primary_lit_stop pow n w3 w4 b ';' rest (token.ofKind '-') vars
      (out ++ [.promptText] ++ [.resultMark]) h3 h4 hb (by decide) (by decide)
    have p1 := primary_neg_lit_pow_holding pow (n + 1) w1 w2 a
      (w3 ++ (b.chars ++ (w4 ++ ';' :: rest))) vars (out ++ [.promptText] ++ [.resultMark])
      h1 h2 ha
    rw [p2] at p1
    simp only [Res.bind] at p1
    rw [calculate_iter, calculate_try_reading pow (n + 3) _ buf _ vars out _ hg (by decide),
      calculate_switch_minus]
    simp only [expression, term, p1, Res.bind]
    rw [termLoop_stop pow _ _ _ _ _ _ (by decide) (by decide) (by decide) (by decide)]
    simp only []
    rw [exprLoop_stop pow _ _ _ _ _ _ (by decide) (by decide)]
    simp [Calc.put, Calc.holding]
  · have h := key lit3 lit2 [] [] [] [] [] lit3_valid lit2_valid rfl rfl rfl rfl rfl
    have v2 : lit2.dvalue = 2 := by decide!
    have v3 : lit3.dvalue = 3 := by decide!
    rw [v2, v3] at h
    have e1 : pow (-3) 2 = 9 := by have := hpow (-3) 2; norm_num at this; exact this
    rw [e1] at h
    exact h

/-- C2 (amended) at a concrete input: `-3^2;` evaluates to 9, and the session loop
prints 9 for it. -/
theorem C2_unary_minus_before_power_witness :
    expression natPow 4 (Calc.reading ['-', '3', '^', '2', ';'] (token.ofKind empt) [] []) =
        .ok 9 (Calc.holding [] (token.ofKind ';') [] []) ∧
      calculate_iter natPow 4
          (Calc.reading ['-', '3', '^', '2', ';'] (token.ofKind empt) [] []) =
        .ok false (Calc.holding [] (token.ofKind ';') [] [.promptText, .resultMark, .result 9]) :=
  ⟨(C2_unary_minus_before_power natPow 0 lit3 lit2 [] [] [] [] [] []
      (token.ofKind empt) [] [] lit3_valid lit2_valid rfl rfl rfl rfl rfl).2.2 natPow_exact,
    by decide!⟩

/-! ### The power chain as a statement -/

/-- A number token in the buffer followed on the input by `^`: `primary`
skips white space, evaluates the primary that follows and raises the token's
value to it. -/
theorem primary_number_pow_holding (pow : ℚ → ℚ → ℚ) (n : Nat) (w1 w2 : List Char) (v : ℚ)
    (L : List Char) (vars : List UserVar) (out : List Output)
    (hw1 : blank w1 = true) (hw2 : blank w2 = true)
    (hL : ∃ y r, L = y :: r ∧ isspace y = false) :
    primary pow (n + 1)
        (Calc.holding (w1 ++ '^' :: (w2 ++ L)) (token.ofValue v) vars out) =
      (primary pow n (Calc.reading L (token.ofValue v) vars out)).bind
        fun rpower s => .ok (pow v rpower) s := by
  obtain ⟨y, r, rfl, hy⟩ := hL
  have hws := ws_blank w2 y r hw2 hy
  simp [primary, get_holding, Res.bind, token.ofValue, number,
    get_op w1 '^' (w2 ++ y :: r) _ vars out hw1 (by decide), token.ofKind]
  simp [Calc.reading, hws]

/-- C1, counterexample: the literal `1e400` is beyond the largest `double`.
Reading it stores `DBL_MAX` and sets `failbit`, so the token after it cannot
be read: `get` gives the number token of `DBL_MAX`, and `expression` on
`1e400^1^1;` returns no value, the character read for the next token being
indeterminate. -/
theorem C1_counterexample_overflow :
    token_stream.get (Calc.start "1e400^1^1;".toList []) =
        .ok (token.ofValue DBL_MAX)
          ⟨⟨"^1^1;".toList, false, true⟩, ⟨false, token.ofKind empt⟩, [], []⟩ ∧
      expression natPow 8 (Calc.start "1e400^1^1;".toList []) = .abort .indeterminate := by
  constructor <;> decide!

/-- C1, as amended: for all number literals `a`, `b`, `c` that do not exceed
the largest `double` (white space allowed between the tokens), and with the
values they are read as, `expression` on `a^b^c;` returns `pow a (pow b c)`,
the power being applied right to left, and leaves the `;` in the buffer; the
session loop prints that value for the statement; in particular, when `pow`
is exact at natural exponents, `2^3^2;` evaluates to 512. -/
theorem C1_power_right_associative (pow : ℚ → ℚ → ℚ) (n : Nat) (a b c : NumLit)
    (w0 w1 w2 w3 w4 w5 rest : List Char) (buf : token) (vars : List UserVar)
    (out : List Output)
    (ha : a.valid = true) (hb : b.valid = true) (hc : c.valid = true)
    (h0 : blank w0 = true) (h1 : blank w1 = true) (h2 : blank w2 = true)
    (h3 : blank w3 = true) (h4 : blank w4 = true) (h5 : blank w5 = true) :
    expression pow (n + 5)
        (Calc.reading
          (w0 ++ (a.chars ++ (w1 ++ '^' :: (w2 ++ (b.chars ++ (w3 ++ '^' :: (w4 ++
            (c.chars ++ (w5 ++ ';' :: rest))))))))) buf vars out) =
      .ok (pow a.dvalue (pow b.dvalue c.dvalue))
        (Calc.holding rest (token.ofKind ';') vars out) ∧
    calculate_iter pow (n + 5)
        (Calc.reading
          (w0 ++ (a.chars ++ (w1 ++ '^' :: (w2 ++ (b.chars ++ (w3 ++ '^' :: (w4 ++
            (c.chars ++ (w5 ++ ';' :: rest))))))))) buf vars out) =
      .ok false (Calc.holding rest (token.ofKind ';') vars
        (out ++ [.promptText, .resultMark, .result (pow a.dvalue (pow b.dvalue c.dvalue))])) ∧
    ((∀ (x : ℚ) (k : ℕ), pow x k = x ^ k) →
      expression pow (n + 5) (Calc.reading ('2' :: '^' :: '3' :: '^' :: '2' :: ';' :: rest)
          buf vars out) =
        .ok 512 (Calc.holding rest (token.ofKind ';') vars out)) := by
  have key : ∀ (a b c : NumLit) (w0 w1 w2 w3 w4 w5 : List Char),
      a.valid = true → b.valid = true → c.valid = true → blank w0 = true → blank w1 = true →
      blank w2 = true → blank w3 = true → blank w4 = true → blank w5 = true →
      expression pow (n + 5)
        (Calc.reading
          (w0 ++ (a.chars ++ (w1 ++ '^' :: (w2 ++ (b.chars ++ (w3 ++ '^' :: (w4 ++
            (c.chars ++ (w5 ++ ';' :: rest))))))))) buf vars out) =
      .ok (pow a.dvalue (pow b.dvalue c.dvalue))
        (Calc.holding rest (token.ofKind ';') vars out) := by
    intro a b c w0 w1 w2 w3 w4 w5 ha hb hc h0 h1 h2 h3 h4 h5
    have p3 := primary_lit_stop pow n [] w5 c ';' rest buf vars out rfl h5 hc
      (by decide) (by decide)
    have p2 := primary_lit_pow pow (n + 1) [] w3 w4 b (c.chars ++ (w5 ++ ';' :: rest))
      buf vars out rfl h3 h4 hb (c.starts _ hc)
    have p1 := primary_lit_pow pow (n + 2) w0 w1 w2 a
      (b.chars ++ (w3 ++ '^' :: (w4 ++ (c.chars ++ (w5 ++ ';' :: rest)))))
      buf vars out h0 h1 h2 ha (b.starts _ hb)
    simp only [List.nil_append] at p3 p2
    rw [p3] at p2
    rw [p2] at p1
    simp only [Res.bind] at p1
    simp only [expression, term, p1, Res.bind]
    rw [termLoop_stop pow _ _ _ _ _ _ (by decide) (by decide) (by decide) (by decide)]
    simp only []
    rw [exprLoop_stop pow _ _ _ _ _ _ (by decide) (by decide)]
  refine ⟨key a b c w0 w1 w2 w3 w4 w5 ha hb hc h0 h1 h2 h3 h4 h5, ?_, fun hpow => ?_⟩
  · obtain ⟨y, r1, hy, hys⟩ := blank_cons_stops w1 '^'
      (w2 ++ (b.chars ++ (w3 ++ '^' :: (w4 ++ (c.chars ++ (w5 ++ ';' :: rest)))))) h1
      (by decide)
    have ht := calculate_try_lit pow (n + 4) w0 a y r1 buf vars out h0 ha hys
    rw [← hy] at ht
    have p3 := primary_lit_stop pow n [] w5 c ';' rest (token.ofValue a.dvalue) vars
      (out ++ [.promptText, .resultMark]) rfl h5 hc (by decide) (by decide)
    have p2 := primary_lit_pow pow (n + 1) [] w3 w4 b (c.chars ++ (w5 ++ ';' :: rest))
      (token.ofValue a.dvalue) vars (out ++ [.promptText, .resultMark]) rfl h3 h4 hb
      (c.starts _ hc)
    have p1 := primary_number_pow_holding pow (n + 2) w1 w2 a.dvalue
      (b.chars ++ (w3 ++ '^' :: (w4 ++ (c.chars ++ (w5 ++ ';' :: rest)))))
      vars (out ++ [.promptText, .resultMark]) h1 h2 (b.starts _ hb)
    simp only [List.nil_append] at p3 p2
    rw [p3] at p2
    rw [p2] at p1
    simp only [Res.bind] at p1
    rw [calculate_iter, ht]
    simp only [expression, term, p1, Res.bind]
    rw [termLoop_stop pow _ _ _ _ _ _ (by decide) (by decide) (by decide) (by decide)]
    simp only []
    rw [exprLoop_stop pow _ _ _ _ _ _ (by decide) (by decide)]
    simp [Calc.put, Calc.holding]
  · have h := key lit2 lit3 lit2 [] [] [] [] [] [] lit2_valid lit3_valid lit2_valid rfl rfl rfl rfl rfl rfl
    have v2 : lit2.dvalue = 2 := by decide!
    have v3 : lit3.dvalue = 3 := by decide!
    rw [v2, v3] at h
    have e1 : pow 3 2 = 9 := by have := hpow 3 2; norm_num at this; exact this
    have e2 : pow 2 9 = 512 := by have := hpow 2 9; norm_num at this; exact this
    rw [e1, e2] at h
    exact h

/-- C1 (amended) at a concrete input: `2^3^2;` evaluates to 512 = 2^(3^2), which is not
(2^3)^2 = 64, and the session loop prints 512 for it. -/
theorem C1_power_right_associative_witness :
    expression natPow 5 (Calc.reading ['2', '^', '3', '^', '2', ';'] (token.ofKind empt) [] []) =
        .ok 512 (Calc.holding [] (token.ofKind ';') [] []) ∧
      natPow (natPow 2 3) 2 = 64 ∧
      calculate_iter natPow 5
          (Calc.reading ['2', '^', '3', '^', '2', ';'] (token.ofKind empt) [] []) =
        .ok false (Calc.holding [] (token.ofKind ';') [] [.promptText, .resultMark, .result 512]) :=
  ⟨(C1_power_right_associative natPow 0 lit2 lit3 lit2 [] [] [] [] [] [] []
      (token.ofKind empt) [] [] lit2_valid lit3_valid lit2_valid rfl rfl rfl rfl rfl rfl).2.2
      natPow_exact,
    by decide!, by decide!⟩

/-! ### The pushback buffer -/

/-- C14: for every token `t`, `putback(t)` on an empty buffer followed by
`get()` returns `t`; the input stream is untouched and the buffer is empty
again (it still stores `t`, as in the C++ object). -/
theorem C14_putback_then_get (t : token) (s : Calc) (h : s.ts.full = false) :
    (token_stream.putback t s).bind (fun _ s1 => token_stream.get s1) =
      .ok t { s with ts := { full := false, buffer := t } } := by
  simp [token_stream.putback, token_stream.get, Res.bind, h]

/-- C14 at a concrete input: the token `+` put back before the unread input
`1;` is what `get` returns, and `1;` is still unread. -/
theorem C14_putback_then_get_witness :
    (token_stream.putback (token.ofKind '+') (Calc.start ['1', ';'] [])).bind
        (fun _ s1 => token_stream.get s1) =
      .ok (token.ofKind '+') (Calc.reading ['1', ';'] (token.ofKind '+') [] []) :=
  C14_putback_then_get (token.ofKind '+') (Calc.start ['1', ';'] []) rfl

/-- C15 (the code at the failing input): `std::cin >> ch` skips the newline,
so on the input `1`, newline, `+2;` the lexer never sees an end of line: the
first statement evaluated is `1+2`, with value 3; and a newline in front of
`1;` gives the number token, not a print token. -/
theorem C15_newline_is_skipped :
    calculate_iter natPow 6 (Calc.start ['1', '\n', '+', '2', ';'] []) =
        .ok false (Calc.holding [] (token.ofKind ';') []
          [.promptText, .resultMark, .result 3]) ∧
      token_stream.get (Calc.start ['\n', '1', ';'] []) =
        .ok (token.ofValue 1) (Calc.start [';'] []) := by
  constructor <;> decide!

/-! ### Unknown identifiers -/

/-- An unknown name followed by a character `y` that is not alphabetic: `get`
looks at the first character that is not white space from `y` on.  When only
white space is left, or that character is `;` or NUL, the token declares `x`
with zero and the character is read; when it is `=`, the token assigns to `x`
and the `=` is read; any other character stays unread and `get` throws
"Tried to use an undeclared variable!". -/
theorem get_unknown_name (w0 x : List Char) (y : Char) (r : List Char) (buf : token)
    (vars : List UserVar) (out : List Output)
    (hw0 : blank w0 = true) (hx : isName x = true) (hc : is_command (lowcase x) = false)
    (hs : is_sysvar (lowcase x) = false) (hu : is_usrvar vars x = false)
    (hy : y.isAlpha = false) :
    token_stream.get (Calc.reading (w0 ++ (x ++ y :: r)) buf vars out) =
      match (y :: r).dropWhile isspace with
      | [] =>
        .ok (token.ofKindValueName setvar 0 x) ⟨⟨[], true, true⟩, ⟨false, buf⟩, vars, out⟩
      | c :: r1 =>
        if c = Char.ofNat 0 ∨ c = ';' then
          .ok (token.ofKindValueName setvar 0 x) (Calc.reading r1 buf vars out)
        else if c = '=' then
          .ok (token.ofKindValueName setvar 1 x) (Calc.reading r1 buf vars out)
        else .throw .undeclaredVariable (Calc.reading (c :: r1) buf vars out) := by
  rw [get_name w0 x y r buf vars out hw0 hx hy]
  simp only [token_stream.get_word, hc, hs, hu, Calc.reading, istream.extract]
  cases hd : (y :: r).dropWhile isspace with
  | nil => simp
  | cons c r1 =>
    by_cases h1 : c = Char.ofNat 0 ∨ c = ';'
    · simp [h1]
    · by_cases h2 : c = '='
      · simp [h1, h2]
      · simp [h1, h2, istream.putback]

/-- C16, where the code departs from the claim.  When the unknown name `y`
ends the input, with no character after it, `get` does not return the token
that declares `y`: the loop `while (isalpha(ch))` never exits, because
`std::cin.get(ch)` fails and leaves the last letter in `ch`; the name grows
until the allocation fails, and `main` ends with status 2.  (After a blank
the end of the input does give the declaring token.)  When the character
after `y` is NUL, which is neither `;` nor the end of the input, `get` takes
it for the value `ch = 0` that stands for "nothing read" and returns the
declaring token, the NUL read. -/
theorem C16_name_at_end_of_input :
    token_stream.get (Calc.start ['y'] []) = .abort .bad_alloc ∧
      main natPow 8 (Calc.start ['y'] []) = some 2 ∧
      token_stream.get (Calc.start ['y', ' '] []) =
        .ok (token.ofKindValueName setvar 0 ['y'])
          ⟨⟨[], true, true⟩, ⟨false, token.ofKind empt⟩, [], []⟩ ∧
      token_stream.get (Calc.start ['y', Char.ofNat 0, '1', ';'] []) =
        .ok (token.ofKindValueName setvar 0 ['y']) (Calc.start ['1', ';'] []) := by
  refine ⟨?_, ?_, ?_, ?_⟩ <;> decide!

/-! ### What every run of the lexer and the evaluator keeps -/

theorem All_bind {α β : Type} {Pa : α → Calc → Prop} {Pb : β → Calc → Prop}
    {Pth : Err → Calc → Prop} (r : Res α) (f : α → Calc → Res β)
    (hr : r.All Pa Pth) (hf : ∀ a s, Pa a s → (f a s).All Pb Pth) :
    (r.bind f).All Pb Pth := by
  cases r with
  | ok a s => exact hf a s hr
  | throw e s => exact hr
  | abort a => trivial

theorem All_mono {α : Type} {Pa Pa1 : α → Calc → Prop} {Pth Pth1 : Err → Calc → Prop}
    (r : Res α) (hr : r.All Pa Pth) (h1 : ∀ a s, Pa a s → Pa1 a s)
    (h2 : ∀ e s, Pth e s → Pth1 e s) : r.All Pa1 Pth1 := by
  cases r with
  | ok a s => exact h1 a s hr
  | throw e s => exact h2 e s hr
  | abort a => trivial

theorem alphaLoop_result (cs : List Char) :
    ∀ (acc : List Char) (ch : Char) (nm : List Char) (c1 : Char) (r : List Char),
      alphaLoop acc ch cs = some (nm, c1, r) →
      ∃ m, nm = acc ++ m ∧ m.all Char.isAlpha = true ∧ (ch.isAlpha = true → m ≠ []) := by
  induction cs with
  | nil =>
    intro acc ch nm c1 r h
    by_cases hc : ch.isAlpha = true
    · simp [alphaLoop, hc] at h
    · simp [alphaLoop, hc] at h
      exact ⟨[], by simp [h.1], rfl, fun h' => absurd h' hc⟩
  | cons d ds ih =>
    intro acc ch nm c1 r h
    by_cases hc : ch.isAlpha = true
    · simp only [alphaLoop, hc, if_true] at h
      obtain ⟨m, hm, hma, _⟩ := ih (acc ++ [ch]) d nm c1 r h
      exact ⟨ch :: m, by simp [hm], by simp [hc, hma], fun _ => by simp⟩
    · simp [alphaLoop, hc] at h
      exact ⟨[], by simp [h.1], rfl, fun h' => absurd h' hc⟩

theorem alphaRun_isName (cin : istream) (ch : Char) (nm : List Char) (c1 : Char)
    (cin2 : istream) (hc : ch.isAlpha = true)
    (h : cin.alphaRun [] ch = some (nm, c1, cin2)) : isName nm = true := by
  simp only [istream.alphaRun, hc, if_true] at h
  split at h
  · simp at h
  · simp only [Option.map_eq_some'] at h
    obtain ⟨⟨n1, c2, r⟩, hl, heq⟩ := h
    obtain ⟨m, hm, hma, hne⟩ := alphaLoop_result _ _ _ _ _ _ hl
    simp only [Prod.mk.injEq] at heq
    obtain ⟨rfl, _, _⟩ := heq
    simp only [List.nil_append] at hm
    subst hm
    have := hne hc
    simp [isName, hma, this]

theorem get_word_all (G : List Char → Prop) (V : List UserVar)
    (hG : ∀ x, goodName x = true → G x) (x : List Char) (ch : Char) (s : Calc)
    (hx : isName x = true) (hs : Stable G V s) (hf : s.ts.full = false) :
    (token_stream.get_word x ch s).All
      (fun t s1 => TokOK G t ∧ s1.ts.full = false ∧ Stable G V s1)
      (fun e s1 => e ≠ .putbackFull ∧ Stable G V s1) := by
  obtain ⟨hv, hb⟩ := hs
  unfold token_stream.get_word
  by_cases hc : is_command (lowcase x) = true
  · simp only [hc, if_true]
    split_ifs
    · simp [Res.All, TokOK, Stable, token.ofKind, quit, setvar, hf, hv]; exact hb
    · simp [Res.All, TokOK, Stable, token.ofKind, help, setvar, hf, hv]; exact hb
    · split
      · trivial
      · split_ifs
        · simp [Res.All, TokOK, Stable, token.ofKindValue, disp, setvar, hf, hv]; exact hb
        · simp [Res.All, Stable, hv]; exact hb
    · split
      · trivial
      · split_ifs
        · simp [Res.All, TokOK, Stable, token.ofKindValue, del, setvar, hf, hv]; exact hb
        · simp [Res.All, TokOK, Stable, token.ofKindValueName, del, setvar, hf, hv]; exact hb
        · simp [Res.All, Stable, hv]; exact hb
    · simp [Res.All, Stable, hv]; exact hb
  · have hc1 : is_command (lowcase x) = false := by simpa using hc
    simp only [hc1, Bool.false_eq_true, if_false]
    by_cases hsv : is_sysvar (lowcase x) = true
    · simp only [hsv, if_true]
      split
      · simp [Res.All, TokOK, Stable, token.ofValue, number, setvar, hf, hv]; exact hb
      · simp [Res.All, Stable, hv]; exact hb
    · have hs1 : is_sysvar (lowcase x) = false := by simpa using hsv
      have hg : G x := hG x (by simp [goodName, hx, hc1, hs1])
      simp only [hs1, Bool.false_eq_true, if_false]
      split_ifs
      · simp [Res.All, TokOK, Stable, token.ofKindValueName, hf, hv, hg]; exact hb
      · split
        · simp [Res.All, TokOK, Stable, token.ofValue, number, setvar, hf, hv]; exact hb
        · simp [Res.All, Stable, hv]; exact hb
      · simp [Res.All, TokOK, Stable, token.ofKindValueName, hf, hv, hg]; exact hb
      · simp [Res.All, TokOK, Stable, token.ofKindValueName, hf, hv, hg]; exact hb
      · simp [Res.All, Stable, hv]; exact hb

theorem get_all (G : List Char → Prop) (V : List UserVar)
    (hG : ∀ x, goodName x = true → G x) (s : Calc) (hs : Stable G V s) :
    (token_stream.get s).All
      (fun t s1 => TokOK G t ∧ s1.ts.full = false ∧ Stable G V s1)
      (fun e s1 => e ≠ .putbackFull ∧ Stable G V s1) := by
  unfold token_stream.get
  by_cases hf : s.ts.full = true
  · simp only [hf, if_true]
    exact ⟨hs.2, rfl, hs.1, hs.2⟩
  · have hf1 : s.ts.full = false := by simpa using hf
    simp only [hf1, Bool.false_eq_true, if_false]
    split
    · trivial
    · rename_i ch cin1 _
      split_ifs with h1 h2 h3 h4
      · simp [Res.All, TokOK, Stable, token.ofKind, hf1, hs.1]
        refine ⟨?_, hs.2⟩
        intro hk
        rw [hk] at h1
        exact absurd h1 (by decide)
      · simp [Res.All, TokOK, Stable, token.ofKind, print, setvar, hf1, hs.1]; exact hs.2
      · split
        · trivial
        · simp [Res.All, TokOK, Stable, token.ofValue, number, setvar, hf1, hs.1]; exact hs.2
      · split
        · trivial
        · rename_i nm c1 cin2 hrun
          exact get_word_all G V hG nm c1 _ (alphaRun_isName cin1 ch nm c1 cin2 h4 hrun)
            ⟨hs.1, hs.2⟩ hf1
      · simp [Res.All, Stable, hs.1]; exact hs.2

theorem Stable_of_eq {G : List Char → Prop} {V : List UserVar} {s s1 : Calc} (hs : Stable G V s)
    (hv : s1.vecUserVars = s.vecUserVars) (hb : s1.ts.buffer = s.ts.buffer) : Stable G V s1 := by
  unfold Stable at *
  rw [hv, hb]
  exact hs

theorem Keeps_ok {α : Type} (G : List Char → Prop) (V : List UserVar) (a : α) (s : Calc) (hs : Stable G V s) :
    (Res.ok a s).Keeps G V := hs

theorem Keeps_throw {α : Type} (G : List Char → Prop) (V : List UserVar) (e : Err) (s : Calc)
    (he : e ≠ .putbackFull) (hs : Stable G V s) : (Res.throw e s : Res α).Keeps G V := ⟨he, hs⟩

theorem Keeps_abort {α : Type} (G : List Char → Prop) (V : List UserVar) (a : Abort) :
    (Res.abort a : Res α).Keeps G V := trivial

theorem Keeps_bind {α β : Type} (G : List Char → Prop) (V : List UserVar) (r : Res α) (f : α → Calc → Res β)
    (hr : r.Keeps G V) (hf : ∀ a s1, Stable G V s1 → (f a s1).Keeps G V) : (r.bind f).Keeps G V :=
  All_bind r f hr hf

theorem Keeps_bind_get {β : Type} (G : List Char → Prop) (V : List UserVar)
    (hG : ∀ x, goodName x = true → G x) (s : Calc) (f : token → Calc → Res β)
    (hs : Stable G V s)
    (hf : ∀ t s1, TokOK G t → s1.ts.full = false → Stable G V s1 → (f t s1).Keeps G V) :
    ((token_stream.get s).bind f).Keeps G V :=
  All_bind _ f (get_all G V hG s hs) fun t s1 h => hf t s1 h.1 h.2.1 h.2.2

theorem Keeps_bind_putback {β : Type} (G : List Char → Prop) (V : List UserVar) (t : token) (s : Calc)
    (f : Unit → Calc → Res β) (ht : TokOK G t) (hf : s.ts.full = false) (hs : Stable G V s)
    (hF : ∀ u s1, Stable G V s1 → (f u s1).Keeps G V) :
    ((token_stream.putback t s).bind f).Keeps G V := by
  simp only [token_stream.putback, hf, Bool.false_eq_true, if_false, Res.bind]
  exact hF () _ ⟨hs.1, ht⟩

set_option maxHeartbeats 1600000 in
/-- Every run of the evaluator keeps the variables and a well-formed buffer,
and never ends in the error of `putback` into a full buffer. -/
theorem evaluator_keeps (pow : ℚ → ℚ → ℚ) (G : List Char → Prop) (V : List UserVar)
    (hG : ∀ x, goodName x = true → G x) : ∀ n : Nat,
    (∀ s, Stable G V s → (primary pow n s).Keeps G V) ∧
    (∀ left s, Stable G V s → (termLoop pow n left s).Keeps G V) ∧
    (∀ s, Stable G V s → (term pow n s).Keeps G V) ∧
    (∀ left s, Stable G V s → (exprLoop pow n left s).Keeps G V) ∧
    (∀ s, Stable G V s → (expression pow n s).Keeps G V) := by
  intro n
  induction n with
  | zero =>
    refine ⟨?_, ?_, ?_, ?_, ?_⟩ <;> intros <;>
      simp [primary, termLoop, term, exprLoop, expression, Res.Keeps, Res.All]
  | succ n ih =>
    obtain ⟨ihp, ihtl, iht, ihel, ihe⟩ := ih
    refine ⟨?_, ?_, ?_, ?_, ?_⟩
    · intro s hs
      rw [primary]
      refine Keeps_bind_get G V hG s _ hs ?_
      intro t s1 ht hf hs1
      have hS : ∀ c : istream, Stable G V { s1 with cin := c } :=
        fun c => Stable_of_eq hs1 rfl rfl
      have hO : ∀ o : List Output, Stable G V { s1 with cout := o } :=
        fun o => Stable_of_eq hs1 rfl rfl
      split_ifs with h1 h2 h3 h4
      · refine Keeps_bind G V _ _ (ihe s1 hs1) ?_
        intro d s2 hs2
        refine Keeps_bind_get G V hG s2 _ hs2 ?_
        intro t2 s3 _ _ hs3
        split_ifs
        · exact Keeps_throw G V _ _ (by decide) hs3
        · exact Keeps_ok G V _ _ hs3
      · split
        · exact Keeps_abort G V _
        · rename_i ch cin1 _
          split_ifs with g1 g2
          · refine Keeps_bind G V _ _ (ihe _ (hS cin1)) ?_
            intro d s2 hs2
            refine Keeps_bind_get G V hG s2 _ hs2 ?_
            intro t2 s3 _ _ hs3
            split_ifs
            · exact Keeps_throw G V _ _ (by decide) hs3
            · exact Keeps_ok G V _ _ hs3
          · split
            · exact Keeps_abort G V _
            · dsimp only
              split_ifs
              · refine Keeps_bind G V _ _ (ihp _ (hS _)) ?_
                intro rp s2 hs2
                exact Keeps_ok G V _ _ hs2
              · exact Keeps_ok G V _ _ (hS _)
          · split
            · exact Keeps_abort G V _
            · dsimp only
              split_ifs
              · exact Keeps_throw G V _ _ (by decide) (hS _)
              · split
                · exact Keeps_throw G V _ _ (by decide) (hS _)
                · refine Keeps_bind_get G V hG _ _ (hS _) ?_
                  intro n1 s3 hn1 hf3 hs3
                  split_ifs
                  · refine Keeps_bind G V _ _ (ihp _ hs3) ?_
                    intro rp s4 hs4
                    exact Keeps_ok G V _ _ hs4
                  · refine Keeps_bind_putback G V n1 s3 _ hn1 hf3 hs3 ?_
                    intro _ s4 hs4
                    exact Keeps_ok G V _ _ hs4
              · split
                · exact Keeps_throw G V _ _ (by decide) (hS _)
                · refine Keeps_bind_get G V hG _ _ (hS _) ?_
                  intro n1 s3 hn1 hf3 hs3
                  split_ifs
                  · refine Keeps_bind G V _ _ (ihp _ hs3) ?_
                    intro rp s4 hs4
                    exact Keeps_ok G V _ _ hs4
                  · refine Keeps_bind_putback G V n1 s3 _ hn1 hf3 hs3 ?_
                    intro _ s4 hs4
                    exact Keeps_ok G V _ _ hs4
              · exact Keeps_throw G V _ _ (by decide) (hS _)
          · exact Keeps_throw G V _ _ (by decide) (hS _)
      · refine Keeps_bind_get G V hG s1 _ hs1 ?_
        intro n1 s2 hn1 hf2 hs2
        split_ifs
        · have hS2 : Stable G V { s2 with cin := s2.cin.ws } := Stable_of_eq hs2 rfl rfl
          refine Keeps_bind G V _ _ (ihp _ hS2) ?_
          intro rp s3 hs3
          exact Keeps_ok G V _ _ hs3
        · refine Keeps_bind_putback G V n1 s2 _ hn1 hf2 hs2 ?_
          intro _ s3 hs3
          exact Keeps_ok G V _ _ hs3
      · exact Keeps_ok G V _ _ hs1
      · exact Keeps_throw G V _ _ (by decide) (hO _)
    · intro left s hs
      rw [termLoop]
      refine Keeps_bind_get G V hG s _ hs ?_
      intro t s1 ht hf hs1
      split_ifs with h1 h2 h3 h4 h5
      · refine Keeps_bind G V _ _ (ihp s1 hs1) ?_
        intro d s2 hs2
        exact ihtl _ s2 hs2
      · refine Keeps_bind G V _ _ (ihp s1 hs1) ?_
        intro d s2 hs2
        split_ifs
        · exact Keeps_throw G V _ _ (by decide) hs2
        · exact ihtl _ s2 hs2
      · refine Keeps_bind G V _ _ (ihp s1 hs1) ?_
        intro d s2 hs2
        split_ifs
        · exact Keeps_throw G V _ _ (by decide) hs2
        · exact ihtl _ s2 hs2
      · refine Keeps_bind G V _ _ (ihp s1 hs1) ?_
        intro d s2 hs2
        split_ifs
        · exact Keeps_throw G V _ _ (by decide) hs2
        · split
          · exact Keeps_abort G V _
          · exact ihtl _ s2 hs2
      · refine Keeps_bind G V _ _ (ihp s1 hs1) ?_
        intro d s2 hs2
        exact Keeps_ok G V _ _ hs2
      · refine Keeps_bind_putback G V t s1 _ ht hf hs1 ?_
        intro _ s2 hs2
        exact Keeps_ok G V _ _ hs2
    · intro s hs
      rw [term]
      refine Keeps_bind G V _ _ (ihp s hs) ?_
      intro left s1 hs1
      exact ihtl left s1 hs1
    · intro left s hs
      rw [exprLoop]
      refine Keeps_bind_get G V hG s _ hs ?_
      intro t s1 ht hf hs1
      split_ifs
      · refine Keeps_bind G V _ _ (iht s1 hs1) ?_
        intro d s2 hs2
        exact ihel _ s2 hs2
      · refine Keeps_bind G V _ _ (iht s1 hs1) ?_
        intro d s2 hs2
        exact ihel _ s2 hs2
      · refine Keeps_bind_putback G V t s1 _ ht hf hs1 ?_
        intro _ s2 hs2
        exact Keeps_ok G V _ _ hs2
    · intro s hs
      rw [expression]
      refine Keeps_bind G V _ _ (iht s hs) ?_
      intro left s1 hs1
      exact ihel left s1 hs1

/-! ### What every iteration of the session loop keeps -/

theorem StoreOK_nil : StoreOK [] := by
  simp [StoreOK]

theorem StoreOK_append (vars : List UserVar) (x : List Char) (v : ℚ) (h : StoreOK vars)
    (hx : goodName x = true) (hu : is_usrvar vars x = false) :
    StoreOK (vars ++ [⟨x, v⟩]) := by
  obtain ⟨h1, h2⟩ := h
  simp only [is_usrvar, List.any_eq_false, decide_eq_true_eq] at hu
  constructor
  · intro u hu1
    rcases List.mem_append.mp hu1 with h3 | h3
    · exact h1 u h3
    · simp only [List.mem_singleton] at h3
      subst h3
      exact hx
  · rw [List.map_append, List.nodup_append]
    refine ⟨h2, by simp, ?_⟩
    intro a ha hb
    simp only [List.map_cons, List.map_nil, List.mem_singleton] at hb
    obtain ⟨u, hu2, hu3⟩ := List.mem_map.mp ha
    exact hu u hu2 (hu3.trans hb)

theorem map_name_modify (vars : List UserVar) (v : ℚ) (i : Nat) :
    (vars.modify (fun u => { u with val := v }) i).map UserVar.name =
      vars.map UserVar.name := by
  induction vars generalizing i with
  | nil => cases i <;> rfl
  | cons a as ih =>
    cases i with
    | zero => rfl
    | succ j => simp [List.modify_succ_cons, ih]

theorem StoreOK_modify (vars : List UserVar) (v : ℚ) (i : Nat) (h : StoreOK vars) :
    StoreOK (vars.modify (fun u => { u with val := v }) i) := by
  obtain ⟨h1, h2⟩ := h
  constructor
  · intro u hu
    have hm : u.name ∈ (vars.modify (fun u => { u with val := v }) i).map UserVar.name :=
      List.mem_map_of_mem _ hu
    rw [map_name_modify] at hm
    obtain ⟨w, hw, hwn⟩ := List.mem_map.mp hm
    rw [← hwn]
    exact h1 w hw
  · rw [map_name_modify]
    exact h2

theorem StoreOK_eraseIdx (vars : List UserVar) (i : Nat) (h : StoreOK vars) :
    StoreOK (vars.eraseIdx i) := by
  obtain ⟨h1, h2⟩ := h
  constructor
  · intro u hu
    exact h1 u ((List.eraseIdx_sublist vars i).subset hu)
  · exact h2.sublist ((List.eraseIdx_sublist vars i).map UserVar.name)

theorem is_usrvar_of_selectVar_none (vars : List UserVar) (x : List Char)
    (h : selectVar vars x = none) : is_usrvar vars x = false := by
  simp only [selectVar] at h
  split_ifs at h with h1
  have h2 : vars.findIdx (fun u => decide (u.name = x)) = vars.length :=
    Nat.le_antisymm (List.findIdx_le_length _) (Nat.le_of_not_lt h1)
  rw [List.findIdx_eq_length] at h2
  simp only [is_usrvar, List.any_eq_false]
  intro u hu
  simpa using h2 u hu

theorem Inv_of_eq {s s1 : Calc} (hs : Inv s)
    (hv : s1.vecUserVars = s.vecUserVars) (hb : s1.ts.buffer = s.ts.buffer) : Inv s1 := by
  unfold Inv at *
  rw [hv, hb]
  exact hs

theorem Inv_start (cs : List Char) : Inv (Calc.start cs []) := by
  refine ⟨StoreOK_nil, ?_⟩
  intro h
  have h1 : empt = setvar := h
  exact absurd h1 (by decide)

theorem skipPrints_all (G : List Char → Prop) (V : List UserVar)
    (hG : ∀ x, goodName x = true → G x) : ∀ (n : Nat) (t : token) (s : Calc),
    TokOK G t → s.ts.full = false → Stable G V s →
    (skipPrints n t s).All (fun t1 s1 => TokOK G t1 ∧ s1.ts.full = false ∧ Stable G V s1)
      (fun e s1 => e ≠ .putbackFull ∧ Stable G V s1) := by
  intro n
  induction n with
  | zero => intro t s _ _ _; trivial
  | succ n ih =>
    intro t s ht hf hs
    rw [skipPrints]
    split_ifs
    · refine All_bind _ _ (get_all G V hG s hs) ?_
      intro t1 s1 h
      exact ih t1 s1 h.1 h.2.1 h.2.2
    · exact ⟨ht, hf, hs⟩

theorem Inv_of_stable {V : List UserVar} {s : Calc} (hV : StoreOK V)
    (hs : Stable (fun x => goodName x = true) V s) : Inv s := by
  unfold Inv
  rw [hs.1]
  exact ⟨hV, hs.2⟩

theorem Keeps_inv {α : Type} {V : List UserVar} (hV : StoreOK V) (r : Res α)
    (hr : r.Keeps (fun x => goodName x = true) V) :
    r.All (fun _ s1 => Stable (fun x => goodName x = true) V s1)
      (fun e s1 => e ≠ .putbackFull ∧ Inv s1) :=
  All_mono r hr (fun _ _ h => h) (fun _ _ h => ⟨h.1, Inv_of_stable hV h.2⟩)

theorem calculate_switch_inv (pow : ℚ → ℚ → ℚ) (n : Nat) (t : token) (s1 : Calc)
    (ht : TokOK (fun x => goodName x = true) t) (hf : s1.ts.full = false) (hi : Inv s1) :
    (calculate_switch pow n t s1).All (fun _ s2 => Inv s2)
      (fun e s2 => e ≠ .putbackFull ∧ Inv s2) := by
  have hst : Stable (fun x => goodName x = true) s1.vecUserVars s1 := ⟨rfl, hi.2⟩
  have hev := (evaluator_keeps pow (fun x => goodName x = true) s1.vecUserVars
    (fun _ h => h) n).2.2.2.2
  unfold calculate_switch
  dsimp only
  split_ifs
  all_goals try exact Inv_of_eq hi rfl rfl
  all_goals try exact ⟨by decide, hi⟩
  · exact ⟨StoreOK_nil, hi.2⟩
  · split
    · exact ⟨by decide, hi⟩
    · exact ⟨StoreOK_eraseIdx _ _ hi.1, hi.2⟩
  · rename_i hk _ hu
    exact ⟨StoreOK_append _ _ _ hi.1 (ht hk) (by simpa using hu), hi.2⟩
  · rename_i hk _ _
    split
    · rename_i hsel
      refine All_bind _ _ (Keeps_inv hi.1 _ (hev s1 hst)) ?_
      intro dval s2 hs2
      have hu := is_usrvar_of_selectVar_none _ _ hsel
      refine ⟨?_, hs2.2⟩
      show StoreOK (s2.vecUserVars ++ [⟨t.name_, dval⟩])
      rw [hs2.1]
      exact StoreOK_append _ _ _ hi.1 (ht hk) hu
    · refine All_bind _ _ (Keeps_inv hi.1 _ (hev s1 hst)) ?_
      intro newval s2 hs2
      refine ⟨?_, hs2.2⟩
      show StoreOK (s2.vecUserVars.modify _ _)
      rw [hs2.1]
      exact StoreOK_modify _ _ _ hi.1
  · simp only [token_stream.putback, hf, Bool.false_eq_true, if_false, Res.bind]
    have hst2 : Stable (fun x => goodName x = true) s1.vecUserVars
        (({ s1 with ts := { full := true, buffer := t } } : Calc).put .resultMark) :=
      ⟨rfl, ht⟩
    refine All_bind _ _ (Keeps_inv hi.1 _ (hev _ hst2)) ?_
    intro v s3 hs3
    exact Inv_of_eq (Inv_of_stable hi.1 hs3) rfl rfl

theorem calculate_try_inv (pow : ℚ → ℚ → ℚ) (n : Nat) (s : Calc) (hi : Inv s) :
    (calculate_try pow n s).All (fun _ s2 => Inv s2)
      (fun e s2 => e ≠ .putbackFull ∧ Inv s2) := by
  have hst : Stable (fun x => goodName x = true) s.vecUserVars (s.put .promptText) :=
    ⟨rfl, hi.2⟩
  unfold calculate_try
  refine All_bind _ _
    (All_mono _ (get_all _ _ (fun _ h => h) _ hst) (fun _ _ h => h)
      (fun _ _ h => ⟨h.1, Inv_of_stable hi.1 h.2⟩)) ?_
  intro t0 s0 h0
  refine All_bind _ _
    (All_mono _ (skipPrints_all _ _ (fun _ h => h) n t0 s0 h0.1 h0.2.1 h0.2.2)
      (fun _ _ h => h) (fun _ _ h => ⟨h.1, Inv_of_stable hi.1 h.2⟩)) ?_
  intro t s1 h1
  exact calculate_switch_inv pow n t s1 h1.1 h1.2.1 (Inv_of_stable hi.1 h1.2.2)

theorem clean_up_mess_store (s : Calc) :
    (clean_up_mess s).vecUserVars = s.vecUserVars ∧
      (clean_up_mess s).ts.buffer = s.ts.buffer ∧ (clean_up_mess s).cout = s.cout := by
  unfold clean_up_mess token_stream.ignore
  split_ifs <;> exact ⟨rfl, rfl, rfl⟩

theorem calculate_iter_inv (pow : ℚ → ℚ → ℚ) (n : Nat) (s : Calc) (hi : Inv s) :
    (calculate_iter pow n s).All (fun _ s2 => Inv s2) (fun _ _ => False) := by
  have h := calculate_try_inv pow n s hi
  unfold calculate_iter
  split
  · rename_i e s1 heq
    rw [heq] at h
    exact Inv_of_eq h.2 (clean_up_mess_store _).1 (clean_up_mess_store _).2.1
  · rename_i r hne
    cases hr : calculate_try pow n s with
    | ok b s2 => rw [hr] at h; exact h
    | throw e s2 => exact absurd hr (hne e s2)
    | abort a => trivial

theorem reach_inv (pow : ℚ → ℚ → ℚ) (cs : List Char) (s : Calc) (h : Reach pow cs s) :
    Inv s := by
  induction h with
  | start => exact Inv_start cs
  | step n s stop s1 _ _ hstep ih =>
    have h1 := calculate_iter_inv pow n s ih
    rw [hstep] at h1
    exact h1

theorem calculate_inv (pow : ℚ → ℚ → ℚ) : ∀ (n : Nat) (s : Calc), Inv s →
    (calculate pow n s).All (fun _ s2 => Inv s2) (fun _ _ => False) := by
  intro n
  induction n with
  | zero => intro s _; trivial
  | succ n ih =>
    intro s hi
    rw [calculate]
    split_ifs
    · exact hi
    · refine All_bind _ _ (calculate_iter_inv pow n s hi) ?_
      intro stop s1 h1
      split_ifs
      · exact h1
      · exact ih s1 h1

/-! ### The invariants of the variable store -/

/-- C17: in every state the session loop reaches from the empty store, every
variable name is a non-empty string of alphabetic characters whose lower-case
form is neither a system constant (`e`, `g`, `phi`, `pi`) nor a command
(`help`, `q`, `quit`, `delete`, `display`). -/
theorem C17_store_names_are_good (pow : ℚ → ℚ → ℚ) (cs : List Char) (s : Calc)
    (h : Reach pow cs s) :
    ∀ u ∈ s.vecUserVars, isName u.name = true ∧
      lowcase u.name ∉ [['e'], ['g'], ['p', 'h', 'i'], ['p', 'i'], ['h', 'e', 'l', 'p'],
        ['q'], ['q', 'u', 'i', 't'], ['d', 'e', 'l', 'e', 't', 'e'],
        ['d', 'i', 's', 'p', 'l', 'a', 'y']] := by
  intro u hu
  have hg := (reach_inv pow cs s h).1.1 u hu
  simp only [goodName, Bool.and_eq_true, Bool.not_eq_true'] at hg
  obtain ⟨⟨hn, hc⟩, hs⟩ := hg
  refine ⟨hn, ?_⟩
  intro hmem
  simp only [List.mem_cons, List.mem_singleton, List.not_mem_nil, or_false] at hmem
  rcases hmem with h1 | h1 | h1 | h1 | h1 | h1 | h1 | h1 | h1 <;> rw [h1] at hc hs <;>
    first
    | exact absurd hc (by decide)
    | exact absurd hs (by decide)

theorem C17_store_names_are_good_witness :
    Reach natPow ['x', '=', '1', ';']
        (Calc.holding [] (token.ofKind ';') [⟨['x'], 1⟩] [.promptText, .created ['x'] 1]) ∧
      ∀ u ∈ (Calc.holding [] (token.ofKind ';') [⟨['x'], 1⟩]
          [.promptText, .created ['x'] 1]).vecUserVars,
        isName u.name = true ∧
        lowcase u.name ∉ [['e'], ['g'], ['p', 'h', 'i'], ['p', 'i'], ['h', 'e', 'l', 'p'],
          ['q'], ['q', 'u', 'i', 't'], ['d', 'e', 'l', 'e', 't', 'e'],
          ['d', 'i', 's', 'p', 'l', 'a', 'y']] :=
  have hr : Reach natPow ['x', '=', '1', ';']
      (Calc.holding [] (token.ofKind ';') [⟨['x'], 1⟩] [.promptText, .created ['x'] 1]) :=
    Reach.step 6 (Calc.start ['x', '=', '1', ';'] []) false _ Reach.start rfl (by decide!)
  ⟨hr, C17_store_names_are_good natPow _ _ hr⟩

/-- C18: in every state the session loop reaches from the empty store, no two
variables of the store have the same name. -/
theorem C18_store_names_are_distinct (pow : ℚ → ℚ → ℚ) (cs : List Char) (s : Calc)
    (h : Reach pow cs s) : (s.vecUserVars.map UserVar.name).Nodup :=
  (reach_inv pow cs s h).1.2

theorem C18_store_names_are_distinct_witness :
    Reach natPow ['x', '=', '1', ';', 'x', '=', '2', ';']
        (Calc.holding [] (token.ofKind ';') [⟨['x'], 2⟩]
          [.promptText, .created ['x'] 1, .promptText, .updated ['x'] 1 2]) ∧
      ((Calc.holding [] (token.ofKind ';') [⟨['x'], 2⟩]
          [.promptText, .created ['x'] 1, .promptText, .updated ['x'] 1 2]).vecUserVars.map
        UserVar.name).Nodup :=
  have hr : Reach natPow ['x', '=', '1', ';', 'x', '=', '2', ';']
      (Calc.holding [] (token.ofKind ';') [⟨['x'], 2⟩]
        [.promptText, .created ['x'] 1, .promptText, .updated ['x'] 1 2]) :=
    Reach.step 6
      (Calc.holding ['x', '=', '2', ';'] (token.ofKind ';') [⟨['x'], 1⟩]
        [.promptText, .created ['x'] 1]) false _
      (Reach.step 6 (Calc.start ['x', '=', '1', ';', 'x', '=', '2', ';'] []) false _
        Reach.start rfl (by decide!))
      rfl (by decide!)
  ⟨hr, C18_store_names_are_distinct natPow _ _ hr⟩

/-! ### The error of `putback` -/

theorem Stable_any (s : Calc) : Stable (fun _ => True) s.vecUserVars s :=
  ⟨rfl, fun _ => trivial⟩

theorem Keeps_not_putbackFull {α : Type} {G : List Char → Prop} {V : List UserVar}
    (r : Res α) (hr : r.Keeps G V) (s1 : Calc) : r ≠ .throw .putbackFull s1 := by
  intro h
  rw [h] at hr
  exact hr.1 rfl

theorem calculate_switch_keeps (pow : ℚ → ℚ → ℚ) (n : Nat) (t : token) (s1 : Calc)
    (hf : s1.ts.full = false) :
    (calculate_switch pow n t s1).All (fun _ _ => True) (fun e _ => e ≠ .putbackFull) := by
  have hev : ∀ s, ((expression pow n s).Keeps (fun _ => True) s.vecUserVars) := fun s =>
    (evaluator_keeps pow (fun _ => True) s.vecUserVars (fun _ _ => trivial) n).2.2.2.2 s
      (Stable_any s)
  have hex : ∀ {β : Type} (s : Calc) (f : ℚ → Calc → Res β),
      (∀ a s2, (f a s2).All (fun _ _ => True) (fun e _ => e ≠ .putbackFull)) →
      ((expression pow n s).bind f).All (fun _ _ => True) (fun e _ => e ≠ .putbackFull) :=
    fun s f hF => All_bind _ f
      (All_mono _ (hev s) (fun _ _ _ => trivial) (fun _ _ h => h.1)) (fun a s2 _ => hF a s2)
  unfold calculate_switch
  dsimp only
  split_ifs
  all_goals try exact trivial
  all_goals try exact (fun h => Err.noConfusion h)
  · split
    · exact (fun h => Err.noConfusion h)
    · trivial
  · split
    · exact hex _ _ (fun _ _ => trivial)
    · exact hex _ _ (fun _ _ => trivial)
  · simp only [token_stream.putback, hf, Bool.false_eq_true, if_false, Res.bind]
    exact hex _ _ (fun _ _ => trivial)

theorem calculate_try_keeps (pow : ℚ → ℚ → ℚ) (n : Nat) (s : Calc) :
    (calculate_try pow n s).All (fun _ _ => True) (fun e _ => e ≠ .putbackFull) := by
  unfold calculate_try
  refine All_bind _ _
    (All_mono _ (get_all (fun _ => True) _ (fun _ _ => trivial) _ (Stable_any (s.put .promptText)))
      (fun _ _ h => h) (fun _ _ h => h.1)) ?_
  intro t0 s0 h0
  refine All_bind _ _
    (All_mono _ (skipPrints_all (fun _ => True) _ (fun _ _ => trivial) n t0 s0 h0.1 h0.2.1 h0.2.2)
      (fun _ _ h => h) (fun _ _ h => h.1)) ?_
  intro t s1 h1
  exact calculate_switch_keeps pow n t s1 h1.2.1

/-- C13: from every state, on every input and with every budget, neither the
`try` block of the loop of `calculate` nor `expression`, `term` or `primary`
ends in the error that `putback` raises on a full buffer. -/
theorem C13_putback_error_unreachable (pow : ℚ → ℚ → ℚ) (n : Nat) (s s1 : Calc) :
    calculate_try pow n s ≠ .throw .putbackFull s1 ∧
      expression pow n s ≠ .throw .putbackFull s1 ∧
      term pow n s ≠ .throw .putbackFull s1 ∧
      primary pow n s ≠ .throw .putbackFull s1 := by
  have hev := evaluator_keeps pow (fun _ => True) s.vecUserVars (fun _ _ => trivial) n
  refine ⟨?_, Keeps_not_putbackFull _ (hev.2.2.2.2 s (Stable_any s)) s1,
    Keeps_not_putbackFull _ (hev.2.2.1 s (Stable_any s)) s1,
    Keeps_not_putbackFull _ (hev.1 s (Stable_any s)) s1⟩
  intro h
  have h1 := calculate_try_keeps pow n s
  rw [h] at h1
  exact h1 rfl

/-! ### The frame of assignment and deletion -/

theorem selectVar_present (vars : List UserVar) (x : List Char)
    (h : is_usrvar vars x = true) :
    ∃ (i : Nat) (u : UserVar), selectVar vars x = some i ∧ vars[i]? = some u ∧ u.name = x ∧
      ∀ j : Nat, j < i → ∀ w : UserVar, vars[j]? = some w → w.name ≠ x := by
  have hex : ∃ u ∈ vars, decide (u.name = x) = true := by
    simpa [is_usrvar] using h
  have hlt := List.findIdx_lt_length_of_exists hex
  refine ⟨vars.findIdx (fun u => decide (u.name = x)), vars[vars.findIdx
    (fun u => decide (u.name = x))], ?_, ?_, ?_, ?_⟩
  · simp [selectVar, hlt]
  · exact List.getElem?_eq_getElem hlt
  · have := @List.findIdx_getElem _ (fun u => decide (u.name = x)) vars hlt
    simpa using this
  · intro j hj w hw
    have h1 := @List.not_of_lt_findIdx _ (fun u => decide (u.name = x)) vars j hj
    have hjl : j < vars.length := Nat.lt_trans hj hlt
    rw [List.getElem?_eq_getElem hjl] at hw
    simp only [Option.some.injEq] at hw
    rw [hw] at h1
    simpa using h1

theorem expression_keeps_store (pow : ℚ → ℚ → ℚ) (n : Nat) (s s2 : Calc) (v : ℚ)
    (h : expression pow n s = .ok v s2) : s2.vecUserVars = s.vecUserVars := by
  have hk := (evaluator_keeps pow (fun _ => True) s.vecUserVars (fun _ _ => trivial)
    n).2.2.2.2 s (Stable_any s)
  rw [h] at hk
  exact hk.1

/-- C19: the statement `x = expr;`, whose expression evaluates to `v`, ends
the iteration normally; a name `x` absent from the store is appended with the
value `v` after the unchanged variables; for a name in the store the first
variable called `x` gets the value `v`, and the size of the store and every
other position are unchanged. -/
theorem C19_assignment_frame (pow : ℚ → ℚ → ℚ) (n : Nat) (w w1 x r : List Char)
    (buf : token) (vars : List UserVar) (out : List Output) (v : ℚ) (s2 : Calc)
    (hw : blank w = true) (hw1 : blank w1 = true)
    (hx : isName x = true) (hc : is_command (lowcase x) = false)
    (hs : is_sysvar (lowcase x) = false)
    (he : expression pow (n + 1) (Calc.reading r buf vars (out ++ [.promptText])) =
      .ok v s2) :
    ∃ s3, calculate_iter pow (n + 1)
          (Calc.reading (w ++ (x ++ (w1 ++ '=' :: r))) buf vars out) = .ok false s3 ∧
      s3.cin = s2.cin ∧ s3.ts = s2.ts ∧
      (is_usrvar vars x = false → s3.vecUserVars = vars ++ [UserVar.mk x v]) ∧
      (is_usrvar vars x = true →
        ∃ (i : Nat) (u : UserVar), vars[i]? = some u ∧ u.name = x ∧
          (∀ j : Nat, j < i → ∀ u1 : UserVar, vars[j]? = some u1 → u1.name ≠ x) ∧
          s3.vecUserVars.length = vars.length ∧
          s3.vecUserVars[i]? = some (UserVar.mk x v) ∧
          ∀ j : Nat, j ≠ i → s3.vecUserVars[j]? = vars[j]?) := by
  have hg := get_assign w w1 x r buf vars (out ++ [.promptText]) hw hw1 hx hc hs
  have hv2 : s2.vecUserVars = vars := expression_keeps_store pow _ _ _ _ he
  rw [calculate_iter, calculate_try_reading pow n _ buf _ _ out _ hg (setvar_not_print _ _)]
  by_cases hu : is_usrvar vars x = true
  · obtain ⟨i, u, hsel, hi, hun, hfirst⟩ := selectVar_present vars x hu
    have hsel1 : selectVar (Calc.reading r buf vars (out ++ [.promptText])).vecUserVars x =
        some i := hsel
    refine ⟨{ s2 with vecUserVars := s2.vecUserVars.modify (fun u => { u with val := v }) i }.put
      (.updated x ((vars.getD i ⟨[], 0⟩).val) v), ?_, rfl, rfl, ?_, ?_⟩
    · simp [calculate_switch, token.ofKindValueName, setvar, quit, help, disp, del, toInt,
        hsel1, he, Res.bind]
      rfl
    · intro h
      rw [h] at hu
      exact absurd hu (by decide)
    · intro _
      refine ⟨i, u, hi, hun, hfirst, ?_, ?_, ?_⟩
      · simp [Calc.put, hv2]
      · simp [Calc.put, hv2, hi, hun]
      · intro j hj
        simp [Calc.put, hv2, List.getElem?_modify_ne _ _ (Ne.symm hj)]
  · have hu1 : is_usrvar vars x = false := by simpa using hu
    have hsel1 : selectVar (Calc.reading r buf vars (out ++ [.promptText])).vecUserVars x =
        none := selectVar_absent vars x hu1
    refine ⟨{ s2 with vecUserVars := s2.vecUserVars ++ [UserVar.mk x v] }.put (.created x v),
      ?_, rfl, rfl, ?_, ?_⟩
    · simp [calculate_switch, token.ofKindValueName, setvar, quit, help, disp, del, toInt,
        hsel1, he, Res.bind]
    · intro _
      simp [Calc.put, hv2]
    · intro h
      exact absurd h hu

theorem C19_assignment_frame_witness :
    ∃ s3, calculate_iter natPow (5 + 1)
          (Calc.reading ([] ++ (['x'] ++ ([' '] ++ '=' :: [' ', '2', ';']))) (token.ofKind empt)
            [⟨['a'], 5⟩, ⟨['x'], 1⟩] []) = .ok false s3 ∧
      s3.cin = (Calc.holding [] (token.ofKind ';') [⟨['a'], 5⟩, ⟨['x'], 1⟩]
        [.promptText]).cin ∧
      s3.ts = (Calc.holding [] (token.ofKind ';') [⟨['a'], 5⟩, ⟨['x'], 1⟩]
        [.promptText]).ts ∧
      (is_usrvar [⟨['a'], 5⟩, ⟨['x'], 1⟩] ['x'] = false →
        s3.vecUserVars = [⟨['a'], 5⟩, ⟨['x'], 1⟩] ++ [UserVar.mk ['x'] 2]) ∧
      (is_usrvar [⟨['a'], 5⟩, ⟨['x'], 1⟩] ['x'] = true →
        ∃ (i : Nat) (u : UserVar), [UserVar.mk ['a'] 5, ⟨['x'], 1⟩][i]? = some u ∧
          u.name = ['x'] ∧
          (∀ j : Nat, j < i → ∀ u1 : UserVar,
            [UserVar.mk ['a'] 5, ⟨['x'], 1⟩][j]? = some u1 → u1.name ≠ ['x']) ∧
          s3.vecUserVars.length = [UserVar.mk ['a'] 5, ⟨['x'], 1⟩].length ∧
          s3.vecUserVars[i]? = some (UserVar.mk ['x'] 2) ∧
          ∀ j : Nat, j ≠ i → s3.vecUserVars[j]? = [UserVar.mk ['a'] 5, ⟨['x'], 1⟩][j]?) :=
  C19_assignment_frame natPow 5 [] [' '] ['x'] [' ', '2', ';'] (token.ofKind empt)
    [⟨['a'], 5⟩, ⟨['x'], 1⟩] [] 2
    (Calc.holding [] (token.ofKind ';') [⟨['a'], 5⟩, ⟨['x'], 1⟩] [.promptText])
    rfl rfl rfl rfl rfl (by decide!)

theorem readTarget_name (w1 x : List Char) (y : Char) (r : List Char) (ch : Char)
    (hw1 : blank w1 = true) (hx : isName x = true) (hy : y.isAlpha = false) :
    readTarget ch ⟨w1 ++ (x ++ y :: r), false, false⟩ = some (x, ⟨y :: r, false, false⟩) := by
  obtain ⟨c, cs, rfl, hc, hcs⟩ := isName_cons x hx
  have he := extract_blank w1 c (cs ++ y :: r) hw1 (alpha_not_space c hc)
  simp [readTarget, he, istream.alphaRun, hc, alphaLoop_name cs [] c y r hc hcs hy,
    istream.putback]

/-- The command `delete` followed by white space and a name: the token that
deletes everything when the name is `all` in any case, the token that deletes
the variable when the name is in the store, and an error otherwise. -/
theorem get_delete (w d w1 x : List Char) (y : Char) (r : List Char) (buf : token)
    (vars : List UserVar) (out : List Output)
    (hw : blank w = true) (hd : lowcase d = ['d', 'e', 'l', 'e', 't', 'e'])
    (hw1 : blank w1 = true) (hne : w1 ≠ []) (hx : isName x = true)
    (hy : y.isAlpha = false) :
    token_stream.get (Calc.reading (w ++ (d ++ (w1 ++ (x ++ y :: r)))) buf vars out) =
      if lowcase x = ['a', 'l', 'l'] then
        .ok (token.ofKindValue del (-1)) (Calc.reading (y :: r) buf vars out)
      else if is_usrvar vars x then
        .ok (token.ofKindValueName del 0 x) (Calc.reading (y :: r) buf vars out)
      else .throw .cannotDelete (Calc.reading (y :: r) buf vars out) := by
  obtain ⟨c0, w3, rfl⟩ := List.exists_cons_of_ne_nil hne
  have hc0 : isspace c0 = true := by
    simp only [blank, List.all_cons, Bool.and_eq_true] at hw1
    exact hw1.1
  have hdn : isName d = true := isName_of_lowcase d (by rw [hd]; decide)
  have hcmd : is_command (lowcase d) = true := by rw [hd]; decide
  have hg := get_name w d c0 (w3 ++ (x ++ y :: r)) buf vars out hw hdn (space_not_alpha c0 hc0)
  have hrt := readTarget_name (c0 :: w3) x y r c0 hw1 hx hy
  rw [List.cons_append] at hrt
  rw [List.cons_append, hg, get_word_lowcase d c0 _ (Or.inl hcmd), hd]
  simp only [Calc.reading]
  simp [token_stream.get_word, hrt]
  rfl

theorem dropThrough_first (c : Char) (pre r : List Char) (h : c ∉ pre) :
    dropThrough c (pre ++ c :: r) = some r := by
  induction pre with
  | nil => simp [dropThrough]
  | cons d ds ih =>
    simp only [List.mem_cons, not_or] at h
    simp [dropThrough, Ne.symm h.1, ih h.2]

theorem print_not_blank (w : List Char) (hw : blank w = true) : ';' ∉ w := by
  intro h
  simp only [blank, List.all_eq_true] at hw
  exact absurd (hw _ h) (by decide)

/-- Recovery with an empty buffer: the input is discarded through its first
`;`. -/
theorem clean_up_reading (pre r : List Char) (buf : token) (vars : List UserVar)
    (out : List Output) (e : Err) (h : ';' ∉ pre) :
    clean_up_mess ((Calc.reading (pre ++ ';' :: r) buf vars out).put (.cerr e)) =
      Calc.reading r buf vars (out ++ [.cerr e]) := by
  simp [clean_up_mess, token_stream.ignore, Calc.put, Calc.reading, istream.ignoreUntil,
    print, dropThrough_first ';' pre r h]

/-- C20, as amended: `delete x;` for a name `x` that is not `all` in any
case.  When `x` is in the store, the iteration ends normally and the store is
what it was without the first variable called `x`: the variables before it
and those after it, in their order.  When `x` is not in the store, the
iteration reports the error of a name that cannot be deleted, discards the
statement through its `;`, and the store is unchanged. -/
theorem C20_delete_frame (pow : ℚ → ℚ → ℚ) (n : Nat) (w d w1 x w2 r : List Char)
    (buf : token) (vars : List UserVar) (out : List Output)
    (hw : blank w = true) (hd : lowcase d = ['d', 'e', 'l', 'e', 't', 'e'])
    (hw1 : blank w1 = true) (hne : w1 ≠ []) (hx : isName x = true)
    (hall : lowcase x ≠ ['a', 'l', 'l']) (hw2 : blank w2 = true) :
    (is_usrvar vars x = true →
      ∃ (i : Nat) (u : UserVar), vars[i]? = some u ∧ u.name = x ∧
        (∀ j : Nat, j < i → ∀ u1 : UserVar, vars[j]? = some u1 → u1.name ≠ x) ∧
        calculate_iter pow (n + 1)
            (Calc.reading (w ++ (d ++ (w1 ++ (x ++ (w2 ++ ';' :: r))))) buf vars out) =
          .ok false (Calc.reading (w2 ++ ';' :: r) buf (vars.take i ++ vars.drop (i + 1))
            (out ++ [.promptText, .erased x]))) ∧
    (is_usrvar vars x = false →
      calculate_iter pow (n + 1)
          (Calc.reading (w ++ (d ++ (w1 ++ (x ++ (w2 ++ ';' :: r))))) buf vars out) =
        .ok false (Calc.reading r buf vars (out ++ [.promptText, .cerr .cannotDelete]))) := by
  obtain ⟨y, r1, hy, hya⟩ := blank_cons_nonalpha w2 ';' r hw2 (by decide)
  have hg := get_delete w d w1 x y r1 buf vars (out ++ [.promptText]) hw hd hw1 hne hx hya
  rw [← hy] at hg
  simp only [hall, if_false] at hg
  constructor
  · intro hu
    obtain ⟨i, u, hsel, hi, hun, hfirst⟩ := selectVar_present vars x hu
    refine ⟨i, u, hi, hun, hfirst, ?_⟩
    simp only [hu, if_true] at hg
    rw [calculate_iter,
      calculate_try_reading pow n _ buf _ _ out _ hg (by simp [token.ofKindValueName, del, print])]
    have hsel1 : selectVar (Calc.reading (w2 ++ ';' :: r) buf vars
        (out ++ [.promptText])).vecUserVars x = some i := hsel
    have hgd : (vars[i]?.getD ⟨[], 0⟩).name = x := by
      simp [hi, hun]
    simp [calculate_switch, token.ofKindValueName, setvar, quit, help, disp, del, DELETE_ALL,
      hsel, hsel1, Calc.put, Calc.reading, hgd, List.eraseIdx_eq_take_drop_succ]
  · intro hu
    simp only [hu, Bool.false_eq_true, if_false] at hg
    have hp : (Calc.reading (w ++ (d ++ (w1 ++ (x ++ (w2 ++ ';' :: r))))) buf vars out).put
        .promptText =
        Calc.reading (w ++ (d ++ (w1 ++ (x ++ (w2 ++ ';' :: r))))) buf vars
          (out ++ [.promptText]) := rfl
    rw [calculate_iter, calculate_try, hp, hg]
    simp only [Res.bind]
    rw [clean_up_reading w2 r buf vars _ _ (print_not_blank w2 hw2)]
    simp

theorem C20_delete_frame_witness :
    (is_usrvar [⟨['a'], 5⟩, ⟨['x'], 1⟩, ⟨['b'], 7⟩] ['x'] = true →
      ∃ (i : Nat) (u : UserVar),
        [UserVar.mk ['a'] 5, ⟨['x'], 1⟩, ⟨['b'], 7⟩][i]? = some u ∧ u.name = ['x'] ∧
        (∀ j : Nat, j < i → ∀ u1 : UserVar,
          [UserVar.mk ['a'] 5, ⟨['x'], 1⟩, ⟨['b'], 7⟩][j]? = some u1 → u1.name ≠ ['x']) ∧
        calculate_iter natPow (5 + 1)
            (Calc.reading ([] ++ (['d', 'e', 'l', 'e', 't', 'e'] ++ ([' '] ++ (['x'] ++
              ([] ++ ';' :: ['1', ';']))))) (token.ofKind empt)
              [⟨['a'], 5⟩, ⟨['x'], 1⟩, ⟨['b'], 7⟩] []) =
          .ok false (Calc.reading ([] ++ ';' :: ['1', ';']) (token.ofKind empt)
            (([UserVar.mk ['a'] 5, ⟨['x'], 1⟩, ⟨['b'], 7⟩].take i) ++
              ([UserVar.mk ['a'] 5, ⟨['x'], 1⟩, ⟨['b'], 7⟩].drop (i + 1)))
            ([] ++ [.promptText, .erased ['x']]))) ∧
    (is_usrvar [⟨['a'], 5⟩, ⟨['x'], 1⟩, ⟨['b'], 7⟩] ['x'] = false →
      calculate_iter natPow (5 + 1)
          (Calc.reading ([] ++ (['d', 'e', 'l', 'e', 't', 'e'] ++ ([' '] ++ (['x'] ++
            ([] ++ ';' :: ['1', ';']))))) (token.ofKind empt)
            [⟨['a'], 5⟩, ⟨['x'], 1⟩, ⟨['b'], 7⟩] []) =
        .ok false (Calc.reading ['1', ';'] (token.ofKind empt)
          [⟨['a'], 5⟩, ⟨['x'], 1⟩, ⟨['b'], 7⟩]
          ([] ++ [.promptText, .cerr .cannotDelete]))) :=
  C20_delete_frame natPow 5 [] ['d', 'e', 'l', 'e', 't', 'e'] [' '] ['x'] [] ['1', ';']
    (token.ofKind empt) [⟨['a'], 5⟩, ⟨['x'], 1⟩, ⟨['b'], 7⟩] []
    rfl (by decide) rfl (by decide) rfl (by decide) rfl

/-- C20, counterexample: with the variables `x` and `all` in the store (the
statement `all = 2;` adds the second), `delete all;` names a variable of the
store and empties the whole store. -/
theorem C20_counterexample_variable_all :
    calculate_iter natPow 6 (Calc.start ['a', 'l', 'l', '=', '2', ';'] [⟨['x'], 1⟩]) =
        .ok false (Calc.holding [] (token.ofKind ';') [⟨['x'], 1⟩, ⟨['a', 'l', 'l'], 2⟩]
          [.promptText, .created ['a', 'l', 'l'] 2]) ∧
      is_usrvar [⟨['x'], 1⟩, ⟨['a', 'l', 'l'], 2⟩] ['a', 'l', 'l'] = true ∧
      calculate_iter natPow 6
          (Calc.start ['d', 'e', 'l', 'e', 't', 'e', ' ', 'a', 'l', 'l', ';']
            [⟨['x'], 1⟩, ⟨['a', 'l', 'l'], 2⟩]) =
        .ok false (Calc.reading [';'] (token.ofKind empt) [] [.promptText, .cleared]) := by
  refine ⟨?_, ?_, ?_⟩ <;> decide!

/-! ### Errors and recovery -/

theorem expression_throw_store {β : Type} (pow : ℚ → ℚ → ℚ) (n : Nat) (V : List UserVar)
    (s : Calc) (f : ℚ → Calc → Res β) (hs : s.vecUserVars = V)
    (hF : ∀ a s2, s2.vecUserVars = V →
      (f a s2).All (fun _ _ => True) (fun _ s3 => s3.vecUserVars = V)) :
    ((expression pow n s).bind f).All (fun _ _ => True) (fun _ s3 => s3.vecUserVars = V) := by
  have hk := (evaluator_keeps pow (fun _ => True) V (fun _ _ => trivial) n).2.2.2.2 s
    ⟨hs, fun _ => trivial⟩
  exact All_bind _ f (All_mono _ hk (fun _ _ h => h.1) (fun _ _ h => h.2.1))
    (fun a s2 h => hF a s2 h)

theorem calculate_switch_throw_store (pow : ℚ → ℚ → ℚ) (n : Nat) (t : token) (s1 : Calc) :
    (calculate_switch pow n t s1).All (fun _ _ => True)
      (fun _ s2 => s2.vecUserVars = s1.vecUserVars) := by
  unfold calculate_switch
  dsimp only
  split_ifs
  all_goals try exact trivial
  all_goals try exact rfl
  · split
    · exact rfl
    · trivial
  · split
    · exact expression_throw_store pow n _ _ _ rfl (fun _ _ _ => trivial)
    · exact expression_throw_store pow n _ _ _ rfl (fun _ _ _ => trivial)
  · unfold token_stream.putback
    split_ifs
    · exact rfl
    · exact expression_throw_store pow n _ _ _ rfl (fun _ _ _ => trivial)

theorem calculate_try_throw_store (pow : ℚ → ℚ → ℚ) (n : Nat) (s : Calc) :
    (calculate_try pow n s).All (fun _ _ => True)
      (fun _ s1 => s1.vecUserVars = s.vecUserVars) := by
  unfold calculate_try
  refine All_bind _ _
    (All_mono _ (get_all (fun _ => True) _ (fun _ _ => trivial) _ (Stable_any (s.put .promptText)))
      (fun _ _ h => h) (fun _ _ h => h.2.1)) ?_
  intro t0 s0 h0
  refine All_bind _ _
    (All_mono _ (skipPrints_all (fun _ => True) _ (fun _ _ => trivial) n t0 s0 h0.1 h0.2.1 h0.2.2)
      (fun _ _ h => h) (fun _ _ h => h.2.1)) ?_
  intro t s1 h1
  have h2 : s1.vecUserVars = s.vecUserVars := h1.2.2.1
  rw [← h2]
  exact calculate_switch_throw_store pow n t s1

theorem get_word_frame (x : List Char) (ch : Char) (s : Calc) (t : token) (s1 : Calc)
    (h : token_stream.get_word x ch s = .ok t s1) :
    s1.ts = s.ts ∧ s1.vecUserVars = s.vecUserVars ∧ s1.cout = s.cout := by
  unfold token_stream.get_word at h
  dsimp only at h
  split_ifs at h
  all_goals try split at h
  all_goals try split_ifs at h
  all_goals try (simp only [Res.ok.injEq, reduceCtorEq] at h)
  all_goals try (obtain ⟨_, rfl⟩ := h; exact ⟨rfl, rfl, rfl⟩)

/-- A successful `get` leaves the buffer empty and changes neither the
variables nor the output. -/
theorem get_frame (s : Calc) (t : token) (s1 : Calc) (h : token_stream.get s = .ok t s1) :
    s1.ts.full = false ∧ s1.vecUserVars = s.vecUserVars ∧ s1.cout = s.cout := by
  unfold token_stream.get at h
  by_cases hf : s.ts.full = true
  · simp only [hf, if_true, Res.ok.injEq] at h
    obtain ⟨_, rfl⟩ := h
    exact ⟨rfl, rfl, rfl⟩
  · have hf1 : s.ts.full = false := by simpa using hf
    simp only [hf1, Bool.false_eq_true, if_false] at h
    split at h
    · exact absurd h (by simp)
    · split_ifs at h
      · simp only [Res.ok.injEq] at h
        obtain ⟨_, rfl⟩ := h
        exact ⟨hf1, rfl, rfl⟩
      · simp only [Res.ok.injEq] at h
        obtain ⟨_, rfl⟩ := h
        exact ⟨hf1, rfl, rfl⟩
      · split at h
        · exact absurd h (by simp)
        · simp only [Res.ok.injEq] at h
          obtain ⟨_, rfl⟩ := h
          exact ⟨hf1, rfl, rfl⟩
      · split at h
        · exact absurd h (by simp)
        · obtain ⟨h1, h2, h3⟩ := get_word_frame _ _ _ _ _ h
          exact ⟨by rw [h1]; exact hf1, h2, h3⟩

/-! ### What a run cannot observe -/

theorem Same_cin {P P1 : List Output} {s s1 : Calc} (h : Calc.Same P P1 s s1) (c : istream) :
    Calc.Same P P1 { s with cin := c } { s1 with cin := c } :=
  ⟨rfl, h.2.1, h.2.2.1, h.2.2.2.1, h.2.2.2.2⟩

theorem calculate_iter_catch (pow : ℚ → ℚ → ℚ) (n : Nat) (s : Calc) :
    calculate_iter pow n s = calculate_catch (calculate_try pow n s) := rfl

theorem calculate_iter_no_throw (pow : ℚ → ℚ → ℚ) (n : Nat) (s : Calc) (e : Err)
    (s1 : Calc) : calculate_iter pow n s ≠ .throw e s1 := by
  rw [calculate_iter_catch]
  cases calculate_try pow n s <;> simp [calculate_catch]

theorem calculate_no_throw (pow : ℚ → ℚ → ℚ) : ∀ (n : Nat) (s : Calc) (e : Err) (s1 : Calc),
    calculate pow n s ≠ .throw e s1 := by
  intro n
  induction n with
  | zero => intro s e s1; simp [calculate]
  | succ n ih =>
    intro s e s1
    rw [calculate]
    split_ifs
    · simp
    · cases hr : calculate_iter pow n s with
      | ok b s2 =>
        simp only [Res.bind]
        split_ifs
        · simp
        · exact ih s2 e s1
      | throw e2 s2 => exact absurd hr (calculate_iter_no_throw pow n s e2 s2)
      | abort a => simp [Res.bind]

/-- C12, counterexample: the error of a `putback` into a full buffer, raised
inside the `try` block, is handled like every other error: the message is
written, the input is resynchronised, and the iteration ends normally. -/
theorem C12_counterexample_putback_recovered :
    calculate_catch
        ((token_stream.putback (token.ofKind '+')
          (Calc.holding ['7', ';'] (token.ofKind ';') [] [])).bind fun _ s => .ok false s) =
      .ok false (Calc.reading ['7', ';'] (token.ofKind ';') [] [.cerr .putbackFull]) := by
  decide!

/-- C12, as amended: a `putback` into a full buffer raises an error that the
handler of the session loop treats like every other error: it writes the
message, calls `clean_up_mess` and lets the loop go on.  No error leaves
`calculate`, and `main` gives its status `2` exactly when an exception that is
not a `std::runtime_error` ends the run. -/
theorem C12_putback_error_is_caught (pow : ℚ → ℚ → ℚ) (n : Nat) (t : token) (s s0 : Calc)
    (f : Unit → Calc → Res Bool) (hf : s.ts.full = true) :
    token_stream.putback t s = .throw .putbackFull s ∧
      calculate_catch ((token_stream.putback t s).bind f) =
        .ok false (clean_up_mess (s.put (.cerr .putbackFull))) ∧
      calculate_iter pow n s0 = calculate_catch (calculate_try pow n s0) ∧
      (∀ e s1, calculate pow n s0 ≠ .throw e s1) ∧
      (main pow n s0 = some 2 ↔ calculate pow n s0 = .abort .bad_alloc) := by
  have hp : token_stream.putback t s = .throw .putbackFull s := by
    simp [token_stream.putback, hf]
  refine ⟨hp, ?_, rfl, calculate_no_throw pow n s0, ?_⟩
  · rw [hp]
    rfl
  · unfold main
    cases hr : calculate pow n s0 with
    | ok u s2 => simp
    | throw e s2 => exact absurd hr (calculate_no_throw pow n s0 e s2)
    | abort a => cases a <;> simp

theorem C12_putback_error_is_caught_witness :
    token_stream.putback (token.ofKind '+')
        (Calc.holding ['7', ';'] (token.ofKind ';') [] []) =
        .throw .putbackFull (Calc.holding ['7', ';'] (token.ofKind ';') [] []) ∧
      calculate_catch ((token_stream.putback (token.ofKind '+')
          (Calc.holding ['7', ';'] (token.ofKind ';') [] [])).bind fun _ s => .ok false s) =
        .ok false (clean_up_mess ((Calc.holding ['7', ';'] (token.ofKind ';') [] []).put
          (.cerr .putbackFull))) ∧
      calculate_iter natPow 5 (Calc.start ['q', ' '] []) =
        calculate_catch (calculate_try natPow 5 (Calc.start ['q', ' '] [])) ∧
      (∀ e s1, calculate natPow 5 (Calc.start ['q', ' '] []) ≠ .throw e s1) ∧
      (main natPow 5 (Calc.start ['q', ' '] []) = some 2 ↔
        calculate natPow 5 (Calc.start ['q', ' '] []) = .abort .bad_alloc) :=
  C12_putback_error_is_caught natPow 5 (token.ofKind '+')
    (Calc.holding ['7', ';'] (token.ofKind ';') [] []) (Calc.start ['q', ' '] [])
    (fun _ s => .ok false s) rfl

/-! ### Declarations -/

/-- C21: the switch of the session loop on the token that declares `name`
with zero: for a name in the store it throws "Tried to create an existing
variable" from the unchanged state; for a name not in the store it appends
the variable `name` with value `0` to the store, writes the message, and
leaves the stream and the buffer as they are. -/
theorem C21_declare_zero (pow : ℚ → ℚ → ℚ) (n : Nat) (name : List Char) (s1 : Calc) :
    (is_usrvar s1.vecUserVars name = true →
      calculate_switch pow n (token.ofKindValueName setvar 0 name) s1 =
        .throw .existingVariable s1) ∧
    (is_usrvar s1.vecUserVars name = false →
      calculate_switch pow n (token.ofKindValueName setvar 0 name) s1 =
        .ok false { s1 with vecUserVars := s1.vecUserVars ++ [⟨name, 0⟩],
                            cout := s1.cout ++ [.created name 0] }) := by
  constructor
  · intro h
    simp [calculate_switch, token.ofKindValueName, setvar, quit, help, disp, del, toInt, h]
  · intro h
    simp [calculate_switch, token.ofKindValueName, setvar, quit, help, disp, del, toInt, h,
      Calc.put]

/-- C21 at concrete inputs.  The statement `y = 1 y;` stores `y` and leaves
the token that declares `y` in the buffer, so the next iteration handles that
token with `y` in the store and fails, the store unchanged; with the store
empty the same token appends `y` with value zero. -/
theorem C21_declare_zero_witness :
    calculate_iter natPow 8 (Calc.start ['y', '=', '1', ' ', 'y', ';', '2', ';'] []) =
        .ok false (Calc.holding ['2', ';'] (token.ofKindValueName setvar 0 ['y'])
          [⟨['y'], 1⟩] [.promptText, .created ['y'] 1]) ∧
      calculate_switch natPow 8 (token.ofKindValueName setvar 0 ['y'])
          (Calc.reading ['2', ';'] (token.ofKindValueName setvar 0 ['y']) [⟨['y'], 1⟩]
            [.promptText, .created ['y'] 1, .promptText]) =
        .throw .existingVariable
          (Calc.reading ['2', ';'] (token.ofKindValueName setvar 0 ['y']) [⟨['y'], 1⟩]
            [.promptText, .created ['y'] 1, .promptText]) ∧
      calculate_switch natPow 8 (token.ofKindValueName setvar 0 ['y'])
          (Calc.reading ['2', ';'] (token.ofKind empt) [] [.promptText]) =
        .ok false (Calc.reading ['2', ';'] (token.ofKind empt) [⟨['y'], 0⟩]
          [.promptText, .created ['y'] 0]) :=
  ⟨by decide!,
    (C21_declare_zero natPow 8 ['y']
      (Calc.reading ['2', ';'] (token.ofKindValueName setvar 0 ['y']) [⟨['y'], 1⟩]
        [.promptText, .created ['y'] 1, .promptText])).1 rfl,
    (C21_declare_zero natPow 8 ['y']
      (Calc.reading ['2', ';'] (token.ofKind empt) [] [.promptText])).2 rfl⟩

/-! ### Left-to-right evaluation and precedence -/

theorem exprLoop_plus (pow : ℚ → ℚ → ℚ) (n : Nat) (left : ℚ) (cs : List Char)
    (vars : List UserVar) (out : List Output) :
    exprLoop pow (n + 1) left (Calc.holding cs (token.ofKind '+') vars out) =
      (term pow n (Calc.reading cs (token.ofKind '+') vars out)).bind
        fun d s2 => exprLoop pow n (left + d) s2 := by
  simp [exprLoop, get_holding, Res.bind, token.ofKind]

theorem All_trivial {α : Type} (r : Res α) : r.All (fun _ _ => True) (fun _ _ => True) := by
  cases r <;> trivial

/-- The loop of `expression`, when it returns: it has made some passes over
`+` or `-` and a term, then read a token that is neither, and put that token
back. -/
theorem exprLoop_passes (pow : ℚ → ℚ → ℚ) : ∀ (n : Nat) (left : ℚ) (s : Calc) (v : ℚ)
    (s1 : Calc), exprLoop pow n left s = .ok v s1 →
    ∃ (sL s2 : Calc) (t : token),
      Relation.ReflTransGen (ExprPass pow) (left, s) (v, sL) ∧
      token_stream.get sL = .ok t s2 ∧ t.kind_ ≠ '+' ∧ t.kind_ ≠ '-' ∧
      s1 = { s2 with ts := { full := true, buffer := t } } := by
  intro n
  induction n with
  | zero => intro left s v s1 h; simp [exprLoop] at h
  | succ n ih =>
    intro left s v s1 h
    rw [exprLoop] at h
    cases hget : token_stream.get s with
    | abort a => simp [hget, Res.bind] at h
    | throw e s0 => simp [hget, Res.bind] at h
    | ok t s0 =>
      simp only [hget, Res.bind] at h
      split_ifs at h with h1 h2
      · cases hterm : term pow n s0 with
        | abort a => simp [hterm] at h
        | throw e s3 => simp [hterm] at h
        | ok d s3 =>
          simp only [hterm] at h
          obtain ⟨sL, s2, t1, hc, hg, hp, hm, hs⟩ := ih _ _ _ _ h
          exact ⟨sL, s2, t1,
            Relation.ReflTransGen.head (ExprPass.plus n left d s s0 s3 t hget h1 hterm) hc,
            hg, hp, hm, hs⟩
      · cases hterm : term pow n s0 with
        | abort a => simp [hterm] at h
        | throw e s3 => simp [hterm] at h
        | ok d s3 =>
          simp only [hterm] at h
          obtain ⟨sL, s2, t1, hc, hg, hp, hm, hs⟩ := ih _ _ _ _ h
          exact ⟨sL, s2, t1,
            Relation.ReflTransGen.head (ExprPass.minus n left d s s0 s3 t hget h2 hterm) hc,
            hg, hp, hm, hs⟩
      · unfold token_stream.putback at h
        split_ifs at h
        simp only [Res.ok.injEq] at h
        obtain ⟨hv, hs⟩ := h
        subst hv
        exact ⟨s, s0, t, Relation.ReflTransGen.refl, hget, h1, h2, hs.symm⟩

/-- C25: whenever `expression` returns the value `v` in the state `s1`, it
has evaluated a first term, made passes of its loop (each over a `+` or `-`
and a term) up to the value `v` in a state `sL`, and read from `sL` a token
`t` that is neither `+` nor `-`; `s1` is the state right after that read with
the buffer full and holding `t`.  So the last token read is in the buffer,
and nothing was read after it. -/
theorem C25_expression_pushes_back (pow : ℚ → ℚ → ℚ) (n : Nat) (s : Calc) (v : ℚ) (s1 : Calc)
    (h : expression pow n s = .ok v s1) :
    ∃ (m : Nat) (left0 : ℚ) (s0 sL s2 : Calc) (t : token),
      term pow m s = .ok left0 s0 ∧
      Relation.ReflTransGen (ExprPass pow) (left0, s0) (v, sL) ∧
      token_stream.get sL = .ok t s2 ∧ t.kind_ ≠ '+' ∧ t.kind_ ≠ '-' ∧
      s1 = { s2 with ts := { full := true, buffer := t } } ∧
      s1.ts.full = true ∧ s1.ts.buffer = t ∧ s1.cin = s2.cin := by
  cases n with
  | zero => simp [expression] at h
  | succ n =>
    rw [expression] at h
    cases hterm : term pow n s with
    | abort a => simp [hterm, Res.bind] at h
    | throw e s3 => simp [hterm, Res.bind] at h
    | ok left0 s0 =>
      simp only [hterm, Res.bind] at h
      obtain ⟨sL, s2, t, hc, hg, hp, hm, hs⟩ := exprLoop_passes pow n left0 s0 v s1 h
      exact ⟨n, left0, s0, sL, s2, t, hterm, hc, hg, hp, hm, hs, by rw [hs], by rw [hs],
        by rw [hs]⟩

/-- C25 at a concrete input: `expression` on `5+3*2;7;` returns 11 after the
term `5`, one pass over `+` and the term `3*2`, and the read of `;`; the
buffer holds that `;`, and `7;` is unread. -/
theorem C25_expression_pushes_back_witness :
    expression natPow 5
        (Calc.reading ['5', '+', '3', '*', '2', ';', '7', ';'] (token.ofKind empt) [] []) =
      .ok 11 (Calc.holding ['7', ';'] (token.ofKind ';') [] []) ∧
    ∃ (m : Nat) (left0 : ℚ) (s0 sL s2 : Calc) (t : token),
      term natPow m
          (Calc.reading ['5', '+', '3', '*', '2', ';', '7', ';'] (token.ofKind empt) [] []) =
        .ok left0 s0 ∧
      Relation.ReflTransGen (ExprPass natPow) (left0, s0) (11, sL) ∧
      token_stream.get sL = .ok t s2 ∧ t.kind_ ≠ '+' ∧ t.kind_ ≠ '-' ∧
      Calc.holding ['7', ';'] (token.ofKind ';') [] [] =
        { s2 with ts := { full := true, buffer := t } } ∧
      (Calc.holding ['7', ';'] (token.ofKind ';') [] []).ts.full = true ∧
      (Calc.holding ['7', ';'] (token.ofKind ';') [] []).ts.buffer = t ∧
      (Calc.holding ['7', ';'] (token.ofKind ';') [] []).cin = s2.cin :=
  have h : expression natPow 5
      (Calc.reading ['5', '+', '3', '*', '2', ';', '7', ';'] (token.ofKind empt) [] []) =
      .ok 11 (Calc.holding ['7', ';'] (token.ofKind ';') [] []) := by decide!
  ⟨h, C25_expression_pushes_back natPow 5 _ 11 _ h⟩

/-! ### A failed statement and the store -/

/-- C26: when the `try` block of an iteration of the session loop ends in an
error, whatever the store, the input and the error, the iteration ends
normally with the message written and with the variable store it started
with. -/
theorem C26_failed_statement_keeps_store (pow : ℚ → ℚ → ℚ) (n : Nat) (s : Calc) (e : Err)
    (s1 : Calc) (h : calculate_try pow n s = .throw e s1) :
    ∃ s2, calculate_iter pow n s = .ok false s2 ∧ s2.vecUserVars = s.vecUserVars ∧
      s2.cout = s1.cout ++ [.cerr e] := by
  have hst := calculate_try_throw_store pow n s
  rw [h] at hst
  refine ⟨clean_up_mess (s1.put (.cerr e)), ?_, ?_, ?_⟩
  · rw [calculate_iter, h]
  · rw [(clean_up_mess_store _).1]
    exact hst
  · rw [(clean_up_mess_store _).2.2]
    rfl

/-- C26 at concrete inputs, with `x = 5` in the store: the assignment
`x=1/0;` fails while its right-hand side is evaluated, and `delete y;` fails
in the lexer; in both cases the store is still `x = 5`. -/
theorem C26_failed_statement_keeps_store_witness :
    (∃ s2, calculate_iter natPow 8 (Calc.start ['x', '=', '1', '/', '0', ';'] [⟨['x'], 5⟩]) =
        .ok false s2 ∧
      s2.vecUserVars = (Calc.start ['x', '=', '1', '/', '0', ';'] [⟨['x'], 5⟩]).vecUserVars ∧
      s2.cout = (Calc.holding [] (token.ofKind ';') [⟨['x'], 5⟩] [.promptText]).cout ++
        [.cerr .divideByZero]) ∧
    (∃ s2, calculate_iter natPow 8
          (Calc.start ['d', 'e', 'l', 'e', 't', 'e', ' ', 'y', ';'] [⟨['x'], 5⟩]) =
        .ok false s2 ∧
      s2.vecUserVars =
        (Calc.start ['d', 'e', 'l', 'e', 't', 'e', ' ', 'y', ';'] [⟨['x'], 5⟩]).vecUserVars ∧
      s2.cout = (Calc.reading [';'] (token.ofKind empt) [⟨['x'], 5⟩] [.promptText]).cout ++
        [.cerr .cannotDelete]) :=
  ⟨C26_failed_statement_keeps_store natPow 8 _ .divideByZero
      (Calc.holding [] (token.ofKind ';') [⟨['x'], 5⟩] [.promptText]) (by decide!),
    C26_failed_statement_keeps_store natPow 8 _ .cannotDelete
      (Calc.reading [';'] (token.ofKind empt) [⟨['x'], 5⟩] [.promptText]) (by decide!)⟩

/-! ### The loops of the manual modulo -/

/-- The loop `while (left>=d) left-=d;`: with a budget above `m`, where
`left < (m + 1) * d`, it subtracts `d` some `j` times and stops below `d`, and
at or above zero when it started there. -/
theorem modLoopPosPos_spec (d : ℚ) : ∀ (m : ℕ) (left : ℚ),
    left < (m + 1) * d →
    ∃ j : ℕ, (∀ k, m < k → modLoopPosPos k left d = some (left - j * d)) ∧
      left - j * d < d ∧ (0 ≤ left → 0 ≤ left - j * d) := by
  intro m
  induction m with
  | zero =>
    intro left h
    simp only [Nat.cast_zero, zero_add, one_mul] at h
    refine ⟨0, ?_, by simpa using h, by intro h0; simpa using h0⟩
    intro k hk
    obtain ⟨k1, rfl⟩ := Nat.exists_eq_succ_of_ne_zero (Nat.ne_of_gt hk)
    simp [modLoopPosPos, not_le.mpr h]
  | succ m ih =>
    intro left h
    by_cases hge : left ≥ d
    · have h1 : left - d < (m + 1) * d := by
        push_cast at h
        linarith
      obtain ⟨j, hj, hlt, hnn⟩ := ih (left - d) h1
      have he : left - d - j * d = left - ((j + 1 : ℕ) : ℚ) * d := by
        push_cast
        ring
      refine ⟨j + 1, ?_, by rw [← he]; exact hlt, fun _ => by
        rw [← he]; exact hnn (by linarith)⟩
      intro k hk
      obtain ⟨k1, rfl⟩ := Nat.exists_eq_succ_of_ne_zero (Nat.ne_of_gt (Nat.lt_of_le_of_lt
        (Nat.zero_le _) hk))
      have hk1 : m < k1 := Nat.lt_of_succ_lt_succ hk
      simp only [modLoopPosPos, hge, if_true]
      rw [hj k1 hk1, he]
    · have hlt : left < d := not_le.mp hge
      refine ⟨0, ?_, by simpa using hlt, by intro h0; simpa using h0⟩
      intro k hk
      obtain ⟨k1, rfl⟩ := Nat.exists_eq_succ_of_ne_zero (Nat.ne_of_gt (Nat.lt_of_le_of_lt
        (Nat.zero_le _) hk))
      simp [modLoopPosPos, hge]

/-- The loop `while (left>0) left+=d;`: with a budget above `m`, where
`left ≤ m * (-d)`, it adds `d` some `j` times and stops at or below zero, and
above `d` when it started there. -/
theorem modLoopPosNeg_spec (d : ℚ) : ∀ (m : ℕ) (left : ℚ),
    left ≤ m * (-d) →
    ∃ j : ℕ, (∀ k, m < k → modLoopPosNeg k left d = some (left + j * d)) ∧
      left + j * d ≤ 0 ∧ (d < left → d < left + j * d) := by
  intro m
  induction m with
  | zero =>
    intro left h
    simp only [Nat.cast_zero, zero_mul] at h
    refine ⟨0, ?_, by simpa using h, by intro h0; simpa using h0⟩
    intro k hk
    obtain ⟨k1, rfl⟩ := Nat.exists_eq_succ_of_ne_zero (Nat.ne_of_gt hk)
    simp [modLoopPosNeg, not_lt.mpr h]
  | succ m ih =>
    intro left h
    by_cases hpos : left > 0
    · have h1 : left + d ≤ m * (-d) := by
        push_cast at h
        linarith
      obtain ⟨j, hj, hle, hgt⟩ := ih (left + d) h1
      have he : left + d + j * d = left + ((j + 1 : ℕ) : ℚ) * d := by
        push_cast
        ring
      refine ⟨j + 1, ?_, by rw [← he]; exact hle, fun _ => by
        rw [← he]; exact hgt (by linarith)⟩
      intro k hk
      obtain ⟨k1, rfl⟩ := Nat.exists_eq_succ_of_ne_zero (Nat.ne_of_gt (Nat.lt_of_le_of_lt
        (Nat.zero_le _) hk))
      have hk1 : m < k1 := Nat.lt_of_succ_lt_succ hk
      simp only [modLoopPosNeg, hpos, if_true]
      rw [hj k1 hk1, he]
    · have hle : left ≤ 0 := not_lt.mp hpos
      refine ⟨0, ?_, by simpa using hle, by intro h0; simpa using h0⟩
      intro k hk
      obtain ⟨k1, rfl⟩ := Nat.exists_eq_succ_of_ne_zero (Nat.ne_of_gt (Nat.lt_of_le_of_lt
        (Nat.zero_le _) hk))
      simp [modLoopPosNeg, hpos]

/-- The loop for two negative operands is the loop for two positive operands
on the opposite numbers. -/
theorem modLoopNegNeg_eq : ∀ (k : ℕ) (left d : ℚ),
    modLoopNegNeg k left d = (modLoopPosPos k (-left) (-d)).map fun r => -r := by
  intro k
  induction k with
  | zero => intro left d; rfl
  | succ k ih =>
    intro left d
    by_cases h : left ≤ d
    · have h1 : -left ≥ -d := neg_le_neg h
      have h2 : -left - -d = -(left - d) := by ring
      simp only [modLoopNegNeg, modLoopPosPos, h, h1, if_true, ih, h2]
    · have h1 : ¬ (-left ≥ -d) := fun hh => h (neg_le_neg_iff.mp hh)
      simp [modLoopNegNeg, modLoopPosPos, h, h1]

/-- The loop for a negative left operand and a positive right operand is the
loop for two positive operands on the opposite of the left operand. -/
theorem modLoopNegPos_eq : ∀ (k : ℕ) (left d : ℚ),
    modLoopNegPos k left d = (modLoopPosPos k (-left) d).map fun r => -r := by
  intro k
  induction k with
  | zero => intro left d; rfl
  | succ k ih =>
    intro left d
    by_cases h : left + d ≤ 0
    · have h1 : -left ≥ d := by linarith
      have h2 : -left - d = -(left + d) := by ring
      simp only [modLoopNegPos, modLoopPosPos, h, h1, if_true, ih, h2]
    · have h1 : ¬ (-left ≥ d) := fun hh => h (by linarith)
      simp [modLoopNegPos, modLoopPosPos, h, h1]

theorem exists_nat_bound (x d : ℚ) (hd : 0 < d) : ∃ m : ℕ, x < (m + 1) * d ∧ x ≤ m * d := by
  obtain ⟨m, hm⟩ := exists_nat_gt (x / d)
  have h1 : x < m * d := (div_lt_iff₀ hd).mp hm
  exact ⟨m, by linarith, le_of_lt h1⟩

/-- The manual modulo for a non-zero divisor: from some budget on it gives one
result `r`, which differs from `left` by an integer multiple of `d` and is
smaller than `d` in absolute value. -/
theorem modulo_spec (left d : ℚ) (hd : d ≠ 0) :
    ∃ (r : ℚ) (m : ℤ) (K : ℕ), r = left + m * d ∧ |r| < |d| ∧
      ∀ k, K ≤ k → modulo k left d = some r := by
  rcases lt_or_gt_of_ne hd with hneg | hpos
  · by_cases hl : left < 0
    · obtain ⟨m, hm, _⟩ := exists_nat_bound (-left) (-d) (by linarith)
      obtain ⟨j, hj, hlt, hnn⟩ := modLoopPosPos_spec (-d) m (-left) hm
      have h0 := hnn (by linarith)
      refine ⟨-(-left - j * -d), -(j : ℤ), m + 1, by push_cast; ring, ?_, ?_⟩
      · rw [abs_neg, abs_of_nonneg h0, abs_of_neg hneg]
        exact hlt
      · intro k hk
        simp only [modulo, hl, hneg, if_true, modLoopNegNeg_eq, hj k hk, Option.map_some']
    · obtain ⟨m, _, hm⟩ := exists_nat_bound left (-d) (by linarith)
      obtain ⟨j, hj, hle, hgt⟩ := modLoopPosNeg_spec d m left hm
      have h0 := hgt (by linarith)
      refine ⟨left + j * d, (j : ℤ), m + 1, by push_cast; ring, ?_, ?_⟩
      · rw [abs_of_nonpos hle, abs_of_neg hneg]
        linarith
      · intro k hk
        simp only [modulo, hl, hneg, if_true, if_false, hj k hk]
  · have hnd : ¬ d < 0 := not_lt.mpr (le_of_lt hpos)
    by_cases hl : left < 0
    · obtain ⟨m, hm, _⟩ := exists_nat_bound (-left) d hpos
      obtain ⟨j, hj, hlt, hnn⟩ := modLoopPosPos_spec d m (-left) hm
      have h0 := hnn (by linarith)
      refine ⟨-(-left - j * d), (j : ℤ), m + 1, by push_cast; ring, ?_, ?_⟩
      · rw [abs_neg, abs_of_nonneg h0, abs_of_pos hpos]
        exact hlt
      · intro k hk
        simp only [modulo, hl, hnd, if_true, if_false, modLoopNegPos_eq, hj k hk,
          Option.map_some']
    · obtain ⟨m, hm, _⟩ := exists_nat_bound left d hpos
      obtain ⟨j, hj, hlt, hnn⟩ := modLoopPosPos_spec d m left hm
      have h0 := hnn (not_lt.mp hl)
      refine ⟨left - j * d, -(j : ℤ), m + 1, by push_cast; ring, ?_, ?_⟩
      · rw [abs_of_nonneg h0, abs_of_pos hpos]
        exact hlt
      · intro k hk
        simp only [modulo, hl, hnd, if_false, hj k hk]

/-- C27: for every left value and every non-zero `d` there is one number `r`,
different from `left` by an integer multiple of `d` and with `|r| < |d|`,
that the manual modulo gives from some budget on; and it is the value with
which the loop of `term` goes on after `%` and a primary of value `d`. -/
theorem C27_modulo_result (left d : ℚ) (hd : d ≠ 0) :
    ∃ (r : ℚ) (m : ℤ) (K : ℕ), r = left + m * d ∧ |r| < |d| ∧
      (∀ k, K ≤ k → modulo k left d = some r) ∧
      ∀ (pow : ℚ → ℚ → ℚ) (n : ℕ) (s s1 s2 : Calc) (t : token), K ≤ n →
        token_stream.get s = .ok t s1 → t.kind_ = '%' → primary pow n s1 = .ok d s2 →
        termLoop pow (n + 1) left s = termLoop pow n r s2 := by
  obtain ⟨r, m, K, hr, habs, hK⟩ := modulo_spec left d hd
  refine ⟨r, m, K, hr, habs, hK, ?_⟩
  intro pow n s s1 s2 t hn hget ht hp
  by_cases hl : left = 0
  · have h1 : modulo (max K 1) left d = some left := by
      obtain ⟨k1, hk1⟩ := Nat.exists_eq_succ_of_ne_zero
        (Nat.ne_of_gt (lt_of_lt_of_le Nat.zero_lt_one (le_max_right K 1)))
      rw [hk1, hl]
      by_cases hneg : d < 0
      · simp [modulo, hneg, modLoopPosNeg]
      · have hpos : ¬ (0 : ℚ) ≥ d := fun h => hneg (lt_of_le_of_ne h hd)
        simp [modulo, hneg, modLoopPosPos, hpos]
    have h2 := hK (max K 1) (le_max_left K 1)
    have h3 : left = r := by
      rw [h1] at h2
      exact Option.some.inj h2
    simp [termLoop, hget, Res.bind, ht, hp, hd, hl, ← h3]
  · simp [termLoop, hget, Res.bind, ht, hp, hd, hl, hK n hn]

/-- C27 at a concrete input: for `-7 % 2`. -/
theorem C27_modulo_result_witness :
    ∃ (r : ℚ) (m : ℤ) (K : ℕ), r = (-7 : ℚ) + m * 2 ∧ |r| < |(2 : ℚ)| ∧
      (∀ k, K ≤ k → modulo k (-7) 2 = some r) ∧
      ∀ (pow : ℚ → ℚ → ℚ) (n : ℕ) (s s1 s2 : Calc) (t : token), K ≤ n →
        token_stream.get s = .ok t s1 → t.kind_ = '%' → primary pow n s1 = .ok 2 s2 →
        termLoop pow (n + 1) (-7) s = termLoop pow n r s2 :=
  C27_modulo_result (-7) 2 (by norm_num)

/-- C28: each of the four loops of the manual modulo, for a divisor of the
sign under which `term` enters it and for every left value, gives a result
from some budget on; so does the manual modulo for every left value and every
non-zero divisor. -/
theorem C28_modulo_loops_terminate (left d : ℚ) :
    (d < 0 → ∃ K, ∀ k, K ≤ k → ∃ r, modLoopNegNeg k left d = some r) ∧
    (0 < d → ∃ K, ∀ k, K ≤ k → ∃ r, modLoopNegPos k left d = some r) ∧
    (d < 0 → ∃ K, ∀ k, K ≤ k → ∃ r, modLoopPosNeg k left d = some r) ∧
    (0 < d → ∃ K, ∀ k, K ≤ k → ∃ r, modLoopPosPos k left d = some r) ∧
    (d ≠ 0 → ∃ K, ∀ k, K ≤ k → ∃ r, modulo k left d = some r) := by
  refine ⟨?_, ?_, ?_, ?_, ?_⟩
  · intro hd
    obtain ⟨m, hm, _⟩ := exists_nat_bound (-left) (-d) (by linarith)
    obtain ⟨j, hj, _, _⟩ := modLoopPosPos_spec (-d) m (-left) hm
    exact ⟨m + 1, fun k hk => ⟨_, by rw [modLoopNegNeg_eq, hj k hk]; rfl⟩⟩
  · intro hd
    obtain ⟨m, hm, _⟩ := exists_nat_bound (-left) d hd
    obtain ⟨j, hj, _, _⟩ := modLoopPosPos_spec d m (-left) hm
    exact ⟨m + 1, fun k hk => ⟨_, by rw [modLoopNegPos_eq, hj k hk]; rfl⟩⟩
  · intro hd
    obtain ⟨m, _, hm⟩ := exists_nat_bound left (-d) (by linarith)
    obtain ⟨j, hj, _, _⟩ := modLoopPosNeg_spec d m left hm
    exact ⟨m + 1, fun k hk => ⟨_, hj k hk⟩⟩
  · intro hd
    obtain ⟨m, hm, _⟩ := exists_nat_bound left d hd
    obtain ⟨j, hj, _, _⟩ := modLoopPosPos_spec d m left hm
    exact ⟨m + 1, fun k hk => ⟨_, hj k hk⟩⟩
  · intro hd
    obtain ⟨r, _, K, _, _, hK⟩ := modulo_spec left d hd
    exact ⟨K, fun k hk => ⟨r, hK k hk⟩⟩

/-- C28 at concrete inputs: the four loops on the operands of `-7 % -2`,
`-7 % 2`, `7 % -2` and `7 % 2`. -/
theorem C28_modulo_loops_terminate_witness :
    (∃ K, ∀ k, K ≤ k → ∃ r, modLoopNegNeg k (-7) (-2) = some r) ∧
    (∃ K, ∀ k, K ≤ k → ∃ r, modLoopNegPos k (-7) 2 = some r) ∧
    (∃ K, ∀ k, K ≤ k → ∃ r, modLoopPosNeg k 7 (-2) = some r) ∧
    (∃ K, ∀ k, K ≤ k → ∃ r, modLoopPosPos k 7 2 = some r) ∧
    (∃ K, ∀ k, K ≤ k → ∃ r, modulo k 7 2 = some r) :=
  ⟨(C28_modulo_loops_terminate (-7) (-2)).1 (by norm_num),
    (C28_modulo_loops_terminate (-7) 2).2.1 (by norm_num),
    (C28_modulo_loops_terminate 7 (-2)).2.2.1 (by norm_num),
    (C28_modulo_loops_terminate 7 2).2.2.2.1 (by norm_num),
    (C28_modulo_loops_terminate 7 2).2.2.2.2 (by norm_num)⟩

/-! ### An unknown name inside an expression -/

/-- An unknown name followed by `;` where a primary is expected: `primary`
gives zero, the payload of the token that declares the name; the `;` is read
with the name, and the store is untouched. -/
theorem primary_declare (pow : ℚ → ℚ → ℚ) (n : Nat) (w w1 y r : List Char) (buf : token)
    (vars : List UserVar) (out : List Output) (hw : blank w = true) (hw1 : blank w1 = true)
    (hy : isName y = true) (hc : is_command (lowcase y) = false)
    (hs : is_sysvar (lowcase y) = false) (hu : is_usrvar vars y = false) :
    primary pow (n + 1) (Calc.reading (w ++ (y ++ (w1 ++ ';' :: r))) buf vars out) =
      .ok 0 (Calc.reading r buf vars out) := by
  rw [primary, get_declare w w1 y r buf vars out hw hw1 hy hc hs hu]
  simp [Res.bind, token.ofKindValueName, setvar, number]

/-- The loop of `term` on a token that is none of `*`, `/`, `%`, `^`: it
puts the token back and returns the value it has. -/
theorem termLoop_other (pow : ℚ → ℚ → ℚ) (n : Nat) (left : ℚ) (s : Calc) (t : token)
    (s1 : Calc) (hg : token_stream.get s = .ok t s1)
    (h1 : t.kind_ ≠ '*') (h2 : t.kind_ ≠ '/') (h3 : t.kind_ ≠ '%') (h4 : t.kind_ ≠ '^') :
    termLoop pow (n + 1) left s = .ok left { s1 with ts := { full := true, buffer := t } } := by
  have hf := (get_frame _ _ _ hg).1
  simp [termLoop, hg, Res.bind, h1, h2, h3, h4, token_stream.putback, hf]

/-- The loop of `expression` on a state whose buffer holds a token that is
neither `+` nor `-`: it returns the value it has and leaves the state as it
is. -/
theorem exprLoop_other (pow : ℚ → ℚ → ℚ) (n : Nat) (left : ℚ) (s1 : Calc) (t : token)
    (h1 : t.kind_ ≠ '+') (h2 : t.kind_ ≠ '-') :
    exprLoop pow (n + 1) left { s1 with ts := { full := true, buffer := t } } =
      .ok left { s1 with ts := { full := true, buffer := t } } := by
  simp [exprLoop, token_stream.get, Res.bind, h1, h2, token_stream.putback]

/-- C29, counterexample: in `2+y;+3;` the `;` after the unknown name `y` is
read by the lexer together with the name, so the expression goes on with
`+3`: one value is printed, 5, and not 2.  In `2+y;#;9;` the expression goes
on to the character `#`, and the statement ends in the error of a bad token.
When `2+y;` ends the input, the read of the next token finds nothing, and the
iteration does not return a value.  In `1e400+y;7;` the literal is beyond the
largest `double`: reading it sets `failbit`, and the iteration does not
return a value. -/
theorem C29_counterexample_next_statement :
    calculate_iter natPow 8 (Calc.start ['2', '+', 'y', ';', '+', '3', ';'] []) =
        .ok false (Calc.holding [] (token.ofKind ';') []
          [.promptText, .resultMark, .result 5]) ∧
      calculate_iter natPow 8 (Calc.start ['2', '+', 'y', ';', '#', ';', '9', ';'] []) =
        .ok false (Calc.reading ['9', ';'] (token.ofKind '+') []
          [.promptText, .resultMark, .cerr .badToken]) ∧
      calculate_iter natPow 8 (Calc.start ['2', '+', 'y', ';'] []) = .abort .indeterminate ∧
      calculate_iter natPow 8 (Calc.start "1e400+y;7;".toList []) = .abort .indeterminate := by
  refine ⟨?_, ?_, ?_, ?_⟩ <;> decide!

/-- C29, as amended: for a number literal `a` that does not exceed the
largest `double` and a name `y` that is no command, no system constant and no variable of the store, in the statement
`a + y;` (white space allowed between the tokens) followed by any input
`rest`.  (1) The `;` is read with the name, `y` counts as zero and is not
declared: the iteration goes on as the loop of `term` with the value 0 and
then the loop of `expression` with the value of `a` plus what that gives, on
the input `rest` with the store unchanged.  (2) When the next token of `rest`
is read and is none of `+`, `-`, `*`, `/`, `%`, `^`, the iteration raises no
error and prints the value of `a`; the store is unchanged and that token is
left in the buffer.  (3) Whatever `rest` is, an iteration that ends normally
ends with the store it started with. -/
theorem C29_unknown_name_in_sum (pow : ℚ → ℚ → ℚ) (n : Nat) (a : NumLit)
    (w0 w1 w2 w3 y rest : List Char) (buf : token) (vars : List UserVar)
    (out : List Output)
    (ha : a.valid = true)
    (h0 : blank w0 = true) (h1 : blank w1 = true) (h2 : blank w2 = true)
    (h3 : blank w3 = true)
    (hy : isName y = true) (hc : is_command (lowcase y) = false)
    (hs : is_sysvar (lowcase y) = false) (hu : is_usrvar vars y = false) :
    calculate_iter pow (n + 4)
        (Calc.reading
          (w0 ++ (a.chars ++ (w1 ++ '+' :: (w2 ++ (y ++ (w3 ++ ';' :: rest)))))) buf vars out) =
      calculate_catch
        (((termLoop pow (n + 1) 0
            (Calc.reading rest (token.ofKind '+') vars
              (out ++ [.promptText, .resultMark]))).bind
          fun d s3 => exprLoop pow (n + 2) (a.dvalue + d) s3).bind
          fun v s4 => .ok false (s4.put (.result v))) ∧
    (∀ (t : token) (s2 : Calc),
      token_stream.get (Calc.reading rest (token.ofKind '+') vars
        (out ++ [.promptText, .resultMark])) = .ok t s2 →
      t.kind_ ≠ '+' → t.kind_ ≠ '-' → t.kind_ ≠ '*' → t.kind_ ≠ '/' → t.kind_ ≠ '%' →
      t.kind_ ≠ '^' →
      calculate_iter pow (n + 4)
          (Calc.reading
            (w0 ++ (a.chars ++ (w1 ++ '+' :: (w2 ++ (y ++ (w3 ++ ';' :: rest)))))) buf vars
            out) =
        .ok false ⟨s2.cin, ⟨true, t⟩, vars,
          out ++ [.promptText, .resultMark, .result a.dvalue]⟩) ∧
    (∀ (b : Bool) (s5 : Calc),
      calculate_iter pow (n + 4)
          (Calc.reading
            (w0 ++ (a.chars ++ (w1 ++ '+' :: (w2 ++ (y ++ (w3 ++ ';' :: rest)))))) buf vars
            out) = .ok b s5 →
      s5.vecUserVars = vars) := by
  have key : calculate_iter pow (n + 4)
        (Calc.reading
          (w0 ++ (a.chars ++ (w1 ++ '+' :: (w2 ++ (y ++ (w3 ++ ';' :: rest)))))) buf vars out) =
      calculate_catch
        (((termLoop pow (n + 1) 0
            (Calc.reading rest (token.ofKind '+') vars
              (out ++ [.promptText, .resultMark]))).bind
          fun d s3 => exprLoop pow (n + 2) (a.dvalue + d) s3).bind
          fun v s4 => .ok false (s4.put (.result v))) := by
    obtain ⟨y0, r0, hy0, hys⟩ := blank_cons_stops w1 '+'
      (w2 ++ (y ++ (w3 ++ ';' :: rest))) h1 (by decide)
    have ht := calculate_try_lit pow (n + 3) w0 a y0 r0 buf vars out h0 ha hys
    rw [← hy0] at ht
    have p1 := primary_number_holding pow (n + 1) w1 a.dvalue '+'
      (w2 ++ (y ++ (w3 ++ ';' :: rest))) vars (out ++ [Output.promptText, Output.resultMark])
      h1 (by decide) (by decide)
    have p2 := primary_declare pow n w2 w3 y rest (token.ofKind '+')
      vars (out ++ [Output.promptText, Output.resultMark]) h2 h3 hy hc hs hu
    rw [calculate_iter_catch, ht, expression, term, p1]
    simp only [Res.bind]
    rw [termLoop_stop pow _ _ _ _ _ _ (by decide) (by decide) (by decide) (by decide)]
    simp only []
    rw [exprLoop_plus, term, p2]
    simp only [Res.bind]
  refine ⟨key, ?_, ?_⟩
  · intro t s2 hg hp hm ht hd hmod hpw
    obtain ⟨_, hv, hc⟩ := get_frame _ _ _ hg
    rw [key, termLoop_other pow n 0 _ t s2 hg ht hd hmod hpw]
    simp only [Res.bind]
    rw [exprLoop_other pow (n + 1) _ s2 t hp hm]
    simp only [calculate_catch, Calc.put, Calc.reading] at hv hc ⊢
    rw [hv, hc]
    simp
  · intro b s5 h
    rw [key] at h
    have hk1 := (evaluator_keeps pow (fun _ => True) vars (fun _ _ => trivial) (n + 1)).2.1 0
      (Calc.reading rest (token.ofKind '+') vars (out ++ [.promptText, .resultMark]))
      ⟨rfl, fun _ => trivial⟩
    cases h1 : termLoop pow (n + 1) 0
        (Calc.reading rest (token.ofKind '+') vars (out ++ [.promptText, .resultMark])) with
    | abort x => simp [h1, Res.bind, calculate_catch] at h
    | throw e s3 =>
      rw [h1] at hk1
      simp only [h1, Res.bind, calculate_catch, Res.ok.injEq] at h
      rw [← h.2, (clean_up_mess_store _).1]
      exact hk1.2.1
    | ok d s3 =>
      rw [h1] at hk1
      simp only [h1, Res.bind] at h
      have hk2 := (evaluator_keeps pow (fun _ => True) vars (fun _ _ => trivial)
        (n + 2)).2.2.2.1 (a.dvalue + d) s3 hk1
      cases h2 : exprLoop pow (n + 2) (a.dvalue + d) s3 with
      | abort x => simp [h2, calculate_catch] at h
      | throw e s4 =>
        rw [h2] at hk2
        simp only [h2, calculate_catch, Res.ok.injEq] at h
        rw [← h.2, (clean_up_mess_store _).1]
        exact hk2.2.1
      | ok v s4 =>
        rw [h2] at hk2
        simp only [h2, calculate_catch, Res.ok.injEq] at h
        rw [← h.2]
        exact hk2.1

/-- C29 (amended) at concrete inputs: on `2+y;7;` and on `2+y;(3);` the
iteration prints 2, the store stays empty, and the token of `7`, or `(`, is
in the buffer with the input after it unread. -/
theorem C29_unknown_name_in_sum_witness :
    calculate_iter natPow 4
        (Calc.reading ['2', '+', 'y', ';', '7', ';'] (token.ofKind empt) [] []) =
      .ok false (Calc.holding [';'] (token.ofValue 7) []
        [.promptText, .resultMark, .result lit2.dvalue]) ∧
    calculate_iter natPow 4
        (Calc.reading ['2', '+', 'y', ';', '(', '3', ')', ';'] (token.ofKind empt) [] []) =
      .ok false (Calc.holding ['3', ')', ';'] (token.ofKind '(') []
        [.promptText, .resultMark, .result lit2.dvalue]) ∧
    lit2.dvalue = 2 :=
  ⟨(C29_unknown_name_in_sum natPow 0 lit2 [] [] [] [] ['y'] ['7', ';']
      (token.ofKind empt) [] [] lit2_valid rfl rfl rfl rfl rfl (by decide) (by decide)
      rfl).2.1 (token.ofValue 7)
      (Calc.reading [';'] (token.ofKind '+') [] [.promptText, .resultMark]) (by decide!)
      (by decide) (by decide) (by decide) (by decide) (by decide) (by decide),
    (C29_unknown_name_in_sum natPow 0 lit2 [] [] [] [] ['y'] ['(', '3', ')', ';']
      (token.ofKind empt) [] [] lit2_valid rfl rfl rfl rfl rfl (by decide) (by decide)
      rfl).2.1 (token.ofKind '(')
      (Calc.reading ['3', ')', ';'] (token.ofKind '+') [] [.promptText, .resultMark])
      (by decide!) (by decide) (by decide) (by decide) (by decide) (by decide) (by decide),
    by decide!⟩

end Calculator
